import Mathlib

/-!
# Textile: the file pipeline, the stores, the node and the commands

A shallow embedding of `core/files.go`, `core/main.go`, `core/threads.go`,
`core/notifications.go`, `core/thread_announces.go`, `repo/model.go`,
`repo/db/contacts.go`, `cmd/sub.go` and `cmd/contacts.go` of textile-go, and
the properties of the file pipeline, the contact table and the cafe request
store, the node lifecycle, threads and invites, and the command line client.

Byte strings (`[]byte`) are lists of naturals; every consumer reads a byte
`b` as `b % 256`.
-/

set_option linter.dupNamespace false
set_option autoImplicit false

namespace Textile

/-- Go `[]byte`. -/
abbrev Bytes := List Nat

/-! ## SHA-256 (`crypto/sha256.Sum256`, FIPS 180-4) -/

namespace SHA256

/-- Reduce to a 32-bit word. -/
def w32 (x : Nat) : Nat := x % 4294967296

/-- Rotate a 32-bit word right by `n` bits (`0 < n < 32`). -/
def ROTR (x n : Nat) : Nat := w32 ((x >>> n) ||| (x <<< (32 - n)))

def Ch (x y z : Nat) : Nat := (x &&& y) ^^^ ((4294967295 - x) &&& z)

def Maj (x y z : Nat) : Nat := (x &&& y) ^^^ (x &&& z) ^^^ (y &&& z)

def Sigma0 (x : Nat) : Nat := ROTR x 2 ^^^ ROTR x 13 ^^^ ROTR x 22

def Sigma1 (x : Nat) : Nat := ROTR x 6 ^^^ ROTR x 11 ^^^ ROTR x 25

def sigma0 (x : Nat) : Nat := ROTR x 7 ^^^ ROTR x 18 ^^^ (x >>> 3)

def sigma1 (x : Nat) : Nat := ROTR x 17 ^^^ ROTR x 19 ^^^ (x >>> 10)

/-- Round constants. -/
def K : List Nat :=
  [1116352408, 1899447441, 3049323471, 3921009573, 961987163, 1508970993, 2453635748, 2870763221,
   3624381080, 310598401, 607225278, 1426881987, 1925078388, 2162078206, 2614888103, 3248222580,
   3835390401, 4022224774, 264347078, 604807628, 770255983, 1249150122, 1555081692, 1996064986,
   2554220882, 2821834349, 2952996808, 3210313671, 3336571891, 3584528711, 113926993, 338241895,
   666307205, 773529912, 1294757372, 1396182291, 1695183700, 1986661051, 2177026350, 2456956037,
   2730485921, 2820302411, 3259730800, 3345764771, 3516065817, 3600352804, 4094571909, 275423344,
   430227734, 506948616, 659060556, 883997877, 958139571, 1322822218, 1537002063, 1747873779,
   1955562222, 2024104815, 2227730452, 2361852424, 2428436474, 2756734187, 3204031479, 3329325298]

/-- Initial hash value. -/
def H0 : List Nat :=
  [1779033703, 3144134277, 1013904242, 2773480762, 1359893119, 2600822924, 528734635, 1541459225]

/-- Big-endian bytes of `x`, `n` of them. -/
def beBytes : Nat → Nat → Bytes
  | 0, _ => []
  | n + 1, x => (x >>> (8 * n)) % 256 :: beBytes n x

/-- The padded message: the bytes, `0x80`, zeros up to 56 mod 64, then the
bit length as 8 big-endian bytes. -/
def pad (msg : Bytes) : Bytes :=
  let l := msg.length
  msg.map (· % 256) ++ [128] ++ List.replicate ((119 - l % 64) % 64) 0 ++ beBytes 8 (8 * l)

/-- Read big-endian 32-bit words. -/
def words : Nat → Bytes → List Nat
  | 0, _ => []
  | n + 1, bs =>
    (bs.getD 0 0 * 16777216 + bs.getD 1 0 * 65536 + bs.getD 2 0 * 256 + bs.getD 3 0)
      :: words n (bs.drop 4)

/-- Extend the message schedule by `n` words; `rev` holds the words so far,
newest first. -/
def extend : Nat → List Nat → List Nat
  | 0, rev => rev
  | n + 1, rev =>
    extend n
      (w32 (sigma1 (rev.getD 1 0) + rev.getD 6 0 + sigma0 (rev.getD 14 0) + rev.getD 15 0) :: rev)

/-- The 64-word message schedule of one 64-byte block. -/
def schedule (block : Bytes) : List Nat :=
  (extend 48 (words 16 block).reverse).reverse

/-- One compression round on the working variables `[a, b, c, d, e, f, g, h]`. -/
def round (s : List Nat) (kw : Nat × Nat) : List Nat :=
  match s with
  | [a, b, c, d, e, f, g, h] =>
    let T1 := h + Sigma1 e + Ch e f g + kw.1 + kw.2
    let T2 := Sigma0 a + Maj a b c
    [w32 (T1 + T2), a, b, c, w32 (d + T1), e, f, g]
  | _ => s

/-- Compress one block into the hash state. -/
def compress (h : List Nat) (block : Bytes) : List Nat :=
  List.zipWith (fun x y => w32 (x + y)) h ((K.zip (schedule block)).foldl round h)

/-- Process `n` consecutive 64-byte blocks. -/
def blocks : Nat → List Nat → Bytes → List Nat
  | 0, h, _ => h
  | n + 1, h, bs => blocks n (compress h (bs.take 64)) (bs.drop 64)

/-- `sha256.Sum256`: the 32-byte digest. -/
def Sum256 (msg : Bytes) : Bytes :=
  let p := pad msg
  (blocks (p.length / 64) H0 p).flatMap (beBytes 4)

end SHA256

/-! ## Base58 (`base58.FastBase58Encoding`, Bitcoin alphabet) -/

namespace Base58

/-- The Bitcoin alphabet. -/
def alphabet : List Char := "123456789ABCDEFGHJKLMNPQRSTUVWXYZabcdefghijkmnopqrstuvwxyz".toList

/-- The digit character of a value below 58. -/
def digit (d : Nat) : Char := alphabet.getD d '1'

/-- The big-endian number a byte string denotes. -/
def toNat (bs : Bytes) : Nat := bs.foldl (fun acc b => acc * 256 + b % 256) 0

/-- Base-58 digits of `x`, most significant first, prepended to `acc`. -/
def digits : Nat → Nat → List Char → List Char
  | 0, _, acc => acc
  | fuel + 1, x, acc => if x = 0 then acc else digits fuel (x / 58) (digit (x % 58) :: acc)

/-- The leading zero bytes of the input. -/
def zeros (bs : Bytes) : Nat := (bs.takeWhile (· % 256 = 0)).length

/-- `base58.FastBase58Encoding`: one `1` per leading zero byte, then the
base-58 digits of the rest. -/
def FastBase58Encoding (bs : Bytes) : String :=
  String.mk (List.replicate (zeros bs) '1' ++ digits (2 * bs.length) (toNat bs) [])

end Base58

/-! ## `checksum` -/

/-- `Textile.checksum` (core/files.go): append the flag byte, hash, encode. -/
def checksum (plaintext : Bytes) (willEncrypt : Bool) : String :=
  let add : Nat := if willEncrypt then 1 else 0
  let plaintext := plaintext ++ [add]
  let sum := SHA256.Sum256 plaintext
  Base58.FastBase58Encoding sum


/-! ## Data model -/

/-- Go `error`, by its message. -/
abbrev Error := String

/-- Modelled from the spec: the record `repo.File`, whose declaration is not
in `repo/model.go`; the fields are those `core/files.go` reads and writes
(spec §3 *File*). `Added` is a timestamp, `Meta` the encoded metadata. -/
structure File where
  Mill : String := ""
  Checksum : String := ""
  Source : String := ""
  Opts : String := ""
  Hash : String := ""
  Key : String := ""
  Media : String := ""
  Name : String := ""
  Size : Nat := 0
  Added : Nat := 0
  Meta : String := ""
  Targets : List String := []
deriving DecidableEq, Repr

/-- `core.AddFileConfig`. -/
structure AddFileConfig where
  Input : Bytes := []
  Use : String := ""
  Media : String := ""
  Name : String := ""
  Plaintext : Bool := false
deriving DecidableEq, Repr

/-- `mill.Result`: the milled bytes and their metadata. -/
structure Result where
  File : Bytes
  Meta : String
deriving DecidableEq, Repr

/-- The interface `mill.Mill` as `AddFile` uses it. `Options` receives the
value stored under `"plaintext"` in the options map. -/
structure Mill where
  ID : String
  Encrypt : Bool
  Pin : Bool
  Options : Bool → Except Error String
  Mill : Bytes → String → Except Error Result

/-- The interface `repo.FileStore` (repo/datastore.go) over a table state `σ`:
the four methods `core/files.go` calls. A failed `Add` leaves the table as it
was. -/
structure FileStore (σ : Type) where
  Add : σ → File → Except Error σ
  Get : σ → String → Option File
  GetByPrimary : σ → String → String → Option File
  GetBySource : σ → String → String → String → Option File

/-- The collaborators of `Textile.AddFile` outside `core`: the file table,
`ipfs.AddData` on the node (returning the base58 hash of the added data),
`crypto.GenerateAESKey` drawing from a random source `ρ`, and
`crypto.EncryptAES`. -/
structure Env (σ ο ρ : Type) where
  Files : FileStore σ
  AddData : ο → Bytes → Bool → Except Error (String × ο)
  GenerateAESKey : ρ → Except Error (Bytes × ρ)
  EncryptAES : Bytes → Bytes → Except Error Bytes

/-- A call that leaves `core`, as recorded in `World.log`. -/
inductive Call where
  | Mill (input : Bytes) (name : String)
  | GenerateAESKey
  | EncryptAES (plaintext key : Bytes)
  | AddData (payload : Bytes) (pin : Bool)
  | FilesAdd (row : File)
deriving DecidableEq, Repr

/-- The state `AddFile` runs in: the file table, the node's object store, the
random source, the clock read by `time.Now`, and the calls made so far
(oldest first). -/
structure World (σ ο ρ : Type) where
  files : σ
  node : ο
  rand : ρ
  now : Nat
  log : List Call

/-- Record a call. -/
def World.call {σ ο ρ : Type} (t : World σ ο ρ) (c : Call) : World σ ο ρ :=
  { t with log := t.log ++ [c] }

/-- `repo.ConflictError`: the message names a unique-constraint failure. -/
def ConflictError (err : Error) : Bool :=
  decide ("UNIQUE constraint failed".toList <:+: err.toList)

/-! ## `AddFile` -/

/-- Lines 44-49 of `AddFile`: the source key. -/
def AddFile.source (conf : AddFileConfig) : String :=
  if conf.Use ≠ "" then conf.Use else checksum conf.Input conf.Plaintext

/-- Lines 72-82 of `AddFile`: the row before key and hash are known. -/
def AddFile.model (mill : Mill) (conf : AddFileConfig) (source opts check : String)
    (res : Result) (now : Nat) : File :=
  { Mill := mill.ID, Checksum := check, Source := source, Opts := opts, Media := conf.Media,
    Name := conf.Name, Size := res.File.length, Added := now, Meta := res.Meta }

/-- Lines 100-113 of `AddFile`: add the payload to the object store, insert
the row, return the row read back by hash. -/
def AddFile.store {σ ο ρ : Type} (env : Env σ ο ρ) (mill : Mill) (model : File)
    (payload : Bytes) (t : World σ ο ρ) : Except Error (Option File) × World σ ο ρ :=
  let t := t.call (.AddData payload mill.Pin)
  match env.AddData t.node payload mill.Pin with
  | .error err => (.error err, t)
  | .ok (hash, node) =>
    let t := { t with node := node }
    let model := { model with Hash := hash }
    let t := t.call (.FilesAdd model)
    match env.Files.Add t.files model with
    | .error err => (.error err, t)
    | .ok files =>
      let t := { t with files := files }
      (.ok (env.Files.Get t.files model.Hash), t)

/-- `Textile.AddFile` (core/files.go). The result is Go's `(*repo.File, error)`:
`.ok none` is `(nil, nil)`. -/
def AddFile {σ ο ρ : Type} (env : Env σ ο ρ) (mill : Mill) (conf : AddFileConfig)
    (t : World σ ο ρ) : Except Error (Option File) × World σ ο ρ :=
  let source := AddFile.source conf
  match mill.Options conf.Plaintext with
  | .error err => (.error err, t)
  | .ok opts =>
    match env.Files.GetBySource t.files mill.ID source opts with
    | some efile => (.ok (some efile), t)
    | none =>
      let t := t.call (.Mill conf.Input conf.Name)
      match mill.Mill conf.Input conf.Name with
      | .error err => (.error err, t)
      | .ok res =>
        let check := checksum res.File conf.Plaintext
        match env.Files.GetByPrimary t.files mill.ID check with
        | some efile => (.ok (some efile), t)
        | none =>
          let model := AddFile.model mill conf source opts check res t.now
          if mill.Encrypt && !conf.Plaintext then
            let t := t.call .GenerateAESKey
            match env.GenerateAESKey t.rand with
            | .error err => (.error err, t)
            | .ok (key, rand) =>
              let t := { t with rand := rand }
              let t := t.call (.EncryptAES res.File key)
              match env.EncryptAES res.File key with
              | .error err => (.error err, t)
              | .ok ciphertext =>
                AddFile.store env mill
                  { model with Key := Base58.FastBase58Encoding key } ciphertext t
          else
            AddFile.store env mill model res.File t

/-! ## A file table and an object store to run `AddFile` on -/

/-- Whether two rows collide on the primary key `(mill, checksum)`. -/
def FileDB.primary (a b : File) : Bool := a.Mill == b.Mill && a.Checksum == b.Checksum

/-- Whether two rows collide on the primary key or on the hash. -/
def FileDB.primaryOrHash (a b : File) : Bool := FileDB.primary a b || a.Hash == b.Hash

/-- Modelled from the spec: the file table behind `repo.FileStore` (its
implementation, `repo/db/files.go`, is not among the sources). Rows are kept
in insertion order; `unique` says which pairs of rows violate a unique
constraint, and a violating insert fails with a conflict error (spec §3
invariant 4, §4.2); lookups return the first matching row. -/
def FileDB (unique : File → File → Bool) : FileStore (List File) where
  Add := fun rows f =>
    if rows.any (unique f) then .error "UNIQUE constraint failed: files" else .ok (rows ++ [f])
  Get := fun rows hash => rows.find? (fun r => r.Hash == hash)
  GetByPrimary := fun rows mill check => rows.find? (fun r => r.Mill == mill && r.Checksum == check)
  GetBySource := fun rows mill source opts =>
    rows.find? (fun r => r.Mill == mill && r.Source == source && r.Opts == opts)

/-- An object store that keeps every added payload with its pin flag and
addresses it by the encoded SHA-256 digest of the payload. -/
def blobStore (blobs : List (String × Bytes × Bool)) (payload : Bytes) (pin : Bool) :
    Except Error (String × List (String × Bytes × Bool)) :=
  let hash := Base58.FastBase58Encoding (SHA256.Sum256 payload)
  .ok (hash, blobs ++ [(hash, payload, pin)])

/-- A random source that hands out the queued keys in order; an empty key is
a failed read. -/
def queuedKeys : List Bytes → Except Error (Bytes × List Bytes)
  | [] => .error "no entropy"
  | k :: ks => if k = [] then .error "short read" else .ok (k, ks)

/-- A stand-in cipher: add the key bytes to the plaintext bytes, cyclically. -/
def xorCipher (plaintext key : Bytes) : Except Error Bytes :=
  if key = [] then .error "invalid key"
  else .ok (plaintext.enum.map fun (i, b) => (b + key.getD (i % key.length) 0) % 256)

/-- The test environment: the file table with its primary key, the blob store,
queued keys and the stand-in cipher. -/
def testEnv (unique : File → File → Bool) :
    Env (List File) (List (String × Bytes × Bool)) (List Bytes) where
  Files := FileDB unique
  AddData := blobStore
  GenerateAESKey := queuedKeys
  EncryptAES := xorCipher

/-- A pass-through mill: the output is the input. -/
def passMill (id : String) (encrypt : Bool) : Mill where
  ID := id
  Encrypt := encrypt
  Pin := true
  Options := fun plaintext => .ok (if plaintext then "p" else "e")
  Mill := fun input _ => .ok { File := input, Meta := "" }

/-- The bytes of `"hello"`. -/
def hello : Bytes := [104, 101, 108, 108, 111]

/-- An empty world at time 7 with one queued key. -/
def world0 : World (List File) (List (String × Bytes × Bool)) (List Bytes) :=
  { files := [], node := [], rand := [[1, 2, 3]], now := 7, log := [] }


/-- The row of a result, if it has one. -/
def rowOf (r : Except Error (Option File)) : Option File :=
  match r with
  | .ok f => f
  | .error _ => none

/-- The error of a result, if it has one. -/
def errorOf (r : Except Error (Option File)) : Option Error :=
  match r with
  | .ok _ => none
  | .error err => some err

/-- The row the first `AddFile` of `"hello"` inserts in `world0` through the
encrypting pass-through mill. -/
def helloRow : File :=
  { Mill := "/blob", Checksum := "HQEqUr8DCAXfznsJkPCvKDb9uCS2rvN9UsyUwtgJVa5Z",
    Source := "HQEqUr8DCAXfznsJkPCvKDb9uCS2rvN9UsyUwtgJVa5Z", Opts := "e",
    Hash := "GCnp9vkaxxZxV3qUsvYtxXtuHBjxNBqPqJWBX1VS2n1g", Key := "Ldp", Size := 5, Added := 7 }

/-- The world after the first `AddFile` of `"hello"` in `world0`. -/
def world1 : World (List File) (List (String × Bytes × Bool)) (List Bytes) :=
  (AddFile (testEnv FileDB.primary) (passMill "/blob" true) { Input := hello } world0).2

/-- A second request for `"hello"`, naming its source explicitly. -/
def helloUse : AddFileConfig := { Input := hello, Use := "other" }

/-- The world after `"hello"` went through a mill that does not encrypt, over
a table in which the hash is unique as well. -/
def worldH : World (List File) (List (String × Bytes × Bool)) (List Bytes) :=
  (AddFile (testEnv FileDB.primaryOrHash) (passMill "/blob" false) { Input := hello } world0).2

/-- The row a second mill, `/json`, tries to insert for `"hello"` in `worldH`. -/
def helloJsonRow : File :=
  { Mill := "/json", Checksum := "HQEqUr8DCAXfznsJkPCvKDb9uCS2rvN9UsyUwtgJVa5Z",
    Source := "HQEqUr8DCAXfznsJkPCvKDb9uCS2rvN9UsyUwtgJVa5Z", Opts := "e",
    Hash := "42TEXg1vFAbcJ65y7qdYG9iCPvYfy3NDdVLd75akX2P5", Size := 5, Added := 7 }

/-! ## Base58 decoding and `strconv.Itoa` -/

/-- The value of a base-58 digit character. -/
def Base58.index (c : Char) : Option Nat :=
  let i := Base58.alphabet.indexOf c
  if i < 58 then some i else none

/-- The values of a string of base-58 digits, if all are digits. -/
def Base58.values : List Char → Option (List Nat)
  | [] => some []
  | c :: cs =>
    match Base58.index c, Base58.values cs with
    | some d, some ds => some (d :: ds)
    | _, _ => none

/-- Big-endian bytes of `x` without leading zeros, prepended to `acc`. -/
def Base58.natBytes : Nat → Nat → Bytes → Bytes
  | 0, _, acc => acc
  | fuel + 1, x, acc => if x = 0 then acc else Base58.natBytes fuel (x / 256) (x % 256 :: acc)

/-- `base58.Decode`: one zero byte per leading `1`, then the bytes of the
number the digits denote. -/
def Base58.Decode (s : String) : Except Error Bytes :=
  if s = "" then .error "zero length string"
  else
    match Base58.values s.toList with
    | none => .error "invalid base58 digit"
    | some ds =>
      .ok (List.replicate (s.toList.takeWhile (· == '1')).length 0 ++
        Base58.natBytes s.length (ds.foldl (fun acc d => acc * 58 + d) 0) [])

/-- Decimal digits of `n`, most significant first, prepended to `acc`. -/
def Itoa.digits : Nat → Nat → List Char → List Char
  | 0, _, acc => acc
  | fuel + 1, n, acc =>
    if n < 10 then Char.ofNat (48 + n) :: acc
    else Itoa.digits fuel (n / 10) (Char.ofNat (48 + n % 10) :: acc)

/-- `strconv.Itoa` on a non-negative `int`. -/
def Itoa (n : Nat) : String := String.mk (Itoa.digits (n + 1) n [])

/-- The number a string of decimal digits denotes. -/
def Itoa.value (cs : List Char) : Nat := cs.foldl (fun acc c => acc * 10 + (c.toNat - 48)) 0

/-! ## The object store as a DAG -/

/-- `ipld.Link`: a name and the cid of the target, as a base58 string. -/
structure Link where
  Name : String
  Cid : String
deriving DecidableEq, Repr

/-- `ipld.Node` as the merkledag node it is here: data and links. -/
structure Node where
  Data : Bytes
  Links : List Link
deriving DecidableEq, Repr

/-- The IPFS node `t.node` as the directory functions see it: the nodes of the
DAG service by cid, and the pinned cids with their recursive flag. -/
structure Dag where
  nodes : List (String × Node)
  pins : List (String × Bool)
deriving DecidableEq, Repr

/-- `core.Keys`, a Go map from path to key: an association list whose paths
are distinct. -/
abbrev Keys := List (String × String)

/-- Go `keys[path] = key`. -/
def Keys.set (keys : Keys) (path key : String) : Keys :=
  if keys.any (fun p => p.1 == path) then
    keys.map (fun p => if p.1 == path then (path, key) else p)
  else keys ++ [(path, key)]

/-- Go `keys[path]`, when present. -/
def Keys.get (keys : Keys) (path : String) : Option String :=
  (keys.find? (fun p => p.1 == path)).map (·.2)

/-- The collaborators of the directory functions outside `core`: the file
table, the cid of a node (`node.Cid().Hash().B58String()`), `json.Marshal` on a
file record, and `crypto.EncryptAES`. -/
structure DagEnv (σ : Type) where
  Files : FileStore σ
  cid : Node → String
  Marshal : File → Except Error Bytes
  EncryptAES : Bytes → Bytes → Except Error Bytes

def ErrFileNotFound : Error := "file not found"

def ErrMissingFileLink : Error := "file link not in node"

def ErrMissingDataLink : Error := "data link not in node"

def FileLinkName : String := "f"

def DataLinkName : String := "d"

/-- The DAG service's `Get`: the node stored under a cid. -/
def Dag.Get (dag : Dag) (c : String) : Except Error Node :=
  match dag.nodes.find? (fun p => p.1 == c) with
  | some p => .ok p.2
  | none => .error "merkledag: not found"

/-- The DAG service's `Add`: store a node under its cid, unless present. -/
def Dag.Add (dag : Dag) (c : String) (n : Node) : Dag :=
  if dag.nodes.any (fun p => p.1 == c) then dag else { dag with nodes := dag.nodes ++ [(c, n)] }

/-- Order of links in an encoded node: by name (`LinkSlice.Less`). -/
def Link.le (a b : Link) : Prop := ¬ b.Name.data < a.Name.data

instance : DecidableRel Link.le :=
  fun a b => inferInstanceAs (Decidable (¬ b.Name.data < a.Name.data))

/-- The merkledag encoder keeps the links of a node sorted by name, stably
(`sort.Stable(LinkSlice(n.links))` on every encoding); a node that has been
given a cid or read from the DAG lists its links in this order. -/
def Node.encoded (n : Node) : Node := { n with Links := n.Links.insertionSort Link.le }

/-- `uio.Directory` (a basic directory): the node under construction. -/
structure Directory where
  node : Node
deriving DecidableEq, Repr

/-- `uio.NewDirectory`: an empty directory node, its data the UnixFS directory
marker. -/
def NewDirectory : Directory := { node := { Data := [8, 1], Links := [] } }

/-- `Directory.AddChild`: drop any link of that name, append the new link. -/
def Directory.AddChild (d : Directory) (name c : String) : Directory :=
  { node := { d.node with
      Links := d.node.Links.filter (fun l => l.Name != name) ++ [{ Name := name, Cid := c }] } }

/-- `Directory.GetNode`. -/
def Directory.GetNode (d : Directory) : Node := d.node

/-- Modelled from the spec: `ipfs.AddData` (package `ipfs` is not among the
sources; spec §4.3 `addBytes(reader, pin) → multihash`): store the bytes as a
leaf node, pin it when asked, return its cid. -/
def ipfs.AddData {σ : Type} (env : DagEnv σ) (dag : Dag) (data : Bytes) (pin : Bool) :
    Except Error (String × Dag) :=
  let n : Node := { Data := data, Links := [] }
  let c := env.cid n
  let dag := dag.Add c n
  .ok (c, if pin then { dag with pins := dag.pins ++ [(c, true)] } else dag)

/-- Modelled from the spec: `ipfs.AddDataToDirectory` (spec §4.3
`addBytesToDir(dir, name, reader)`): add the bytes unpinned, link them into the
directory under `fname`. -/
def ipfs.AddDataToDirectory {σ : Type} (env : DagEnv σ) (dag : Dag) (dir : Directory)
    (fname : String) (data : Bytes) : Except Error (String × Directory × Dag) := do
  let (id, dag) ← ipfs.AddData env dag data false
  let _ ← dag.Get id
  pure (id, dir.AddChild fname id, dag)

/-- Modelled from the spec: `ipfs.AddLinkToDirectory` (spec §4.3
`addLinkToDir(dir, name, childHash)`): fetch the node at `pth`, link it into
the directory under `fname`. -/
def ipfs.AddLinkToDirectory (dag : Dag) (dir : Directory) (fname pth : String) :
    Except Error Directory := do
  let _ ← dag.Get pth
  pure (dir.AddChild fname pth)

/-- Modelled from the spec: `ipfs.PinNode` (spec §4.3 `pinNode(node,
recursive)`): the pinner adds the node to the DAG, which encodes it, and
records the pin. The node comes back as encoded. -/
def ipfs.PinNode {σ : Type} (env : DagEnv σ) (dag : Dag) (nd : Node) (recursive : Bool) :
    Except Error (Node × Dag) :=
  let nd := nd.encoded
  let c := env.cid nd
  let dag := dag.Add c nd
  .ok (nd, { dag with pins := dag.pins ++ [(c, recursive)] })

/-- Modelled from the spec: `ipfs.NodeAtLink` (spec §4.3 `nodeAtLink(link) →
node`). -/
def ipfs.NodeAtLink (dag : Dag) (link : Link) : Except Error Node := dag.Get link.Cid

/-- Modelled from the spec: `schema.LinkByName` (package `schema` is not among
the sources): the first link of that name, if any. -/
def schema.LinkByName (links : List Link) (name : String) : Option Link :=
  links.find? (fun l => l.Name == name)

/-! ## Directory nodes: `AddNodeFromFiles` and `TargetNodeKeys` -/

/-- Lines 261-284 of `fileNode`: the bytes stored under the `f` link, the
marshalled record with its targets removed, encrypted under the decoded key
when the file has one. -/
def fileNode.reader {σ : Type} (env : DagEnv σ) (file : File) : Except Error Bytes := do
  -- remove locally indexed targets
  let file := { file with Targets := [] }
  let plaintext ← env.Marshal file
  if file.Key ≠ "" then do
    let key ← Base58.Decode file.Key
    let ciphertext ← env.EncryptAES plaintext key
    pure ciphertext
  else
    pure plaintext

/-- `Textile.fileNode` (core/files.go): build the pair node of a file and link
it into `dir` under `link`. The directory and the DAG are returned as updated;
after an error neither is used again. -/
def fileNode {σ : Type} (env : DagEnv σ) (s : σ) (file : File) (dir : Directory)
    (link : String) (dag : Dag) : Except Error (Directory × Dag) := do
  if (env.Files.Get s file.Hash).isNone then
    throw ErrFileNotFound
  let reader ← fileNode.reader env file
  let pair := NewDirectory
  let (_, pair, dag) ← ipfs.AddDataToDirectory env dag pair FileLinkName reader
  let pair ← ipfs.AddLinkToDirectory dag pair DataLinkName file.Hash
  let node := pair.GetNode
  let (node, dag) ← ipfs.PinNode env dag node false
  let dir ← ipfs.AddLinkToDirectory dag dir link (env.cid node)
  pure (dir, dag)

/-- The pair node `fileNode` pins for a file whose `f` bytes are `reader`. -/
def fileNode.pair {σ : Type} (env : DagEnv σ) (file : File) (reader : Bytes) : Node :=
  ((NewDirectory.AddChild FileLinkName (env.cid { Data := reader, Links := [] })).AddChild
    DataLinkName file.Hash).GetNode.encoded

/-- The path of the `i`-th file in `Keys`. -/
def keyPath (i : Nat) : String := "/" ++ Itoa i ++ "/"

/-- The loop of `AddNodeFromFiles`, from index `i` on. -/
def AddNodeFromFiles.loop {σ : Type} (env : DagEnv σ) (s : σ) :
    Nat → List File → Directory → Keys → Dag → Except Error (Directory × Keys × Dag)
  | _, [], outer, keys, dag => .ok (outer, keys, dag)
  | i, file :: files, outer, keys, dag => do
    let link := Itoa i
    let (outer, dag) ← fileNode env s file outer link dag
    AddNodeFromFiles.loop env s (i + 1) files outer (keys.set ("/" ++ link ++ "/") file.Key) dag

/-- `Textile.AddNodeFromFiles` (core/files.go). -/
def AddNodeFromFiles {σ : Type} (env : DagEnv σ) (s : σ) (files : List File) (dag : Dag) :
    Except Error (Node × Keys × Dag) := do
  let keys : Keys := []
  let outer := NewDirectory
  let (outer, keys, dag) ← AddNodeFromFiles.loop env s 0 files outer keys dag
  let node := outer.GetNode
  let (node, dag) ← ipfs.PinNode env dag node false
  pure (node, keys, dag)

/-- `looksLikeFileNode` (core/files.go): two links, one named `f`, one `d`. -/
def looksLikeFileNode (node : Node) : Bool :=
  let links := node.Links
  if links.length ≠ 2 then false
  else if (schema.LinkByName links FileLinkName).isNone ||
      (schema.LinkByName links DataLinkName).isNone then false
  else true

/-- `Textile.fileLinkKey` (core/files.go): the key of the file the `d` link of
a pair node points at. -/
def fileLinkKey {σ : Type} (env : DagEnv σ) (s : σ) (inode : Node) : Except Error String :=
  match schema.LinkByName inode.Links DataLinkName with
  | none => .error ErrMissingDataLink
  | some dlink =>
    match env.Files.Get s dlink.Cid with
    | none => .error ErrFileNotFound
    | some file => .ok file.Key

/-- The loop of `fileNodeKeys` over the links of an inner directory. -/
def fileNodeKeys.loop {σ : Type} (env : DagEnv σ) (s : σ) (dag : Dag) (index : Nat) :
    List Link → Keys → Except Error Keys
  | [], vkeys => .ok vkeys
  | link :: links, vkeys => do
    let n ← ipfs.NodeAtLink dag link
    let key ← fileLinkKey env s n
    fileNodeKeys.loop env s dag index links
      (vkeys.set ("/" ++ Itoa index ++ "/" ++ link.Name ++ "/") key)

/-- `Textile.fileNodeKeys` (core/files.go): the keys below the child at
position `index`. -/
def fileNodeKeys {σ : Type} (env : DagEnv σ) (s : σ) (dag : Dag) (node : Node) (index : Nat)
    (keys : Keys) : Except Error Keys :=
  if looksLikeFileNode node then do
    let key ← fileLinkKey env s node
    pure (keys.set ("/" ++ Itoa index ++ "/") key)
  else
    fileNodeKeys.loop env s dag index node.Links keys

/-- The loop of `TargetNodeKeys`: `i` is the position of the next link in
`node.Links()`. -/
def TargetNodeKeys.loop {σ : Type} (env : DagEnv σ) (s : σ) (dag : Dag) :
    Nat → List Link → Keys → Except Error Keys
  | _, [], keys => .ok keys
  | i, link :: links, keys => do
    let fn ← ipfs.NodeAtLink dag link
    let keys ← fileNodeKeys env s dag fn i keys
    TargetNodeKeys.loop env s dag (i + 1) links keys

/-- `Textile.TargetNodeKeys` (core/files.go). -/
def TargetNodeKeys {σ : Type} (env : DagEnv σ) (s : σ) (dag : Dag) (node : Node) :
    Except Error Keys :=
  TargetNodeKeys.loop env s dag 0 node.Links []

/-- `AddNodeFromFiles` followed by `TargetNodeKeys` on the node it returns: the
keys of the first and the keys of the second, when both succeed. -/
def roundTrip {σ : Type} (env : DagEnv σ) (s : σ) (files : List File) (dag : Dag) :
    Option (Keys × Keys) :=
  match AddNodeFromFiles env s files dag with
  | .error _ => none
  | .ok (node, keys, dag) =>
    match TargetNodeKeys env s dag node with
    | .error _ => none
    | .ok keys' => some (keys, keys')

/-! ## A DAG to run the directory functions on -/

/-- The bytes of an ASCII string. -/
def ascii (s : String) : Bytes := s.toList.map Char.toNat

/-- A byte-string encoding of a node: the data, then each link. -/
def Node.bytes (n : Node) : Bytes :=
  n.Data.length :: n.Data ++
    n.Links.flatMap (fun l => (l.Name.length :: ascii l.Name) ++ (l.Cid.length :: ascii l.Cid))

/-- The test environment of the directory functions: the cid of a node is the
base58 form of its encoding (an identity hash), records are marshalled as hash
and key. -/
def testDagEnv : DagEnv (List File) where
  Files := FileDB FileDB.primary
  cid := fun n => Base58.FastBase58Encoding n.bytes
  Marshal := fun f => .ok (ascii (f.Hash ++ ":" ++ f.Key))
  EncryptAES := xorCipher

/-- The content of the `i`-th test file. -/
def testContent (i : Nat) : Bytes := [i]

/-- The `i`-th test file: stored in plain, except that files from the tenth on
carry a key. -/
def testFile (i : Nat) : File :=
  { Mill := "/blob", Checksum := Itoa i, Source := Itoa i,
    Hash := testDagEnv.cid { Data := testContent i, Links := [] },
    Key := if i < 10 then "" else "Ldp" }

/-- The first `n` test files. -/
def testFiles (n : Nat) : List File := (List.range n).map testFile

/-- A DAG holding the contents of the first `n` test files. -/
def testDag (n : Nat) : Dag :=
  { nodes := (List.range n).map fun i =>
      (testDagEnv.cid { Data := testContent i, Links := [] },
        { Data := testContent i, Links := [] }),
    pins := [] }

/-- What `AddNodeFromFiles` returns for the first two test files. -/
def testResult2 : Node × Keys × Dag :=
  match AddNodeFromFiles testDagEnv (testFiles 2) (testFiles 2) (testDag 2) with
  | .ok r => r
  | .error _ => ({ Data := [], Links := [] }, [], { nodes := [], pins := [] })

/-! ## Block types (`repo/model.go`) -/

/-- `repo.BlockType`, a Go `int`. -/
abbrev BlockType := Int

def MergeBlock : BlockType := 0

def IgnoreBlock : BlockType := 1

def FlagBlock : BlockType := 2

def JoinBlock : BlockType := 3

def AnnounceBlock : BlockType := 4

def LeaveBlock : BlockType := 5

def FileBlock : BlockType := 6

def TextBlock : BlockType := 7

def CommentBlock : BlockType := 8

def LikeBlock : BlockType := 9

/-- `BlockType.Description` (repo/model.go). -/
def BlockType.Description (b : BlockType) : String :=
  if b = MergeBlock then "MERGE"
  else if b = IgnoreBlock then "IGNORE"
  else if b = FlagBlock then "IGNORE"
  else if b = JoinBlock then "JOIN"
  else if b = AnnounceBlock then "ANNOUNCE"
  else if b = LeaveBlock then "LEAVE"
  else if b = FileBlock then "FILE"
  else if b = TextBlock then "TEXT"
  else if b = CommentBlock then "COMMENT"
  else if b = LikeBlock then "LIKE"
  else "INVALID"

/-- What `fileNode` returns for the eleventh test file, linked as `"x"` into an
empty directory. -/
def testPair : Directory × Dag :=
  match fileNode testDagEnv (testFiles 11) (testFile 10) NewDirectory "x" (testDag 11) with
  | .ok r => r
  | .error _ => (NewDirectory, { nodes := [], pins := [] })

/-! ## Contacts (`repo/db/contacts.go`) -/

/-- Go `time.Time`: whole seconds since the Unix epoch and the nanoseconds
within the second. `Time.Unix` is `sec`; `time.Unix(sec, 0)` is `⟨sec, 0⟩`. -/
structure Time where
  sec : Int
  nsec : Nat
deriving DecidableEq, Repr

/-- `Time.Unix`. -/
def Time.Unix (t : Time) : Int := t.sec

/-- `time.Unix(sec, nsec)` for `nsec` below one second. -/
def time.Unix (sec : Int) (nsec : Nat) : Time := { sec := sec, nsec := nsec }

/-- `repo.Contact`, with the `Address` field that `repo/db/contacts.go` reads
and writes. -/
structure Contact where
  Id : String
  Address : String
  Username : String
  Inboxes : List String
  Added : Time
deriving DecidableEq, Repr

/-- A row of the table `contacts`: the columns `id`, `address`, `username`,
`inboxes`, `added`. -/
structure ContactRow where
  id : String
  address : String
  username : String
  inboxes : String
  added : Int
deriving DecidableEq, Repr

/-- Modelled from the spec: the table `contacts` behind `ContactDB` (its
schema, in `repo/db`, is not among the sources): rows in insertion order,
unique by `id` (spec §3 *Contact*); `closed` is a closed database handle, on
which every statement fails. -/
structure ContactDB where
  rows : List ContactRow
  closed : Bool
deriving DecidableEq, Repr

/-- `strings.Join(elems, sep)`. -/
def strings.Join : List String → String → String
  | [], _ => ""
  | [a], _ => a
  | a :: b :: rest, sep => a ++ sep ++ strings.Join (b :: rest) sep

/-- The pieces of a character list between commas. -/
def strings.splitComma : List Char → List (List Char)
  | [] => [[]]
  | c :: cs =>
    if c = ',' then [] :: strings.splitComma cs
    else
      match strings.splitComma cs with
      | [] => [[c]]
      | p :: ps => (c :: p) :: ps

/-- `strings.Split(s, ",")`. -/
def strings.Split (s : String) : List String := (strings.splitComma s.data).map String.mk

/-- `ContactDB.Add` (repo/db/contacts.go): a plain insert, refused when the id
is taken. -/
def ContactDB.Add (c : ContactDB) (contact : Contact) : Except Error ContactDB :=
  if c.closed then .error "sql: database is closed"
  else if c.rows.any (fun r => r.id == contact.Id) then
    .error "UNIQUE constraint failed: contacts.id"
  else
    .ok { c with rows := c.rows ++
      [{ id := contact.Id, address := contact.Address, username := contact.Username,
         inboxes := strings.Join contact.Inboxes ",", added := contact.Added.Unix }] }

/-- `ContactDB.AddOrUpdate` (repo/db/contacts.go): `insert or replace` with
`added` taken from the row of that id when there is one
(`coalesce((select added from contacts where id=?),?)`). -/
def ContactDB.AddOrUpdate (c : ContactDB) (contact : Contact) : Except Error ContactDB :=
  if c.closed then .error "sql: database is closed"
  else
    let added : Int :=
      match c.rows.find? (fun r => r.id == contact.Id) with
      | some r => r.added
      | none => contact.Added.Unix
    .ok { c with rows := c.rows.filter (fun r => r.id != contact.Id) ++
      [{ id := contact.Id, address := contact.Address, username := contact.Username,
         inboxes := strings.Join contact.Inboxes ",", added := added }] }

/-- The body of the loop of `ContactDB.handleQuery`: one scanned row as a
contact. -/
def ContactDB.scan (r : ContactRow) : Contact :=
  { Id := r.id, Address := r.address, Username := r.username,
    Inboxes := (strings.Split r.inboxes).filter (fun p => p != ""),
    Added := time.Unix r.added 0 }

/-- `ContactDB.handleQuery` on the rows a query selects. -/
def ContactDB.handleQuery (rows : List ContactRow) : List Contact := rows.map ContactDB.scan

/-! ### The select of `ContactDB.Get` -/

/-- The single quote, which opens and closes an SQL string literal. -/
def sql.quote : Char := Char.ofNat 39

/-- The NUL character, at which the statement text handed to the SQL library
ends. -/
def sql.nul : Char := Char.ofNat 0

/-- An SQL string literal, read from just after its opening quote: two single
quotes stand for one quote of the text, a single quote not followed by
another closes the literal, no other character is special. The result is the
text of the literal and the statement after its closing quote, `none` when
the literal is not closed. -/
def sql.literal : List Char → Option (List Char × List Char)
  | [] => none
  | [c] => if c = sql.quote then some ([], []) else none
  | c :: d :: rest =>
    if c = sql.quote then
      if d = sql.quote then (sql.literal rest).map fun p => (sql.quote :: p.1, p.2)
      else some ([], d :: rest)
    else (sql.literal (d :: rest)).map fun p => (c :: p.1, p.2)

/-- The text of the statement of `ContactDB.Get` before the quoted id. -/
def sql.selectContact : String := "select * from contacts where id="

/-- The id that a statement selects contacts by, when the statement is
`select * from contacts where id=` followed by one string literal and `;`.
Any other text (more tokens after the literal, a literal left open, a NUL
character) gives `none`. -/
def sql.selectById (stm : List Char) : Option String :=
  if sql.nul ∈ stm then none
  else if (sql.selectContact.data ++ [sql.quote]).isPrefixOf stm then
    match sql.literal (stm.drop (sql.selectContact.data.length + 1)) with
    | some (text, [';']) => some (String.mk text)
    | _ => none
  else none

/-- The call `c.db.Query(stm)` of `database/sql` on the table `contacts`. On a
closed handle the query fails. A statement that selects by one id gives the
rows of that id. What the SQL engine answers to any other statement, an error
or the rows some other condition selects, is the parameter `other`. -/
def ContactDB.db.Query (other : List ContactRow → String → Except Error (List ContactRow))
    (c : ContactDB) (stm : String) : Except Error (List ContactRow) :=
  if c.closed then .error "sql: database is closed"
  else
    match sql.selectById stm.data with
    | some id => .ok (c.rows.filter (fun r => r.id == id))
    | none => other c.rows stm

/-- `ContactDB.Get` (repo/db/contacts.go): the id is put between two single
quotes into the text of the statement, not bound as a parameter; `handleQuery`
logs the error of a failed query and returns nil; the first contact of the
result is returned, nil when there is none. -/
def ContactDB.Get (other : List ContactRow → String → Except Error (List ContactRow))
    (c : ContactDB) (id : String) : Option Contact :=
  let stm := sql.selectContact ++ String.mk [sql.quote] ++ id ++ String.mk [sql.quote] ++ ";"
  match ContactDB.db.Query other c stm with
  | .error _ => none
  | .ok rows =>
    let ret := ContactDB.handleQuery rows
    ret.head?

/-- The contacts of the table with the given id. -/
def ContactDB.withId (c : ContactDB) (id : String) : List Contact :=
  ContactDB.handleQuery (c.rows.filter (fun r => r.id == id))

/-- The contacts of the table with another id. -/
def ContactDB.others (c : ContactDB) (id : String) : List Contact :=
  ContactDB.handleQuery (c.rows.filter (fun r => r.id != id))

/-- The stored `added` of the contact of that id, if there is one. -/
def ContactDB.addedOf (c : ContactDB) (id : String) : Option Int :=
  (c.rows.find? (fun r => r.id == id)).map (·.added)

/-- Every inbox id is non-empty and has no comma. -/
def Contact.wellFormed (contact : Contact) : Prop :=
  ∀ p ∈ contact.Inboxes, p ≠ "" ∧ ',' ∉ p.data

/-- A contact with two inboxes. -/
def alice : Contact :=
  { Id := "Qm1", Address := "P1", Username := "alice", Inboxes := ["cafe1", "cafe2"],
    Added := { sec := 100, nsec := 5 } }

/-- The same contact seen later under another name. -/
def alice2 : Contact :=
  { Id := "Qm1", Address := "P1", Username := "alice2", Inboxes := ["cafe3"],
    Added := { sec := 200, nsec := 0 } }

/-- A contact whose single inbox id has a comma in it. -/
def carol : Contact :=
  { Id := "Qm3", Address := "P3", Username := "carol", Inboxes := ["a,b"],
    Added := { sec := 300, nsec := 0 } }

/-- The table `contacts1` after the upsert of `alice2`. -/
def contacts2 : ContactDB :=
  { rows := [{ id := "Qm2", address := "P2", username := "bob", inboxes := "", added := 150 },
             { id := "Qm1", address := "P1", username := "alice2", inboxes := "cafe3",
               added := 100 }],
    closed := false }

/-- A table holding `alice` and one other contact. -/
def contacts1 : ContactDB :=
  { rows := [{ id := "Qm1", address := "P1", username := "alice", inboxes := "cafe1,cafe2",
               added := 100 },
             { id := "Qm2", address := "P2", username := "bob", inboxes := "", added := 150 }],
    closed := false }

/-- A contact whose id holds two single quotes in a row. -/
def dave : Contact :=
  { Id := String.mk ['a', sql.quote, sql.quote, 'b'], Address := "P4", Username := "dave",
    Inboxes := ["cafe1"], Added := { sec := 400, nsec := 0 } }

/-- A contact whose id holds one single quote. -/
def erin : Contact :=
  { Id := String.mk ['a', sql.quote, 'b'], Address := "P5", Username := "erin",
    Inboxes := ["cafe9"], Added := { sec := 500, nsec := 0 } }


/-! ## The node (`core/main.go`, `core/threads.go`) -/

/-- `mh.Multihash`. -/
abbrev Multihash := Bytes

/-- `core.UpdateType`. -/
inductive UpdateType where
  | ThreadAdded
  | ThreadRemoved
  | AccountPeerAdded
  | AccountPeerRemoved
deriving DecidableEq, Repr

/-- `core.Update`. -/
structure Update where
  Id : String
  Name : String
  Type_ : UpdateType
deriving DecidableEq, Repr

/-- Modelled from the spec: `core.ThreadUpdate` (declared in `core/thread.go`,
which is not among the sources), by the thread and block it reports. -/
structure ThreadUpdate where
  ThreadId : String
  ThreadName : String
  BlockId : String
deriving DecidableEq, Repr

/-- `repo.NotificationType`, a Go `int`. -/
abbrev NotificationType := Int

def ReceivedInviteNotification : NotificationType := 0

/-- `repo.Notification`. -/
structure Notification where
  Id : String
  Date : Time
  ActorId : String
  Subject : String
  SubjectId : String
  BlockId : String
  DataId : String
  Type_ : NotificationType
  Body : String
  Read : Bool
deriving DecidableEq, Repr

/-- `repo.Thread`, the row of a thread. -/
structure repo.Thread where
  Id : String
  Name : String
  PrivKey : Bytes
  Head : String := ""
deriving DecidableEq, Repr

/-- Modelled from the spec: the loaded thread `core.Thread` (declared in
`core/thread.go`, which is not among the sources), by the fields these files
read. -/
structure core.Thread where
  Id : String
  Name : String
deriving DecidableEq, Repr

/-- Modelled from the spec: `pb.ThreadBlock_Type` (package `pb` is not among
the sources), the block types of spec §3. -/
inductive ThreadBlockType where
  | MERGE | IGNORE | FLAG | JOIN | ANNOUNCE | LEAVE | FILE | TEXT | COMMENT | LIKE | INVITE
deriving DecidableEq, Repr

/-- Modelled from the spec: `pb.ThreadBlock` (spec §4.5.1), by what
`handleThreadInvite` reads: the type, the author of the header and the
payload. -/
structure ThreadBlock where
  Type_ : ThreadBlockType
  Author : String
  Payload : Bytes
deriving DecidableEq, Repr

/-- Modelled from the spec: `pb.ThreadInvite` (spec §4.5.5), the thread name
and secret an invite carries. -/
structure ThreadInvite where
  Sk : Bytes
  Name : String
deriving DecidableEq, Repr

/-- A Go channel when no receiver is waiting: its capacity, the items queued
(oldest first) and whether it is closed. A channel field is `none` while it
is `nil`. -/
structure Chan (α : Type) where
  cap : Nat
  buf : List α
  closed : Bool
deriving DecidableEq, Repr

/-- Go `make(chan α, cap)`. -/
def Chan.make (α : Type) (cap : Nat) : Chan α := { cap := cap, buf := [], closed := false }

/-- How a single statement on a channel ends: it completes, leaving the
channel as given; it blocks (the goroutine is parked, the channel is as it
was); or it panics. -/
inductive Sent (α : Type) where
  | sent (ch : Chan α)
  | blocks
  | panics
deriving DecidableEq, Repr

/-- Go `ch <- v`: a send on a `nil` channel blocks for ever, a send on a closed
channel panics, a send on a channel with room queues the item, and a send on
a full channel blocks. -/
def Chan.send {α : Type} (ch : Option (Chan α)) (v : α) : Sent α :=
  match ch with
  | none => .blocks
  | some c =>
    if c.closed then .panics
    else if c.buf.length < c.cap then .sent { c with buf := c.buf ++ [v] }
    else .blocks

/-- Go `close(ch)`: closing a `nil` or a closed channel panics. -/
def Chan.close {α : Type} (ch : Option (Chan α)) : Sent α :=
  match ch with
  | none => .panics
  | some c => if c.closed then .panics else .sent { c with closed := true }

/-- How a call ends: it returns `a` in state `s`; it blocks in state `s` at a
channel send that cannot complete; or it panics in state `s`. -/
inductive Run (α σ : Type) where
  | returns (a : α) (s : σ)
  | blocks (s : σ)
  | panics (s : σ)

/-- The state a call ends in. -/
def Run.state {α σ : Type} : Run α σ → σ
  | .returns _ s => s
  | .blocks s => s
  | .panics s => s

/-- What a call returns, if it returns. -/
def Run.value {α σ : Type} : Run α σ → Option α
  | .returns a _ => some a
  | .blocks _ => none
  | .panics _ => none

/-- A call that leaves these files, as recorded in `Textile.log`. -/
inductive NodeCall where
  | ManageFdLimit
  | DatastorePing
  | dbCreate (repoPath : String)
  | DatastoreClose
  | Account
  | Address
  | loadSwarmPorts (repoPath : String)
  | NewNode (repoPath : String) (online : Bool)
  | IpfsClose
  | cancel
  | go (name : String)
  | stopCafeApi
  | removeLock
  | DataAtPath (path : String)
  | UnpinPath (path : String)
  | Decrypt
  | DecryptAES
  | ThreadsAdd (id : String)
  | ThreadsDelete (id : String)
  | ThreadsList
  | WelcomeByThread (id : String)
  | NotificationsAdd (id : String)
  | NotificationsDelete (id : String)
  | NewThread (id : String)
  | joinInitial (id : String)
  | leave (id : String)
  | handleInviteMessage (id : String)
  | join (id : String)
  | Ping (pid : String)
deriving DecidableEq, Repr

/-- The collaborators of the node outside `core/main.go` and
`core/threads.go`, over the state `ι` of a go-ipfs node and the state `δ` of
the datastore: go-ipfs, the packages `ipfs` and `crypto`, protobuf decoding,
key handling, the datastore, and the methods of `core` declared in other
files. Thread methods and the cafe service act on datastore and node
together. -/
structure Sys (ι δ : Type) where
  OnlineMode : ι → Bool
  PrivateKey : ι → Bytes
  IpfsClose : ι → Option Error
  fsrepoOpen : String → Option Error
  NewNode : String → Bool → Bool → Except Error ι
  DataAtPath : ι → String → Except Error Bytes
  UnpinPath : ι → String → Option Error × ι
  Decrypt : Bytes → Bytes → Except Error Bytes
  DecryptAES : Bytes → Bytes → Except Error Bytes
  Unmarshal : Bytes → Except Error ThreadBlock
  UnmarshalAny : Bytes → Except Error ThreadInvite
  UnmarshalPrivateKey : Bytes → Except Error Bytes
  IDFromPrivateKey : Bytes → Except Error String
  PrivKeyBytes : Bytes → Except Error Bytes
  IDB58Decode : String → Except Error String
  DatastorePing : δ → Option Error
  dbCreate : String → String → Except Error δ
  DatastoreClose : δ → δ
  ThreadsAdd : δ → repo.Thread → Except Error δ
  ThreadsList : δ → List repo.Thread
  ThreadsDelete : δ → String → Except Error δ
  WelcomeByThread : δ → String → Except Error δ
  NotificationsAdd : δ → Notification → Except Error δ
  NotificationsGet : δ → String → Option Notification
  NotificationsDelete : δ → String → Option Error × δ
  Account : δ → Option Error
  Address : δ → Except Error String
  loadSwarmPorts : String → Except Error (Option String)
  stopCafeApi : Option Error
  NewThread : repo.Thread → Except Error core.Thread
  joinInitial : core.Thread → δ × Option ι → Except Error Multihash × (δ × Option ι)
  leave : core.Thread → δ × Option ι → Except Error Multihash × (δ × Option ι)
  handleInviteMessage : core.Thread → ThreadBlock → δ × Option ι → Option Error × (δ × Option ι)
  join : core.Thread → String → δ × Option ι → Except Error Multihash × (δ × Option ι)
  CafePing : String → δ × Option ι → Except Error String × (δ × Option ι)

/-- `core.Textile`, the node: the fields of the Go struct that these files
read or write (the mutex, the writer and the command context are left out;
a service or queue field is `true` once it is set), and the log of calls. -/
structure Textile (ι δ : Type) where
  repoPath : String
  isMobile : Bool
  cancel : Bool
  ipfs : Option ι
  datastore : δ
  started : Bool
  threads : List core.Thread
  online : Option (Chan Unit)
  done : Option (Chan Unit)
  updates : Option (Chan Update)
  threadUpdates : Option (Chan ThreadUpdate)
  notifications : Option (Chan Notification)
  threadsService : Bool
  threadsOutbox : Bool
  cafeService : Bool
  cafeOutbox : Bool
  cafeInbox : Bool
  log : List NodeCall

def ErrStarted : Error := "node is started"

def ErrStopped : Error := "node is stopped"

def ErrOffline : Error := "node is offline"

def ErrThreadLoaded : Error := "thread is loaded"

/-- `core.ErrInvalidThreadBlock`, declared outside these files. -/
def ErrInvalidThreadBlock : Error := "invalid thread block"

/-- Record a call. -/
def Textile.call {ι δ : Type} (t : Textile ι δ) (c : NodeCall) : Textile ι δ :=
  { t with log := t.log ++ [c] }

/-- Put back the datastore and the node a collaborator acted on. -/
def Textile.put {ι δ : Type} (t : Textile ι δ) (w : δ × Option ι) : Textile ι δ :=
  { t with datastore := w.1, ipfs := w.2 }

/-- `Textile.Started`. -/
def Textile.Started {ι δ : Type} (t : Textile ι δ) : Bool := t.started

/-- `Textile.Online`. -/
def Textile.Online {ι δ : Type} (sys : Sys ι δ) (t : Textile ι δ) : Bool :=
  match t.ipfs with
  | none => false
  | some nd => t.started && sys.OnlineMode nd

/-- `Textile.Thread`: the first loaded thread of that id. -/
def Textile.Thread {ι δ : Type} (t : Textile ι δ) (id : String) : Option core.Thread :=
  t.threads.find? (fun thrd => thrd.Id == id)

/-- `Textile.sendUpdate`. -/
def Textile.sendUpdate {ι δ : Type} (t : Textile ι δ) (update : Update) :
    Run Unit (Textile ι δ) :=
  match Chan.send t.updates update with
  | .sent ch => .returns () { t with updates := some ch }
  | .blocks => .blocks t
  | .panics => .panics t

/-- `Textile.sendThreadUpdate`. -/
def Textile.sendThreadUpdate {ι δ : Type} (t : Textile ι δ) (update : ThreadUpdate) :
    Run Unit (Textile ι δ) :=
  match Chan.send t.threadUpdates update with
  | .sent ch => .returns () { t with threadUpdates := some ch }
  | .blocks => .blocks t
  | .panics => .panics t

/-- `Textile.sendNotification`: add to the datastore, then broadcast. -/
def Textile.sendNotification {ι δ : Type} (sys : Sys ι δ) (t : Textile ι δ)
    (notification : Notification) : Run (Option Error) (Textile ι δ) :=
  let t := t.call (.NotificationsAdd notification.Id)
  match sys.NotificationsAdd t.datastore notification with
  | .error err => .returns (some err) t
  | .ok ds =>
    let t := { t with datastore := ds }
    match Chan.send t.notifications notification with
    | .sent ch => .returns none { t with notifications := some ch }
    | .blocks => .blocks t
    | .panics => .panics t

/-- `Textile.touchDatastore`: re-open the datastore when the ping fails. -/
def Textile.touchDatastore {ι δ : Type} (sys : Sys ι δ) (t : Textile ι δ) :
    Option Error × Textile ι δ :=
  let t := t.call .DatastorePing
  match sys.DatastorePing t.datastore with
  | none => (none, t)
  | some _ =>
    let t := t.call (.dbCreate t.repoPath)
    match sys.dbCreate t.repoPath "" with
    | .error err => (some err, t)
    | .ok sqliteDB => (none, { t with datastore := sqliteDB })

/-- `Textile.createIPFS`. -/
def Textile.createIPFS {ι δ : Type} (sys : Sys ι δ) (t : Textile ι δ) (online : Bool) :
    Option Error × Textile ι δ :=
  match sys.fsrepoOpen t.repoPath with
  | some err => (some err, t)
  | none =>
    let t := t.call (.NewNode t.repoPath online)
    match sys.NewNode t.repoPath online t.isMobile with
    | .error err => (some err, t)
    | .ok nd =>
      let t := if t.cancel then t.call .cancel else t
      match t.ipfs with
      | some old =>
        let t := t.call .IpfsClose
        match sys.IpfsClose old with
        | some err => (some err, t)
        | none => (none, { t with cancel := true, ipfs := some nd })
      | none => (none, { t with cancel := true, ipfs := some nd })

/-- `Textile.loadThread`. -/
def Textile.loadThread {ι δ : Type} (sys : Sys ι δ) (t : Textile ι δ) (mod : repo.Thread) :
    Except Error core.Thread × Textile ι δ :=
  match t.Thread mod.Id with
  | some _ => (.error ErrThreadLoaded, t)
  | none =>
    let t := t.call (.NewThread mod.Id)
    match sys.NewThread mod with
    | .error err => (.error err, t)
    | .ok thrd => (.ok thrd, { t with threads := t.threads ++ [thrd] })

/-- The loop `for _, mod := range t.datastore.Threads().List()` of `Start`. -/
def Textile.Start.loadThreads {ι δ : Type} (sys : Sys ι δ) :
    List repo.Thread → Textile ι δ → Option Error × Textile ι δ
  | [], t => (none, t)
  | mod :: mods, t =>
    match Textile.loadThread sys t mod with
    | (.error err, t) =>
      if err = ErrThreadLoaded then Textile.Start.loadThreads sys mods t else (some err, t)
    | (.ok _, t) => Textile.Start.loadThreads sys mods t

/-- The body of `Start` after the check of `started`, up to its `return`. The
goroutine that brings the node online is recorded as started, not run. -/
def Textile.Start.body {ι δ : Type} (sys : Sys ι δ) (t : Textile ι δ) :
    Option Error × Textile ι δ :=
  -- raise file descriptor limit
  let t := t.call .ManageFdLimit
  -- check db
  match Textile.touchDatastore sys t with
  | (some err, t) => (some err, t)
  | (none, t) =>
    -- load account
    let t := t.call .Account
    match sys.Account t.datastore with
    | some err => (some err, t)
    | none =>
      -- load swarm ports
      let t := t.call (.loadSwarmPorts t.repoPath)
      match sys.loadSwarmPorts t.repoPath with
      | .error err => (some err, t)
      | .ok none => (some "failed to load swarm ports", t)
      | .ok (some _) =>
        -- build update channels
        let t := { t with
          online := some (Chan.make Unit 0),
          updates := some (Chan.make Update 10),
          threadUpdates := some (Chan.make ThreadUpdate 10),
          notifications := some (Chan.make Notification 10) }
        -- build queues
        let t := { t with cafeInbox := true, cafeOutbox := true, threadsOutbox := true }
        -- start the ipfs node
        match Textile.createIPFS sys t false with
        | (some err, t) => (some err, t)
        | (none, t) =>
          let t := t.call (.go "online")
          -- setup threads
          let t := t.call .ThreadsList
          Textile.Start.loadThreads sys (sys.ThreadsList t.datastore) t

/-- The deferred function of `Start`, run at every return after the check of
`started`: it makes `done`, sets `started`, and logs the peer and the account;
logging the peer id dereferences `t.ipfs`. -/
def Textile.Start.deferred {ι δ : Type} (sys : Sys ι δ) (err : Option Error)
    (t : Textile ι δ) : Run (Option Error) (Textile ι δ) :=
  let t := { t with done := some (Chan.make Unit 0), started := true }
  let t := t.call .Address
  match sys.Address t.datastore with
  | .error _ => .returns err t
  | .ok _ =>
    match t.ipfs with
    | none => .panics t
    | some _ => .returns err t

/-- `Textile.Start`. -/
def Textile.Start {ι δ : Type} (sys : Sys ι δ) (t : Textile ι δ) :
    Run (Option Error) (Textile ι δ) :=
  if t.started then .returns (some ErrStarted) t
  else
    match Textile.Start.body sys t with
    | (err, t) => Textile.Start.deferred sys err t

/-- The body of `Stop` after the check of `started`, up to its `return`.
Calling the `nil` function `t.cancel` and closing a `nil` node panic. -/
def Textile.Stop.body {ι δ : Type} (sys : Sys ι δ) (t : Textile ι δ) :
    Run (Option Error) (Textile ι δ) :=
  -- close apis
  let t := t.call .stopCafeApi
  match sys.stopCafeApi with
  | some err => .returns (some err) t
  | none =>
    -- close ipfs node
    if !t.cancel then .panics t
    else
      let t := t.call .cancel
      match t.ipfs with
      | none => .panics t
      | some nd =>
        let t := t.call .IpfsClose
        match sys.IpfsClose nd with
        | some err => .returns (some err) t
        | none =>
          -- close db connection
          let t := t.call .DatastoreClose
          let t := { t with datastore := sys.DatastoreClose t.datastore }
          let t := t.call .removeLock
          -- cleanup
          let t := { t with threads := [] }
          -- close update channels
          match Chan.close t.updates with
          | .sent ch =>
            let t := { t with updates := some ch }
            match Chan.close t.threadUpdates with
            | .sent ch =>
              let t := { t with threadUpdates := some ch }
              match Chan.close t.notifications with
              | .sent ch => .returns none { t with notifications := some ch }
              | _ => .panics t
            | _ => .panics t
          | _ => .panics t

/-- The deferred function of `Stop`: it clears `started` and closes `done`. -/
def Textile.Stop.deferred {ι δ : Type} (t : Textile ι δ) : Option (Textile ι δ) :=
  let t := { t with started := false }
  match Chan.close t.done with
  | .sent ch => some { t with done := some ch }
  | _ => none

/-- `Textile.Stop`. The deferred function runs when the body returns and when
it panics. -/
def Textile.Stop {ι δ : Type} (sys : Sys ι δ) (t : Textile ι δ) :
    Run (Option Error) (Textile ι δ) :=
  if !t.started then .returns (some ErrStopped) t
  else
    match Textile.Stop.body sys t with
    | .returns err t =>
      match Textile.Stop.deferred t with
      | some t => .returns err t
      | none => .panics { t with started := false }
    | .blocks t => .blocks t
    | .panics t =>
      match Textile.Stop.deferred t with
      | some t => .panics t
      | none => .panics { t with started := false }

/-- `Textile.Ping`. -/
def Textile.Ping {ι δ : Type} (sys : Sys ι δ) (t : Textile ι δ) (pid : String) :
    Run (Except Error String) (Textile ι δ) :=
  if !t.Online sys then .returns (.error ErrOffline) t
  else if !t.cafeService then .panics t
  else
    let t := t.call (.Ping pid)
    match sys.CafePing pid (t.datastore, t.ipfs) with
    | (r, w) => .returns r (t.put w)

/-- `Textile.AddThread` (core/threads.go). -/
def Textile.AddThread {ι δ : Type} (sys : Sys ι δ) (t : Textile ι δ) (name : String)
    (sk : Bytes) (join : Bool) : Run (Except Error core.Thread) (Textile ι δ) :=
  match sys.IDFromPrivateKey sk with
  | .error err => .returns (.error err) t
  | .ok id =>
    match sys.PrivKeyBytes sk with
    | .error err => .returns (.error err) t
    | .ok skb =>
      let threadModel : repo.Thread := { Id := id, Name := name, PrivKey := skb }
      let t := t.call (.ThreadsAdd threadModel.Id)
      match sys.ThreadsAdd t.datastore threadModel with
      | .error err => .returns (.error err) t
      | .ok ds =>
        let t := { t with datastore := ds }
        -- load as active thread
        match Textile.loadThread sys t threadModel with
        | (.error err, t) => .returns (.error err) t
        | (.ok thrd, t) =>
          -- we join here if we're the creator
          let joined : Option Error × Textile ι δ :=
            if join then
              let t := t.call (.joinInitial thrd.Id)
              match sys.joinInitial thrd (t.datastore, t.ipfs) with
              | (.error err, w) => (some err, t.put w)
              | (.ok _, w) => (none, t.put w)
            else (none, t)
          match joined with
          | (some err, t) => .returns (.error err) t
          | (none, t) =>
            -- notify listeners
            match t.sendUpdate { Id := thrd.Id, Name := thrd.Name, Type_ := .ThreadAdded } with
            | .returns _ t => .returns (.ok thrd) t
            | .blocks t => .blocks t
            | .panics t => .panics t

/-- `Textile.RemoveThread` (core/threads.go). -/
def Textile.RemoveThread {ι δ : Type} (sys : Sys ι δ) (t : Textile ι δ) (id : String) :
    Run (Except Error Multihash) (Textile ι δ) :=
  if !t.Online sys then .returns (.error ErrOffline) t
  else
    -- get the loaded thread
    match t.threads.find? (fun th => th.Id == id) with
    | none => .returns (.error "thread not found") t
    | some thrd =>
      let index := t.threads.findIdx (fun th => th.Id == id)
      -- notify peers
      let t := t.call (.leave thrd.Id)
      match sys.leave thrd (t.datastore, t.ipfs) with
      | (.error err, w) => .returns (.error err) (t.put w)
      | (.ok addr, w) =>
        let t := t.put w
        -- remove model from db
        let t := t.call (.ThreadsDelete thrd.Id)
        match sys.ThreadsDelete t.datastore thrd.Id with
        | .error err => .returns (.error err) t
        | .ok ds =>
          let t := { t with datastore := ds }
          -- clean up
          let t := { t with threads := t.threads.eraseIdx index }
          -- notify listeners
          match t.sendUpdate { Id := thrd.Id, Name := thrd.Name, Type_ := .ThreadRemoved } with
          | .returns _ t => .returns (.ok addr) t
          | .blocks t => .blocks t
          | .panics t => .panics t

/-- `Textile.handleThreadInvite` (core/threads.go). `.ok none` is Go's
`(nil, nil)`. -/
def Textile.handleThreadInvite {ι δ : Type} (sys : Sys ι δ) (t : Textile ι δ)
    (plaintext : Bytes) : Run (Except Error (Option Multihash)) (Textile ι δ) :=
  match sys.Unmarshal plaintext with
  | .error err => .returns (.error err) t
  | .ok block =>
    if block.Type_ ≠ .INVITE then .returns (.error ErrInvalidThreadBlock) t
    else
      match sys.UnmarshalAny block.Payload with
      | .error err => .returns (.error err) t
      | .ok msg =>
        -- unpack thread secret
        match sys.UnmarshalPrivateKey msg.Sk with
        | .error err => .returns (.error err) t
        | .ok sk =>
          -- ensure we dont already have this thread
          match sys.IDFromPrivateKey sk with
          | .error err => .returns (.error err) t
          | .ok id =>
            match t.Thread id with
            | some _ => .returns (.ok none) t
            | none =>
              -- add it
              match Textile.AddThread sys t msg.Name sk false with
              | .blocks t => .blocks t
              | .panics t => .panics t
              | .returns (.error err) t => .returns (.error err) t
              | .returns (.ok thrd) t =>
                -- follow parents, update head
                let t := t.call (.handleInviteMessage thrd.Id)
                match sys.handleInviteMessage thrd block (t.datastore, t.ipfs) with
                | (some err, w) => .returns (.error err) (t.put w)
                | (none, w) =>
                  let t := t.put w
                  -- mark any discovered peers as welcomed
                  let t := t.call (.WelcomeByThread thrd.Id)
                  match sys.WelcomeByThread t.datastore thrd.Id with
                  | .error err => .returns (.error err) t
                  | .ok ds =>
                    let t := { t with datastore := ds }
                    -- join the thread
                    match sys.IDB58Decode block.Author with
                    | .error err => .returns (.error err) t
                    | .ok author =>
                      let t := t.call (.join thrd.Id)
                      match sys.join thrd author (t.datastore, t.ipfs) with
                      | (.error err, w) => .returns (.error err) (t.put w)
                      | (.ok hash, w) => .returns (.ok (some hash)) (t.put w)

/-- `Textile.AcceptThreadInvite` (core/threads.go). An error of `UnpinPath` is
only logged. -/
def Textile.AcceptThreadInvite {ι δ : Type} (sys : Sys ι δ) (t : Textile ι δ)
    (inviteID : String) (key : Bytes) : Run (Except Error (Option Multihash)) (Textile ι δ) :=
  if !t.Online sys then .returns (.error ErrOffline) t
  else
    let invite := inviteID
    match t.ipfs with
    | none => .panics t
    | some nd =>
      -- download encrypted invite
      let t := t.call (.DataAtPath invite)
      match sys.DataAtPath nd invite with
      | .error err => .returns (.error err) t
      | .ok ciphertext =>
        -- if key is empty...
        if key.length = 0 then
          -- attempt decrypt w/ own keys
          let t := t.call (.UnpinPath invite)
          let nd := (sys.UnpinPath nd invite).2
          let t := { t with ipfs := some nd }
          let t := t.call .Decrypt
          match sys.Decrypt (sys.PrivateKey nd) ciphertext with
          | .error _ => .returns (.error ErrInvalidThreadBlock) t
          | .ok plaintext => Textile.handleThreadInvite sys t plaintext
        else
          -- otherwise, do it w/ provied key
          let t := t.call .DecryptAES
          match sys.DecryptAES ciphertext key with
          | .error _ => .returns (.error ErrInvalidThreadBlock) t
          | .ok plaintext => Textile.handleThreadInvite sys t plaintext

/-! ## A node to run on -/

/-- A go-ipfs node for the examples: whether it is online, the data behind each
path, and the pinned paths. -/
structure TestIpfs where
  online : Bool
  blobs : List (String × Bytes)
  pins : List String
deriving DecidableEq, Repr

/-- A datastore for the examples: the thread rows, the threads whose peers are
welcomed, the ids of the notifications (a notification is about the invite of
its own id, and `msg` is not an invite), and the blocks written by thread
methods. -/
structure TestStore where
  threads : List repo.Thread
  welcomed : List String
  notifications : List String
  blocks : List String
deriving DecidableEq, Repr

/-- A stand-in for both decryptions: the first byte of the ciphertext names the
key it was sealed with, the rest is the plaintext. -/
def testDecrypt (ciphertext key : Bytes) : Except Error Bytes :=
  match ciphertext with
  | [] => .error "ciphertext too short"
  | k :: rest => if [k] = key then .ok rest else .error "cipher: message authentication failed"

/-- A stand-in for protobuf decoding of a block: the first byte is the type
(11 for INVITE, 8 for TEXT), the rest the payload. -/
def testUnmarshal (plaintext : Bytes) : Except Error ThreadBlock :=
  match plaintext with
  | 11 :: payload => .ok { Type_ := .INVITE, Author := "author", Payload := payload }
  | 8 :: payload => .ok { Type_ := .TEXT, Author := "author", Payload := payload }
  | _ => .error "proto: cannot parse"

/-- A thread method of the examples: it writes one block for the thread. -/
def testBlock (kind : String) (thrd : core.Thread) (w : TestStore × Option TestIpfs) :
    Except Error Multihash × (TestStore × Option TestIpfs) :=
  (.ok (ascii (kind ++ thrd.Id)), ({ w.1 with blocks := w.1.blocks ++ [kind ++ thrd.Id] }, w.2))

/-- The collaborators of the examples. The private key of the node is `[7]`. -/
def testSys : Sys TestIpfs TestStore where
  OnlineMode := fun nd => nd.online
  PrivateKey := fun _ => [7]
  IpfsClose := fun _ => none
  fsrepoOpen := fun _ => none
  NewNode := fun _ online _ => .ok { online := online, blobs := [], pins := [] }
  DataAtPath := fun nd path =>
    match nd.blobs.lookup path with
    | some b => .ok b
    | none => .error "merkledag: not found"
  UnpinPath := fun nd path =>
    (if path ∈ nd.pins then none else some "not pinned",
      { nd with pins := nd.pins.filter (fun p => p != path) })
  Decrypt := fun key ciphertext => testDecrypt ciphertext key
  DecryptAES := testDecrypt
  Unmarshal := testUnmarshal
  UnmarshalAny := fun payload => .ok { Sk := payload, Name := "alpha" }
  UnmarshalPrivateKey := fun sk => if sk = [] then .error "empty key" else .ok sk
  IDFromPrivateKey := fun sk => .ok (Base58.FastBase58Encoding sk)
  PrivKeyBytes := fun sk => .ok sk
  IDB58Decode := fun s => .ok s
  DatastorePing := fun _ => none
  dbCreate := fun _ _ => .ok { threads := [], welcomed := [], notifications := [], blocks := [] }
  DatastoreClose := fun ds => ds
  ThreadsAdd := fun ds mod =>
    if ds.threads.any (fun r => r.Id == mod.Id) then .error "UNIQUE constraint failed: threads.id"
    else .ok { ds with threads := ds.threads ++ [mod] }
  ThreadsList := fun ds => ds.threads
  ThreadsDelete := fun ds id => .ok { ds with threads := ds.threads.filter (fun r => r.Id != id) }
  WelcomeByThread := fun ds id => .ok { ds with welcomed := ds.welcomed ++ [id] }
  NotificationsAdd := fun ds n => .ok { ds with notifications := ds.notifications ++ [n.Id] }
  NotificationsGet := fun ds id =>
    if id ∈ ds.notifications then
      some { Id := id, Date := time.Unix 0 0, ActorId := "P2", Subject := "alpha",
             SubjectId := "2", BlockId := id, DataId := "",
             Type_ := if id = "msg" then 1 else ReceivedInviteNotification,
             Body := "invited you", Read := false }
    else none
  NotificationsDelete := fun ds id =>
    (none, { ds with notifications := ds.notifications.filter (fun n => n != id) })
  Account := fun _ => none
  Address := fun _ => .ok "P1"
  loadSwarmPorts := fun _ => .ok (some "4001")
  stopCafeApi := none
  NewThread := fun mod => .ok { Id := mod.Id, Name := mod.Name }
  joinInitial := testBlock "JOIN"
  leave := testBlock "LEAVE"
  handleInviteMessage := fun _ _ w => (none, w)
  join := fun thrd _ w => testBlock "JOIN" thrd w
  CafePing := fun _ w => (.ok "online", w)

/-- A node freshly built by `NewTextile`: stopped, no go-ipfs node, no
channels; its datastore holds the row of one thread. -/
def node0 : Textile TestIpfs TestStore :=
  { repoPath := "/repo", isMobile := false, cancel := false, ipfs := none,
    datastore := { threads := [{ Id := "2", Name := "alpha", PrivKey := [1] }], welcomed := [],
                   notifications := [], blocks := [] },
    started := false, threads := [], online := none, done := none, updates := none,
    threadUpdates := none, notifications := none, threadsService := false,
    threadsOutbox := false, cafeService := false, cafeOutbox := false, cafeInbox := false,
    log := [] }

/-- The node after `Start`. -/
def node1 : Textile TestIpfs TestStore := (Textile.Start testSys node0).state

/-- The started node once its go-ipfs node is online and holds three invites:
`"inv"` sealed for the node, carrying the secret of the loaded thread, `"new"`
sealed with the key `[9]`, carrying a new secret, and `"txt"`, a TEXT block. -/
def node2 : Textile TestIpfs TestStore :=
  { node1 with
    ipfs := some { online := true,
                   blobs := [("inv", [7, 11, 1]), ("new", [9, 11, 5]), ("txt", [7, 8, 1])],
                   pins := ["inv", "new", "txt"] },
    threadsService := true, cafeService := true, log := [] }

/-- Ten updates. -/
def tenUpdates : List Update :=
  (List.range 10).map fun i => { Id := Itoa i, Name := "t", Type_ := .ThreadAdded }

/-- The online node with ten updates queued. -/
def nodeFull : Textile TestIpfs TestStore :=
  { node2 with updates := some { cap := 10, buf := tenUpdates, closed := false } }

/-- Whether a recorded call is an unpin. -/
def NodeCall.isUnpin : NodeCall → Bool
  | .UnpinPath _ => true
  | _ => false

/-- The log of `t'` extends the log of `t` by calls none of which is an unpin:
every call of `t` is still recorded, and every unpin recorded in `t'` was
already recorded in `t`. -/
def Textile.noUnpin {ι δ : Type} (t t' : Textile ι δ) : Prop :=
  (∀ c ∈ t.log, c ∈ t'.log) ∧ ∀ p, NodeCall.UnpinPath p ∈ t'.log → NodeCall.UnpinPath p ∈ t.log

/-- The started node after `n` calls of `AddThread`, with no subscriber
receiving from its channels. -/
def nodeAfter : Nat → Textile TestIpfs TestStore
  | 0 => node1
  | n + 1 => (Textile.AddThread testSys (nodeAfter n) "t" [n + 3] false).state

/-- An update, a thread update and a notification for the examples. -/
def testUpdate : Update := { Id := "x", Name := "t", Type_ := .ThreadAdded }

def testThreadUpdate : ThreadUpdate := { ThreadId := "2", ThreadName := "alpha", BlockId := "b" }

def testNotification : Notification :=
  { Id := "n1", Date := time.Unix 0 0, ActorId := "P2", Subject := "alpha", SubjectId := "2",
    BlockId := "b", DataId := "", Type_ := ReceivedInviteNotification, Body := "invited you",
    Read := false }

/-! ## The command line client (`cmd/sub.go`, `cmd/contacts.go`) -/

/-- Modelled from the spec: the request methods of package `cmd` (declared in
a file of `cmd` that is not among the sources). -/
abbrev method := String

def GET : method := "GET"

def POST : method := "POST"

/-- Go `io.EOF`. -/
def io.EOF : Error := "EOF"

/-- `params` of package `cmd`: the arguments and the options of a request. -/
structure params where
  args : List String := []
  opts : List (String × String) := []
deriving DecidableEq, Repr

/-- An `http.Response` as `callSub` reads it: the status code, what
`util.UnmarshalString` makes of the body, and what the successive calls of
`decoder.Decode` yield before the body ends with `io.EOF`. -/
structure Response where
  StatusCode : Nat
  text : Except Error String
  Body : List (Except Error ThreadUpdate)

/-- The collaborators of the commands: `request` and `executeJsonCmd` of
package `cmd`, and `json.MarshalIndent` on a thread update. -/
structure CmdEnv where
  request : method → String → params → Except Error Response
  executeJsonCmd : method → String → params → Except Error String
  MarshalIndent : ThreadUpdate → Except Error String

/-- What a command does to the outside, in order. -/
inductive CmdCall where
  | setApi
  | request (meth : method) (pth : String) (pars : params)
  | executeJsonCmd (meth : method) (pth : String) (pars : params)
  | output (s : String)
  | BodyClose
deriving DecidableEq, Repr

/-- The lines handed to `output`, in order. -/
def CmdCall.outputs (calls : List CmdCall) : List String :=
  calls.filterMap fun c =>
    match c with
    | .output s => some s
    | _ => none

/-- Go `v, ok := <-ch` on a channel that is not `nil`: the oldest queued item;
`ok = false` once the channel is closed and drained; otherwise the receive
blocks. -/
inductive Received (α : Type) where
  | got (v : α) (ch : Chan α)
  | closed
  | blocks
deriving DecidableEq, Repr

def Chan.recv {α : Type} (ch : Chan α) : Received α :=
  match ch.buf with
  | v :: rest => .got v { ch with buf := rest }
  | [] => if ch.closed then .closed else .blocks

/-- Where the goroutine started by `callSub` stands: before `request`, at
`decoder.Decode` with the rest of the body ahead, at `updates <- info`,
returned, or stopped by a panic. -/
inductive callSub.Goroutine where
  | start (threadId : String) (types : List String)
  | decode (body : List (Except Error ThreadUpdate))
  | send (info : ThreadUpdate) (body : List (Except Error ThreadUpdate))
  | done
  | panicked
deriving Repr

/-- Where `subCmd.Execute` stands: at the receive of its loop, or returned. -/
inductive subCmd.Loop where
  | receive
  | returned (err : Option Error)
deriving DecidableEq, Repr

/-- The `sub` command while it runs: the goroutine of `callSub`, the loop of
`Execute`, the channel `updates` between them and the calls made so far. -/
structure subCmd.State where
  goroutine : callSub.Goroutine
  loop : subCmd.Loop
  updates : Chan ThreadUpdate
  calls : List CmdCall

def subCmd.State.call (s : subCmd.State) (c : CmdCall) : subCmd.State :=
  { s with calls := s.calls ++ [c] }

/-- The goroutine path `output(..); close(updates); return`. -/
def callSub.fail (s : subCmd.State) (msg : String) : subCmd.State :=
  let s := s.call (.output msg)
  match Chan.close (some s.updates) with
  | .sent ch => { s with updates := ch, goroutine := .done }
  | _ => { s with goroutine := .panicked }

/-- `callSub` up to its `return updates, nil`: it prefixes the thread id, makes
the channel and starts the goroutine; the caller is about to receive. -/
def callSub (threadId : String) (types : List String) : subCmd.State :=
  let threadId := if threadId ≠ "" then "/" ++ threadId else threadId
  { goroutine := .start threadId types, loop := .receive,
    updates := Chan.make ThreadUpdate 10, calls := [] }

/-- `subCmd.Execute` up to its loop, for the options `Thread` and `Type` of the
command: `setApi`, then `callSub`, whose error is always `nil`. -/
def subCmd.Execute.start (Thread : String) (Type_ : List String) : subCmd.State :=
  (callSub Thread Type_).call .setApi

/-- One step of the goroutine of `callSub`; `none` when it cannot move (it has
ended, or its send blocks). At the end of the body (`io.EOF`) it leaves the
loop and closes the body. -/
def callSub.step (env : CmdEnv) (s : subCmd.State) : Option subCmd.State :=
  match s.goroutine with
  | .start threadId types =>
    let pars : params := { opts := [("type", strings.Join types "|")] }
    let s := s.call (.request GET ("sub" ++ threadId) pars)
    match env.request GET ("sub" ++ threadId) pars with
    | .error err => some (callSub.fail s err)
    | .ok req =>
      if req.StatusCode ≥ 400 then
        match req.text with
        | .error err => some (callSub.fail s err)
        | .ok res => some (callSub.fail s res)
      else some { s with goroutine := .decode req.Body }
  | .decode [] => some { s.call .BodyClose with goroutine := .done }
  | .decode (.error err :: _) =>
    if err = io.EOF then some { s.call .BodyClose with goroutine := .done }
    else some (callSub.fail s err)
  | .decode (.ok info :: body) => some { s with goroutine := .send info body }
  | .send info body =>
    match Chan.send (some s.updates) info with
    | .sent ch => some { s with updates := ch, goroutine := .decode body }
    | .blocks => none
    | .panics => some { s with goroutine := .panicked }
  | .done => none
  | .panicked => none

/-- One turn of the loop of `subCmd.Execute`; `none` when it cannot move (it
has returned, or its receive blocks). -/
def subCmd.Execute.step (env : CmdEnv) (s : subCmd.State) : Option subCmd.State :=
  match s.loop with
  | .returned _ => none
  | .receive =>
    match Chan.recv s.updates with
    | .blocks => none
    | .closed => some { s with loop := .returned none }
    | .got update ch =>
      let s := { s with updates := ch }
      match env.MarshalIndent update with
      | .error err => if err = io.EOF then some s else some { s with loop := .returned none }
      | .ok data => some (s.call (.output data))

/-- The states the running command can reach, by any interleaving of the
goroutine and the loop. -/
inductive subCmd.Reachable (env : CmdEnv) (s : subCmd.State) : subCmd.State → Prop where
  | start : subCmd.Reachable env s s
  | goroutine {a b : subCmd.State} : subCmd.Reachable env s a → callSub.step env a = some b →
      subCmd.Reachable env s b
  | loop {a b : subCmd.State} : subCmd.Reachable env s a →
      subCmd.Execute.step env a = some b → subCmd.Reachable env s b

/-- The indented JSON of an update. -/
def subCmd.indent (env : CmdEnv) (u : ThreadUpdate) : String :=
  match env.MarshalIndent u with
  | .ok data => data
  | .error _ => ""

/-- The updates the goroutine has still to send. -/
def callSub.Goroutine.pending : callSub.Goroutine → List ThreadUpdate
  | .decode body => body.filterMap fun r => r.toOption
  | .send info body => info :: body.filterMap fun r => r.toOption
  | _ => []

/-- The two errors of `cmd/contacts.go`. -/
def errMissingPeerId : Error := "missing peer id"

def errMissingPeerAddress : Error := "missing peer address"

/-- What holds of every state the command reaches when the server answers the
request for `threadId` and `types` with the well-formed updates `body`: the
loop has not returned, the channel is open, and what is printed, queued and
still to send makes up `body` in order. -/
def subCmd.Inv (env : CmdEnv) (threadId : String) (types : List String)
    (body : List ThreadUpdate) (s : subCmd.State) : Prop :=
  s.loop = .receive ∧ s.updates.closed = false ∧
  ((s.goroutine = .start threadId types ∧ s.updates.buf = [] ∧ CmdCall.outputs s.calls = []) ∨
   ((s.goroutine = .done ∨ (∃ rest : List ThreadUpdate, s.goroutine = .decode (rest.map .ok)) ∨
      ∃ (u : ThreadUpdate) (rest : List ThreadUpdate), s.goroutine = .send u (rest.map .ok)) ∧
    CmdCall.outputs s.calls ++ (s.updates.buf ++ s.goroutine.pending).map (subCmd.indent env)
      = body.map (subCmd.indent env)))

/-- `getContactsCmd.Execute`: the error returned and the calls made. -/
def getContactsCmd.Execute (env : CmdEnv) (args : List String) : Option Error × List CmdCall :=
  let calls := [CmdCall.setApi]
  match args with
  | [] => (some errMissingPeerId, calls)
  | arg0 :: _ =>
    let calls := calls ++ [.executeJsonCmd GET ("contacts/" ++ arg0) {}]
    match env.executeJsonCmd GET ("contacts/" ++ arg0) {} with
    | .error err => (some err, calls)
    | .ok res => (none, calls ++ [.output res])

/-- `addContactsCmd.Execute`, with the `Username` option of the command: the
error returned and the calls made. -/
def addContactsCmd.Execute (env : CmdEnv) (Username : String) (args : List String) :
    Option Error × List CmdCall :=
  let calls := [CmdCall.setApi]
  if args.length < 2 then (some errMissingPeerAddress, calls)
  else if args.length < 1 then (some errMissingPeerId, calls)
  else
    let pars : params := { args := args, opts := [("username", Username)] }
    let calls := calls ++ [.executeJsonCmd POST "contacts" pars]
    match env.executeJsonCmd POST "contacts" pars with
    | .error err => (some err, calls)
    | .ok res => (none, calls ++ [.output res])

/-- Two updates of the thread `2`. -/
def testBody : List ThreadUpdate :=
  [{ ThreadId := "2", ThreadName := "alpha", BlockId := "b1" },
   { ThreadId := "2", ThreadName := "alpha", BlockId := "b2" }]

/-- A server for the examples: every `request` is answered with status 200 and
a body of the two updates, `executeJsonCmd` answers with the path, and the
indented JSON of an update is stood in for by its thread and block ids. -/
def testCmdEnv : CmdEnv where
  request := fun _ _ _ => .ok { StatusCode := 200, text := .ok "", Body := testBody.map .ok }
  executeJsonCmd := fun _ pth _ => .ok pth
  MarshalIndent := fun u => .ok (u.ThreadId ++ "/" ++ u.BlockId)

/-! ## The cafe request store (`repo.CafeRequestStore`) -/

/-- `repo.CafeRequestType`, a Go `int`. -/
abbrev CafeRequestType := Int

def CafeStoreRequest : CafeRequestType := 0

def CafeStoreThreadRequest : CafeRequestType := 1

def CafePeerInboxRequest : CafeRequestType := 2

/-- `repo.CafeRequest`. -/
structure CafeRequest where
  Id : String
  PeerId : String := ""
  TargetId : String
  CafeId : String
  Type_ : CafeRequestType
  Date : Time
deriving DecidableEq, Repr

/-- Modelled from the spec: the table behind `repo.CafeRequestStore` (its
implementation, `repo/db/cafe_requests.go`, is not among the sources): the
requests held, in the order in which `List` returns them. -/
structure CafeRequestDB where
  rows : List CafeRequest
deriving DecidableEq, Repr

/-- Modelled from the spec: `CafeRequestDB.List(offset, limit)`, the
`list(offset,limit)` of spec §4.1 as `TestCafeRequestDB_List` uses it. With
the empty offset the listing starts at the first request, otherwise right
after the request whose id is `offset`; a negative `limit` does not cut the
listing, any other keeps at most `limit` requests. -/
def CafeRequestDB.List (c : CafeRequestDB) (offset : String) (limit : Int) : List CafeRequest :=
  let rest :=
    if offset = "" then c.rows
    else (c.rows.dropWhile (fun r => r.Id != offset)).drop 1
  if limit < 0 then rest else rest.take limit.toNat

/-- The store of `TestCafeRequestDB_List` after its two `Add` calls; the
second request is dated a minute after the first. -/
def cafeRequests2 : CafeRequestDB :=
  { rows := [{ Id := "abcde", TargetId := "zxy", CafeId := "boom",
               Type_ := CafeStoreThreadRequest, Date := time.Unix 1000 0 },
             { Id := "abcdef", TargetId := "zxy", CafeId := "boom",
               Type_ := CafeStoreRequest, Date := time.Unix 1060 0 }] }

/-! ## Announce blocks (`core/thread_announces.go`) -/

/-- Modelled from the spec: `pb.ThreadAnnounce` (package `pb` is not among the
sources), by the two fields `buildAnnounce` fills. -/
structure ThreadAnnounce where
  Username : String := ""
  Inboxes : List String := []
deriving DecidableEq, Repr

/-- Modelled from the spec: `commitResult` (declared in `core/thread.go`, which
is not among the sources), by the hash `annouce` reads. -/
structure commitResult where
  hash : Multihash
deriving DecidableEq, Repr

/-- A call that leaves `core/thread_announces.go`, with how it ended, as
recorded in `ThreadState.log`. -/
inductive ThreadCall where
  | GetUsername (ok : Bool)
  | CafeSessionsList
  | commitBlock (res : Option Multihash)
  | indexBlock (hash : Multihash) (ok : Bool)
  | updateHead (hash : Multihash) (ok : Bool)
  | post (hash : Multihash) (ok : Bool)
deriving DecidableEq, Repr

/-- The collaborators of `Thread.annouce` over the datastore and node state
`δ`: the profile and cafe session tables, and the methods of `Thread` declared
in `core/thread.go`: `commitBlock` (here for an ANNOUNCE block without
additional parents), `indexBlock`, `Peers`, `post`, and the write
`Threads().UpdateHead` behind `updateHead`. -/
structure ThreadSys (δ : Type) where
  GetUsername : δ → Except Error (Option String)
  CafeSessionsList : δ → List String
  commitBlock : δ → ThreadAnnounce → Except Error commitResult × δ
  indexBlock : δ → commitResult → BlockType → String → String → Option Error × δ
  UpdateHead : δ → String → Multihash → Option Error × δ
  Peers : δ → List String
  post : δ → commitResult → List String → Option Error × δ

/-- A thread while `annouce` runs: its id, its head (spec §3: the id of a
persisted block of the thread, or empty), the datastore and node it works on,
and the calls made so far. -/
structure ThreadState (δ : Type) where
  Id : String
  head : Multihash
  world : δ
  log : List ThreadCall

def ThreadState.call {δ : Type} (t : ThreadState δ) (c : ThreadCall) : ThreadState δ :=
  { t with log := t.log ++ [c] }

/-- `Thread.buildAnnounce`: the username, when one is set, and the cafe id of
every session. -/
def Thread.buildAnnounce {δ : Type} (sys : ThreadSys δ) (t : ThreadState δ) :
    Except Error ThreadAnnounce × ThreadState δ :=
  match sys.GetUsername t.world with
  | .error err => (.error err, t.call (.GetUsername false))
  | .ok username =>
    let t := t.call (.GetUsername true)
    let msg : ThreadAnnounce :=
      match username with
      | some name => { Username := name }
      | none => {}
    let t := t.call .CafeSessionsList
    (.ok { msg with Inboxes := msg.Inboxes ++ sys.CafeSessionsList t.world }, t)

/-- Modelled from the spec: `Thread.updateHead` (declared in `core/thread.go`,
which is not among the sources): it writes the head of the thread through
`Threads().UpdateHead`, and when that succeeds the head of the thread is the
given hash. No other collaborator moves the head. -/
def Thread.updateHead {δ : Type} (sys : ThreadSys δ) (t : ThreadState δ) (head : Multihash) :
    Option Error × ThreadState δ :=
  match sys.UpdateHead t.world t.Id head with
  | (some err, w) => (some err, { t.call (.updateHead head false) with world := w })
  | (none, w) => (none, { t.call (.updateHead head true) with world := w, head := head })

/-- `Thread.annouce` (core/thread_announces.go). -/
def Thread.annouce {δ : Type} (sys : ThreadSys δ) (t : ThreadState δ) :
    Except Error Multihash × ThreadState δ :=
  match Thread.buildAnnounce sys t with
  | (.error err, t) => (.error err, t)
  | (.ok msg, t) =>
    match sys.commitBlock t.world msg with
    | (.error err, w) => (.error err, { t.call (.commitBlock none) with world := w })
    | (.ok res, w) =>
      let t := { t.call (.commitBlock (some res.hash)) with world := w }
      match sys.indexBlock t.world res AnnounceBlock "" "" with
      | (some err, w) => (.error err, { t.call (.indexBlock res.hash false) with world := w })
      | (none, w) =>
        let t := { t.call (.indexBlock res.hash true) with world := w }
        match Thread.updateHead sys t res.hash with
        | (some err, t) => (.error err, t)
        | (none, t) =>
          match sys.post t.world res (sys.Peers t.world) with
          | (some err, w) => (.error err, { t.call (.post res.hash false) with world := w })
          | (none, w) => (.ok res.hash, { t.call (.post res.hash true) with world := w })

/-- The calls `buildAnnounce` records when it succeeds. -/
def Thread.buildAnnounce.calls : List ThreadCall := [.GetUsername true, .CafeSessionsList]

/-- A thread world for the examples: the blocks committed, the blocks indexed
and the blocks posted. -/
structure TestThreadWorld where
  committed : List Multihash
  indexed : List Multihash
  posted : List Multihash
deriving DecidableEq, Repr

/-- The collaborators of the examples: the hash of a committed block is the
number of blocks committed before it. -/
def testThreadSys : ThreadSys TestThreadWorld where
  GetUsername := fun _ => .ok (some "alice")
  CafeSessionsList := fun _ => ["cafe1"]
  commitBlock := fun w _ =>
    (.ok { hash := [w.committed.length] },
      { w with committed := w.committed ++ [[w.committed.length]] })
  indexBlock := fun w res _ _ _ => (none, { w with indexed := w.indexed ++ [res.hash] })
  UpdateHead := fun w _ _ => (none, w)
  Peers := fun _ => ["P2"]
  post := fun w res _ => (none, { w with posted := w.posted ++ [res.hash] })

/-- A joined thread with one block. -/
def testThread : ThreadState TestThreadWorld :=
  { Id := "2", head := [0], world := { committed := [[0]], indexed := [[0]], posted := [[0]] },
    log := [] }

/-! ## Reading a file back (`Textile.FileData`, `core/files.go`) -/

/-- The collaborators of `Textile.FileData` outside `core`: `ipfs.DataAtPath`
on the node and `crypto.DecryptAES`. -/
structure ReadEnv (ο : Type) where
  DataAtPath : ο → String → Except Error Bytes
  DecryptAES : Bytes → Bytes → Except Error Bytes

/-- `Textile.FileData` (core/files.go): the plaintext behind a hash and the
row of the file. -/
def FileData {σ ο ρ : Type} (env : Env σ ο ρ) (renv : ReadEnv ο) (t : World σ ο ρ)
    (hash : String) : Except Error (Bytes × File) :=
  match env.Files.Get t.files hash with
  | none => .error ErrFileNotFound
  | some file =>
    match renv.DataAtPath t.node file.Hash with
    | .error err => .error err
    | .ok fd =>
      if file.Key ≠ "" then
        match Base58.Decode file.Key with
        | .error err => .error err
        | .ok key =>
          match renv.DecryptAES fd key with
          | .error err => .error err
          | .ok plaintext => .ok (plaintext, file)
      else .ok (fd, file)

/-- A stand-in cipher that can be undone: the ciphertext is the key followed
by the plaintext. -/
def sealCipher (plaintext key : Bytes) : Except Error Bytes :=
  if key = [] then .error "invalid key" else .ok (key ++ plaintext)

def sealDecipher (ciphertext key : Bytes) : Except Error Bytes :=
  if key <+: ciphertext then .ok (ciphertext.drop key.length)
  else .error "cipher: message authentication failed"

/-- The test environment with the cipher that can be undone, over a table in
which the hash is unique as well. -/
def sealEnv : Env (List File) (List (String × Bytes × Bool)) (List Bytes) :=
  { testEnv FileDB.primaryOrHash with EncryptAES := sealCipher }

/-- Reading from the blob store: the payload added last under a hash. -/
def sealReadEnv : ReadEnv (List (String × Bytes × Bool)) where
  DataAtPath := fun blobs hash =>
    match blobs.reverse.find? (fun b => b.1 == hash) with
    | some b => .ok b.2.1
    | none => .error "merkledag: not found"
  DecryptAES := sealDecipher

/-- The row `AddFile` inserts for `"hello"` in `world0` through the encrypting
pass-through mill over `sealEnv`. -/
def sealedRow : File :=
  { Mill := "/blob", Checksum := "HQEqUr8DCAXfznsJkPCvKDb9uCS2rvN9UsyUwtgJVa5Z",
    Source := "HQEqUr8DCAXfznsJkPCvKDb9uCS2rvN9UsyUwtgJVa5Z", Opts := "e",
    Hash := "xXChWzgff7UKopYNy7v8iGirMzCtG7ykBVBeyX89Lzg", Key := "Ldp", Size := 5, Added := 7 }

/-- The world after that `AddFile`. -/
def worldS : World (List File) (List (String × Bytes × Bool)) (List Bytes) :=
  (AddFile sealEnv (passMill "/blob" true) { Input := hello } world0).2

/-! ## Invites by notification (`core/notifications.go`) -/

/-- `Textile.AcceptThreadInviteViaNotification`. The result is Go's
`(mh.Multihash, error)`: the hash of the accept and the error of the delete
are returned together. -/
def Textile.AcceptThreadInviteViaNotification {ι δ : Type} (sys : Sys ι δ) (t : Textile ι δ)
    (id : String) : Run (Option Multihash × Option Error) (Textile ι δ) :=
  -- lookup notification
  match sys.NotificationsGet t.datastore id with
  | none => .returns (none, some ("could not find notification: " ++ id)) t
  | some notification =>
    if notification.Type_ ≠ ReceivedInviteNotification then
      .returns (none, some "notification not invite type") t
    else
      -- block is the invite's block id
      match Textile.AcceptThreadInvite sys t notification.BlockId [] with
      | .blocks t => .blocks t
      | .panics t => .panics t
      | .returns (.error err) t => .returns (none, some err) t
      | .returns (.ok hash) t =>
        -- delete notification
        let t := t.call (.NotificationsDelete id)
        match sys.NotificationsDelete t.datastore id with
        | (err, ds) => .returns (hash, err) { t with datastore := ds }

/-- Collaborators whose database cannot be reached: the ping fails, it cannot
be opened again, and no account can be read. -/
def failSys : Sys TestIpfs TestStore :=
  { testSys with
    DatastorePing := fun _ => some "database is locked",
    dbCreate := fun _ _ => .error "unable to open database file",
    Account := fun _ => some "unable to open database file",
    Address := fun _ => .error "unable to open database file" }

/-- The online node holding the external invite `ext`, sealed for the node and
carrying a new thread secret, and the TEXT block `txt`; its datastore has the
notifications `ext`, `msg` and `txt`. -/
def node3 : Textile TestIpfs TestStore :=
  { node2 with
    ipfs := some { online := true, blobs := [("ext", [7, 11, 5]), ("txt", [7, 8, 1])],
                   pins := ["ext", "txt"] },
    datastore := { node2.datastore with notifications := ["ext", "msg", "txt"] } }

/-! ## What thread methods leave alone -/

/-- The datastore and the go-ipfs node of a node, the part of it that thread
methods act on. -/
def Textile.world {ι δ : Type} (t : Textile ι δ) : δ × Option ι := (t.datastore, t.ipfs)

/-- The collaborators that `AddThread` and `handleThreadInvite` run keep the
relation `R` between the datastore and go-ipfs node before and after: the
writes `Threads().Add` and `ThreadPeers().WelcomeByThread`, and the thread
methods `joinInitial`, `handleInviteMessage` and `join` (declared in
`core/thread.go`, which is not among the sources). -/
structure Sys.Frame {ι δ : Type} (sys : Sys ι δ) (R : δ × Option ι → δ × Option ι → Prop) :
    Prop where
  ThreadsAdd : ∀ ds mod ds' nd, sys.ThreadsAdd ds mod = .ok ds' → R (ds, nd) (ds', nd)
  WelcomeByThread : ∀ ds id ds' nd, sys.WelcomeByThread ds id = .ok ds' → R (ds, nd) (ds', nd)
  joinInitial : ∀ thrd w, R w (sys.joinInitial thrd w).2
  handleInviteMessage : ∀ thrd block w, R w (sys.handleInviteMessage thrd block w).2
  join : ∀ thrd author w, R w (sys.join thrd author w).2

/-- The go-ipfs node, its pins included, is as before. -/
def Sys.sameNode {ι δ : Type} (a b : δ × Option ι) : Prop := b.2 = a.2

/-- Every notification reads as before. -/
def Sys.sameNotifications {ι δ : Type} (sys : Sys ι δ) (a b : δ × Option ι) : Prop :=
  ∀ id, sys.NotificationsGet b.1 id = sys.NotificationsGet a.1 id

/-! ## Theorems -/

/-- `Sum256` on the FIPS 180-4 test message `"abc"`. -/
theorem Sum256_abc :
    SHA256.Sum256 [97, 98, 99] =
      [0xba, 0x78, 0x16, 0xbf, 0x8f, 0x01, 0xcf, 0xea, 0x41, 0x41, 0x40, 0xde, 0x5d, 0xae, 0x22,
       0x23, 0xb0, 0x03, 0x61, 0xa3, 0x96, 0x17, 0x7a, 0x9c, 0xb4, 0x10, 0xff, 0x61, 0xf2, 0x00,
       0x15, 0xad] := by
  decide

/-- `Sum256` on the two-block FIPS 180-4 test message
`"abcdbcdecdefdefgefghfghighijhijkijkljklmklmnlmnomnopnopq"`. -/
theorem Sum256_two_blocks :
    SHA256.Sum256 (ascii "abcdbcdecdefdefgefghfghighijhijkijkljklmklmnlmnomnopnopq") =
      [0x24, 0x8d, 0x6a, 0x61, 0xd2, 0x06, 0x38, 0xb8, 0xe5, 0xc0, 0x26, 0x93, 0x0c, 0x3e, 0x60,
       0x39, 0xa3, 0x3c, 0xe4, 0x59, 0x64, 0xff, 0x21, 0x67, 0xf6, 0xec, 0xed, 0xd4, 0x19, 0xdb,
       0x06, 0xc1] := by
  decide!

/-- C1: for every byte string `p` and flag `willEncrypt`, `checksum p willEncrypt`
is the base58 encoding of the SHA-256 digest of `p` followed by one byte, which
is 1 when `willEncrypt` is true and 0 otherwise. -/
theorem checksum_eq (p : Bytes) (willEncrypt : Bool) :
    checksum p willEncrypt =
      Base58.FastBase58Encoding (SHA256.Sum256 (p ++ [if willEncrypt then 1 else 0])) := by
  cases willEncrypt <;> rfl

/-- C2: with `Use` empty, `AddFile` takes `checksum conf.Input conf.Plaintext`
as the source key, so the flag byte is 1 exactly when the config is plaintext.
For the input `"hello"` and `Plaintext = false` the inserted row has the source
key `checksum hello false`, not `checksum hello (!false)`. -/
theorem AddFile_source_flag_hello :
    AddFile.source { Input := hello, Plaintext := false } = checksum hello false ∧
    Option.map File.Source
        (rowOf (AddFile (testEnv FileDB.primary) (passMill "/blob" true)
          { Input := hello, Plaintext := false } world0).1)
      = some (checksum hello false) ∧
    checksum hello false ≠ checksum hello (!false) := by
  decide

/-- C3: `AddFile` computes the primary checksum as
`checksum res.File conf.Plaintext`. For the input `"hello"` through a
pass-through mill with `Plaintext = true` the inserted row has the checksum
`checksum hello true`, not `checksum hello (!true)`. -/
theorem AddFile_checksum_flag_hello :
    Option.map File.Checksum
        (rowOf (AddFile (testEnv FileDB.primary) (passMill "/blob" true)
          { Input := hello, Plaintext := true } world0).1)
      = some (checksum hello true) ∧
    checksum hello true ≠ checksum hello (!true) := by
  decide

/-- C5: source-level dedup. When the file table holds a row for
`(mill.ID, source, opts)`, `AddFile` returns exactly that row with no error and
leaves the world as it was: no call to the mill transform, nothing added to the
object store, no row inserted or changed. -/
theorem AddFile_source_dedup {σ ο ρ : Type} (env : Env σ ο ρ) (mill : Mill)
    (conf : AddFileConfig) (t : World σ ο ρ) (opts : String) (efile : File)
    (hopts : mill.Options conf.Plaintext = .ok opts)
    (hrow : env.Files.GetBySource t.files mill.ID (AddFile.source conf) opts = some efile) :
    AddFile env mill conf t = (.ok (some efile), t) := by
  simp only [AddFile, hopts, hrow]

/-- The witness of C5: a second `AddFile` of `"hello"` meets the row of the
first. -/
theorem AddFile_source_dedup_witness :
    (passMill "/blob" true).Options false = .ok "e" ∧
    (testEnv FileDB.primary).Files.GetBySource world1.files "/blob"
        (AddFile.source { Input := hello }) "e" = some helloRow ∧
    AddFile (testEnv FileDB.primary) (passMill "/blob" true) { Input := hello } world1
      = (.ok (some helloRow), world1) :=
  have h1 : (passMill "/blob" true).Options false = .ok "e" := rfl
  have h2 : (testEnv FileDB.primary).Files.GetBySource world1.files "/blob"
      (AddFile.source { Input := hello }) "e" = some helloRow := by decide
  ⟨h1, h2, AddFile_source_dedup _ _ _ _ _ _ h1 h2⟩

/-- A row read back by hash from the file table has that hash. -/
theorem FileDB_get_hash (unique : File → File → Bool) (rows : List File) (hash : String)
    (f : File) (h : (FileDB unique).Get rows hash = some f) : f.Hash = hash := by
  have := List.find?_some h
  simpa using this

/-- After a successful insert into a table with no row for the source key of
the new row, the lookup by that source key returns the new row. -/
theorem FileDB_add_source (unique : File → File → Bool) (rows rows' : List File) (row : File)
    (hnone : (FileDB unique).GetBySource rows row.Mill row.Source row.Opts = none)
    (hadd : (FileDB unique).Add rows row = .ok rows') :
    ∃ g, (FileDB unique).GetBySource rows' row.Mill row.Source row.Opts = some g ∧
      g.Hash = row.Hash := by
  simp only [FileDB] at hnone hadd ⊢
  split at hadd
  · cases hadd
  · injection hadd with hadd
    subst hadd
    refine ⟨row, ?_, rfl⟩
    rw [List.find?_append, hnone]
    simp

@[simp] theorem World.call_files {σ ο ρ : Type} (t : World σ ο ρ) (c : Call) :
    (t.call c).files = t.files := rfl

@[simp] theorem World.call_node {σ ο ρ : Type} (t : World σ ο ρ) (c : Call) :
    (t.call c).node = t.node := rfl

@[simp] theorem World.call_rand {σ ο ρ : Type} (t : World σ ο ρ) (c : Call) :
    (t.call c).rand = t.rand := rfl

@[simp] theorem World.call_now {σ ο ρ : Type} (t : World σ ο ρ) (c : Call) :
    (t.call c).now = t.now := rfl

@[simp] theorem World.call_log {σ ο ρ : Type} (t : World σ ο ρ) (c : Call) :
    (t.call c).log = t.log ++ [c] := rfl

/-- What a successful `AddFile.store` did: the payload was added under `hash`,
the row with that hash was inserted, and the row read back is the result. -/
theorem AddFile.store_ok {σ ο ρ : Type} (env : Env σ ο ρ) (mill : Mill) (model : File)
    (payload : Bytes) (t t1 : World σ ο ρ) (r : Option File)
    (h : AddFile.store env mill model payload t = (.ok r, t1)) :
    ∃ hash node files, env.AddData t.node payload mill.Pin = .ok (hash, node) ∧
      env.Files.Add t.files { model with Hash := hash } = .ok files ∧
      env.Files.Get files hash = r ∧ t1.files = files := by
  unfold AddFile.store at h
  simp only [World.call_node, World.call_files] at h
  cases hd : env.AddData t.node payload mill.Pin with
  | error err => simp [hd] at h
  | ok p =>
    obtain ⟨hash, node⟩ := p
    simp only [hd] at h
    cases ha : env.Files.Add t.files { model with Hash := hash } with
    | error err => simp [ha] at h
    | ok files =>
      simp only [ha] at h
      obtain ⟨hr, ht⟩ := Prod.mk.inj h
      refine ⟨hash, node, files, rfl, ha, ?_, ?_⟩
      · simpa using hr
      · rw [← ht]

/-- C4: `AddFile` is idempotent. Over a file table that returns what was added
(a row read back by hash has that hash, and after an insert the lookup by the
new row's source key returns a row with the new row's hash), if a first
`AddFile` succeeds with file `f`, then the same call made right after returns
a file with the same hash and leaves the file table unchanged. -/
theorem AddFile_idempotent {σ ο ρ : Type} (env : Env σ ο ρ)
    (hget : ∀ s hash f, env.Files.Get s hash = some f → f.Hash = hash)
    (hadd : ∀ s s' row, env.Files.GetBySource s row.Mill row.Source row.Opts = none →
      env.Files.Add s row = .ok s' →
      ∃ g, env.Files.GetBySource s' row.Mill row.Source row.Opts = some g ∧ g.Hash = row.Hash)
    (mill : Mill) (conf : AddFileConfig) (t t1 : World σ ο ρ) (f : File)
    (h1 : AddFile env mill conf t = (.ok (some f), t1)) :
    ∃ g, (AddFile env mill conf t1).1 = .ok (some g) ∧ g.Hash = f.Hash ∧
      (AddFile env mill conf t1).2.files = t1.files := by
  unfold AddFile at h1
  cases hopts : mill.Options conf.Plaintext with
  | error err => simp [hopts] at h1
  | ok opts =>
    simp only [hopts] at h1
    cases hsrc : env.Files.GetBySource t.files mill.ID (AddFile.source conf) opts with
    | some efile =>
      simp only [hsrc] at h1
      obtain ⟨hf, ht⟩ := Prod.mk.inj h1
      subst ht
      have hf : efile = f := by simpa using hf
      subst hf
      exact ⟨efile, by simp [AddFile, hopts, hsrc], rfl, by simp [AddFile, hopts, hsrc]⟩
    | none =>
      simp only [hsrc] at h1
      cases hmill : mill.Mill conf.Input conf.Name with
      | error err => simp [hmill] at h1
      | ok res =>
        simp only [hmill, World.call_files, World.call_now] at h1
        cases hprim : env.Files.GetByPrimary t.files mill.ID (checksum res.File conf.Plaintext) with
        | some efile =>
          simp only [hprim] at h1
          obtain ⟨hf, ht⟩ := Prod.mk.inj h1
          subst ht
          have hf : efile = f := by simpa using hf
          subst hf
          exact ⟨efile, by simp [AddFile, hopts, hsrc, hmill, hprim], rfl,
            by simp [AddFile, hopts, hsrc, hmill, hprim]⟩
        | none =>
          simp only [hprim] at h1
          have key : ∀ (model : File) (payload : Bytes) (t' : World σ ο ρ),
              t'.files = t.files → model.Mill = mill.ID → model.Source = AddFile.source conf →
              model.Opts = opts → AddFile.store env mill model payload t' = (.ok (some f), t1) →
              ∃ g, (AddFile env mill conf t1).1 = .ok (some g) ∧ g.Hash = f.Hash ∧
                (AddFile env mill conf t1).2.files = t1.files := by
            intro model payload t' hfiles hm hs ho hst
            obtain ⟨hash, node, files, -, ha, hg, ht1⟩ := AddFile.store_ok _ _ _ _ _ _ _ hst
            have hfh : f.Hash = hash := hget _ _ _ hg
            rw [hfiles] at ha
            obtain ⟨g, hgs, hgh⟩ := hadd t.files files { model with Hash := hash }
              (by simpa [hm, hs, ho] using hsrc) ha
            simp only [hm, hs, ho] at hgs
            rw [← ht1] at hgs
            exact ⟨g, by simp [AddFile, hopts, hgs], by rw [hgh, hfh],
              by simp [AddFile, hopts, hgs]⟩
          split at h1
          · cases hk : env.GenerateAESKey t.rand with
            | error err => simp [hk] at h1
            | ok p =>
              obtain ⟨k, rand⟩ := p
              simp only [World.call_rand, hk] at h1
              cases he : env.EncryptAES res.File k with
              | error err => simp [he] at h1
              | ok ciphertext =>
                simp only [he] at h1
                refine key _ _ _ ?_ ?_ ?_ ?_ h1 <;> rfl
          · refine key _ _ _ ?_ ?_ ?_ ?_ h1 <;> rfl

/-- The witness of C4: `"hello"` added twice through the pass-through mill. -/
theorem AddFile_idempotent_witness :
    AddFile (testEnv FileDB.primary) (passMill "/blob" true) { Input := hello } world0
      = (.ok (some helloRow), world1) ∧
    ∃ g, (AddFile (testEnv FileDB.primary) (passMill "/blob" true) { Input := hello } world1).1
        = .ok (some g) ∧ g.Hash = helloRow.Hash ∧
      (AddFile (testEnv FileDB.primary) (passMill "/blob" true) { Input := hello } world1).2.files
        = world1.files :=
  have h1 : AddFile (testEnv FileDB.primary) (passMill "/blob" true) { Input := hello } world0
      = (.ok (some helloRow), world1) := by rfl
  ⟨h1, AddFile_idempotent (testEnv FileDB.primary) (FileDB_get_hash _) (FileDB_add_source _)
    _ _ _ _ _ h1⟩

/-- C6: primary-level dedup. With no source-level match, when the file table
holds a row for `(mill.ID, check)`, `check` being the checksum of the milled
output, `AddFile` returns exactly that row with no error; the world afterwards
differs only by the recorded call of the mill transform: no key generated,
nothing added to the object store, no row inserted. -/
theorem AddFile_primary_dedup {σ ο ρ : Type} (env : Env σ ο ρ) (mill : Mill)
    (conf : AddFileConfig) (t : World σ ο ρ) (opts : String) (res : Result) (efile : File)
    (hopts : mill.Options conf.Plaintext = .ok opts)
    (hsrc : env.Files.GetBySource t.files mill.ID (AddFile.source conf) opts = none)
    (hmill : mill.Mill conf.Input conf.Name = .ok res)
    (hrow : env.Files.GetByPrimary t.files mill.ID (checksum res.File conf.Plaintext)
      = some efile) :
    AddFile env mill conf t = (.ok (some efile), t.call (.Mill conf.Input conf.Name)) := by
  simp only [AddFile, hopts, hsrc, hmill, World.call_files, hrow]

/-- The witness of C6: `"hello"` asked for again under another source key. -/
theorem AddFile_primary_dedup_witness :
    AddFile (testEnv FileDB.primary) (passMill "/blob" true) helloUse world1
      = (.ok (some helloRow), world1.call (.Mill hello "")) :=
  AddFile_primary_dedup (testEnv FileDB.primary) (passMill "/blob" true) helloUse world1 "e"
    { File := hello, Meta := "" } helloRow rfl (by decide) rfl (by decide)

/-- The digits keep the accumulator as their tail, so they are at least as
long. -/
theorem Base58.digits_length (fuel x : Nat) (acc : List Char) :
    acc.length ≤ (Base58.digits fuel x acc).length := by
  induction fuel generalizing x acc with
  | zero => simp [Base58.digits]
  | succ n ih =>
    unfold Base58.digits
    split
    · exact le_refl _
    · exact le_trans (by simp) (ih (x / 58) (Base58.digit (x % 58) :: acc))

/-- A byte string whose first byte is not zero denotes a positive number. -/
theorem Base58.toNat_pos (b : Nat) (bs : Bytes) (hb : b % 256 ≠ 0) :
    Base58.toNat (b :: bs) ≠ 0 := by
  have aux : ∀ (l : Bytes) (a : Nat), a ≠ 0 →
      l.foldl (fun acc b => acc * 256 + b % 256) a ≠ 0 := by
    intro l
    induction l with
    | nil => intro a ha; simpa using ha
    | cons c l ih =>
      intro a ha
      simp only [List.foldl_cons]
      apply ih
      have : 0 < a := Nat.pos_of_ne_zero ha
      omega
  unfold Base58.toNat
  simp only [List.foldl_cons]
  apply aux
  omega

/-- The encoding of a non-empty byte string is a non-empty string. -/
theorem Base58.FastBase58Encoding_ne_empty (bs : Bytes) (h : bs ≠ []) :
    Base58.FastBase58Encoding bs ≠ "" := by
  intro he
  have hlen : (List.replicate (Base58.zeros bs) '1' ++
      Base58.digits (2 * bs.length) (Base58.toNat bs) []).length = 0 := by
    have := congrArg String.length he
    simpa [Base58.FastBase58Encoding, String.length] using this
  cases bs with
  | nil => exact h rfl
  | cons b bs =>
    simp only [List.length_append, List.length_replicate, List.length_cons] at hlen
    by_cases hb : b % 256 = 0
    · have : Base58.zeros (b :: bs) ≠ 0 := by
        simp [Base58.zeros, List.takeWhile_cons, hb]
      omega
    · have hpos := Base58.toNat_pos b bs hb
      have hfuel : 2 * (bs.length + 1) = (2 * bs.length + 1) + 1 := by ring
      rw [hfuel] at hlen
      unfold Base58.digits at hlen
      rw [if_neg hpos] at hlen
      have := Base58.digits_length (2 * bs.length + 1) (Base58.toNat (b :: bs) / 58)
        [Base58.digit (Base58.toNat (b :: bs) % 58)]
      simp only [List.length_cons, List.length_nil] at this
      omega

/-- When `AddFile.store` hands a row to the file table, the payload went into
the object store first, the row is the model with the returned hash, and the
result is that of the insert. -/
theorem AddFile.store_inv {σ ο ρ : Type} (env : Env σ ο ρ) (mill : Mill) (model : File)
    (payload : Bytes) (t : World σ ο ρ) (row : File)
    (hin : Call.FilesAdd row ∈ (AddFile.store env mill model payload t).2.log)
    (hnew : Call.FilesAdd row ∉ t.log) :
    ∃ hash node, env.AddData t.node payload mill.Pin = .ok (hash, node) ∧
      row = { model with Hash := hash } ∧
      (AddFile.store env mill model payload t).2.log
        = t.log ++ [Call.AddData payload mill.Pin, Call.FilesAdd row] ∧
      (AddFile.store env mill model payload t).1
        = (match env.Files.Add t.files row with
           | .error err => .error err
           | .ok files => .ok (env.Files.Get files hash)) ∧
      ((AddFile.store env mill model payload t).2.files
        = match env.Files.Add t.files row with
           | .error _ => t.files
           | .ok files => files) := by
  unfold AddFile.store at hin ⊢
  simp only [World.call_node, World.call_files] at hin ⊢
  cases hd : env.AddData t.node payload mill.Pin with
  | error err =>
    simp only [hd, World.call_log, List.mem_append, List.mem_singleton] at hin
    rcases hin with h | h
    · exact absurd h hnew
    · cases h
  | ok p =>
    obtain ⟨hash, node⟩ := p
    simp only [hd] at hin ⊢
    have hrow : row = { model with Hash := hash } := by
      cases ha : env.Files.Add t.files { model with Hash := hash } <;>
        simp only [ha, World.call_log, List.mem_append, List.mem_singleton] at hin <;>
        · rcases hin with (h | h) | h
          · exact absurd h hnew
          · cases h
          · injection h
    subst hrow
    refine ⟨hash, node, rfl, rfl, ?_, ?_, ?_⟩ <;>
      cases ha : env.Files.Add t.files { model with Hash := hash } <;>
      simp [ha, World.call]

/-- When `AddFile` hands a row to the file table, both lookups missed, the
mill produced `res`, and the call ended in `AddFile.store` on a model and a
payload that are either the encrypted pair (fresh key, ciphertext of the milled
bytes) or the plain pair (no key, the milled bytes). -/
theorem AddFile_inv {σ ο ρ : Type} (env : Env σ ο ρ) (mill : Mill) (conf : AddFileConfig)
    (t : World σ ο ρ) (row : File)
    (hin : Call.FilesAdd row ∈ (AddFile env mill conf t).2.log)
    (hnew : Call.FilesAdd row ∉ t.log) :
    ∃ res model payload t', mill.Mill conf.Input conf.Name = .ok res ∧
      AddFile env mill conf t = AddFile.store env mill model payload t' ∧
      t'.files = t.files ∧
      (((mill.Encrypt && !conf.Plaintext) = true ∧
          ∃ key rand, env.GenerateAESKey t.rand = .ok (key, rand) ∧
            env.EncryptAES res.File key = .ok payload ∧
            model.Key = Base58.FastBase58Encoding key ∧
            t'.log = t.log ++ [Call.Mill conf.Input conf.Name, Call.GenerateAESKey,
              Call.EncryptAES res.File key]) ∨
        ((mill.Encrypt && !conf.Plaintext) = false ∧ model.Key = "" ∧ payload = res.File ∧
            t'.log = t.log ++ [Call.Mill conf.Input conf.Name])) := by
  unfold AddFile at hin ⊢
  cases hopts : mill.Options conf.Plaintext with
  | error err => simp only [hopts] at hin; exact absurd hin hnew
  | ok opts =>
    simp only [hopts] at hin ⊢
    cases hsrc : env.Files.GetBySource t.files mill.ID (AddFile.source conf) opts with
    | some efile => simp only [hsrc] at hin; exact absurd hin hnew
    | none =>
      simp only [hsrc] at hin ⊢
      cases hmill : mill.Mill conf.Input conf.Name with
      | error err =>
        simp only [hmill, World.call_log, List.mem_append, List.mem_singleton] at hin
        rcases hin with h | h
        · exact absurd h hnew
        · cases h
      | ok res =>
        simp only [hmill, World.call_files, World.call_now] at hin ⊢
        cases hprim : env.Files.GetByPrimary t.files mill.ID
            (checksum res.File conf.Plaintext) with
        | some efile =>
          simp only [hprim, World.call_log, List.mem_append, List.mem_singleton] at hin
          rcases hin with h | h
          · exact absurd h hnew
          · cases h
        | none =>
          simp only [hprim] at hin ⊢
          cases henc : (mill.Encrypt && !conf.Plaintext) with
          | false =>
            simp only [henc, Bool.false_eq_true, if_false] at hin ⊢
            exact ⟨res, _, _, _, rfl, rfl, rfl, Or.inr ⟨trivial, rfl, rfl, rfl⟩⟩
          | true =>
            simp only [henc, if_true, World.call_rand] at hin ⊢
            cases hk : env.GenerateAESKey t.rand with
            | error err =>
              simp only [hk, World.call_log, List.mem_append, List.mem_singleton] at hin
              rcases hin with (h | h) | h
              · exact absurd h hnew
              · cases h
              · cases h
            | ok p =>
              obtain ⟨key, rand⟩ := p
              simp only [hk] at hin ⊢
              cases he : env.EncryptAES res.File key with
              | error err =>
                simp only [he, World.call_log, List.mem_append, List.mem_singleton] at hin
                rcases hin with ((h | h) | h) | h
                · exact absurd h hnew
                · cases h
                · cases h
                · cases h
              | ok ciphertext =>
                simp only [he] at hin ⊢
                exact ⟨res, _, _, _, rfl, rfl, rfl,
                  Or.inl ⟨trivial, key, rand, rfl, he, rfl, by simp [World.call]⟩⟩

/-- C7, as stated, fails: in a table where the hash is unique too, `"hello"`
is already stored under the mill `/blob`; adding it through the mill `/json`
misses both dedup lookups, the insert fails with a conflict error although a
row with that hash exists, and `AddFile` returns the error and no row. -/
theorem AddFile_conflict_not_recovered :
    (testEnv FileDB.primaryOrHash).Files.GetBySource worldH.files "/json"
        (AddFile.source { Input := hello }) "e" = none ∧
    (testEnv FileDB.primaryOrHash).Files.GetByPrimary worldH.files "/json"
        (checksum hello false) = none ∧
    ((testEnv FileDB.primaryOrHash).Files.Get worldH.files helloJsonRow.Hash).isSome = true ∧
    (testEnv FileDB.primaryOrHash).Files.Add worldH.files helloJsonRow
      = .error "UNIQUE constraint failed: files" ∧
    ConflictError "UNIQUE constraint failed: files" = true ∧
    errorOf (AddFile (testEnv FileDB.primaryOrHash) (passMill "/json" false) { Input := hello }
        worldH).1 = some "UNIQUE constraint failed: files" ∧
    rowOf (AddFile (testEnv FileDB.primaryOrHash) (passMill "/json" false) { Input := hello }
        worldH).1 = none :=
  ⟨by decide, by decide, by decide, by rfl, by decide, by decide, by decide⟩

/-- C7, amended: `AddFile` does not recover a failed insert. Whenever it hands
a row to the file table and the insert fails, with a conflict error or any
other, `AddFile` returns that error and no row, and the file table is as
before. -/
theorem AddFile_insert_error {σ ο ρ : Type} (env : Env σ ο ρ) (mill : Mill)
    (conf : AddFileConfig) (t : World σ ο ρ) (row : File) (err : Error)
    (hin : Call.FilesAdd row ∈ (AddFile env mill conf t).2.log)
    (hnew : Call.FilesAdd row ∉ t.log)
    (herr : env.Files.Add t.files row = .error err) :
    (AddFile env mill conf t).1 = .error err ∧ (AddFile env mill conf t).2.files = t.files := by
  obtain ⟨res, model, payload, t', -, heq, hfiles, hlog⟩ := AddFile_inv env mill conf t row hin hnew
  have hnew' : Call.FilesAdd row ∉ t'.log := by
    rcases hlog with ⟨-, key, rand, -, -, -, hl⟩ | ⟨-, -, -, hl⟩ <;>
      · rw [hl]
        simp [hnew]
  rw [heq] at hin ⊢
  obtain ⟨hash, node, -, -, -, h1, h2⟩ := AddFile.store_inv env mill model payload t' row hin hnew'
  rw [hfiles, herr] at h1 h2
  exact ⟨h1, h2⟩

/-- The witness of C7 amended: the conflicting insert of `"hello"` through the
mill `/json`. -/
theorem AddFile_insert_error_witness :
    (AddFile (testEnv FileDB.primaryOrHash) (passMill "/json" false) { Input := hello }
        worldH).1 = .error "UNIQUE constraint failed: files" ∧
    (AddFile (testEnv FileDB.primaryOrHash) (passMill "/json" false) { Input := hello }
        worldH).2.files = worldH.files :=
  AddFile_insert_error (testEnv FileDB.primaryOrHash) (passMill "/json" false) { Input := hello }
    worldH helloJsonRow "UNIQUE constraint failed: files" (by decide) (by decide) (by rfl)

/-- The queued keys are never empty. -/
theorem queuedKeys_ne_nil (r : List Bytes) (k : Bytes) (r' : List Bytes)
    (h : queuedKeys r = .ok (k, r')) : k ≠ [] := by
  cases r with
  | nil => simp [queuedKeys] at h
  | cons a as =>
    simp only [queuedKeys] at h
    split at h
    · cases h
    · injection h with h
      injection h with h1 h2
      rw [← h1]
      assumption

/-- C8: for every row `AddFile` hands to the file table (so for every row it
newly inserts), the key is non-empty if and only if `mill.Encrypt` holds and
`conf.Plaintext` does not. In that case the payload given to the object store
is the AES encryption of the milled bytes under a freshly generated key and
the row's key is the base58 encoding of that key; otherwise the key is empty
and the payload is the milled bytes unchanged. Generated keys are taken to be
non-empty. -/
theorem AddFile_key_iff_ciphertext {σ ο ρ : Type} (env : Env σ ο ρ)
    (hkey : ∀ r k r', env.GenerateAESKey r = .ok (k, r') → k ≠ [])
    (mill : Mill) (conf : AddFileConfig) (t : World σ ο ρ) (row : File)
    (hin : Call.FilesAdd row ∈ (AddFile env mill conf t).2.log)
    (hnew : Call.FilesAdd row ∉ t.log) :
    ∃ res payload, mill.Mill conf.Input conf.Name = .ok res ∧
      (row.Key ≠ "" ↔ (mill.Encrypt = true ∧ conf.Plaintext = false)) ∧
      ((mill.Encrypt = true ∧ conf.Plaintext = false) →
        ∃ key, env.EncryptAES res.File key = .ok payload ∧
          row.Key = Base58.FastBase58Encoding key ∧
          (AddFile env mill conf t).2.log = t.log ++
            [Call.Mill conf.Input conf.Name, Call.GenerateAESKey, Call.EncryptAES res.File key,
             Call.AddData payload mill.Pin, Call.FilesAdd row]) ∧
      (¬ (mill.Encrypt = true ∧ conf.Plaintext = false) →
        row.Key = "" ∧ payload = res.File ∧
          (AddFile env mill conf t).2.log = t.log ++
            [Call.Mill conf.Input conf.Name, Call.AddData payload mill.Pin,
             Call.FilesAdd row]) := by
  obtain ⟨res, model, payload, t', hmill, heq, -, hlog⟩ := AddFile_inv env mill conf t row hin hnew
  have hnew' : Call.FilesAdd row ∉ t'.log := by
    rcases hlog with ⟨-, key, rand, -, -, -, hl⟩ | ⟨-, -, -, hl⟩ <;>
      · rw [hl]
        simp [hnew]
  rw [heq] at hin ⊢
  obtain ⟨hash, node, -, hrow, hl2, -, -⟩ :=
    AddFile.store_inv env mill model payload t' row hin hnew'
  have hk : row.Key = model.Key := by rw [hrow]
  refine ⟨res, payload, hmill, ?_⟩
  rcases hlog with ⟨henc, key, rand, hgen, hct, hmk, hl⟩ | ⟨henc, hmk, hp, hl⟩
  · have henc' : mill.Encrypt = true ∧ conf.Plaintext = false := by
      simpa using henc
    have hne : row.Key ≠ "" := by
      rw [hk, hmk]
      exact Base58.FastBase58Encoding_ne_empty key (hkey _ _ _ hgen)
    refine ⟨⟨fun _ => henc', fun _ => hne⟩, fun _ => ⟨key, hct, by rw [hk, hmk], ?_⟩,
      fun h => absurd henc' h⟩
    rw [hl2, hl]
    simp
  · have henc' : ¬ (mill.Encrypt = true ∧ conf.Plaintext = false) := by
      intro h
      simp [h.1, h.2] at henc
    have hke : row.Key = "" := by rw [hk, hmk]
    refine ⟨⟨fun h => absurd hke h, fun h => absurd h henc'⟩, fun h => absurd h henc',
      fun _ => ⟨hke, hp, ?_⟩⟩
    rw [hl2, hl]
    simp

/-- The witness of C8: the row inserted for `"hello"` through the encrypting
pass-through mill. -/
theorem AddFile_key_iff_ciphertext_witness :
    ∃ res payload, (passMill "/blob" true).Mill hello "" = .ok res ∧
      (helloRow.Key ≠ "" ↔ ((passMill "/blob" true).Encrypt = true ∧ false = false)) ∧
      ((passMill "/blob" true).Encrypt = true ∧ false = false →
        ∃ key, xorCipher res.File key = .ok payload ∧
          helloRow.Key = Base58.FastBase58Encoding key ∧
          world1.log = [] ++
            [Call.Mill hello "", Call.GenerateAESKey, Call.EncryptAES res.File key,
             Call.AddData payload true, Call.FilesAdd helloRow]) ∧
      (¬ ((passMill "/blob" true).Encrypt = true ∧ false = false) →
        helloRow.Key = "" ∧ payload = res.File ∧
          world1.log = [] ++
            [Call.Mill hello "", Call.AddData payload true, Call.FilesAdd helloRow]) :=
  AddFile_key_iff_ciphertext (testEnv FileDB.primary) queuedKeys_ne_nil (passMill "/blob" true)
    { Input := hello } world0 helloRow (by decide) (by decide)

/-! ### `Itoa` is injective -/

theorem Itoa.digits_append (fuel n : Nat) (acc : List Char) :
    Itoa.digits fuel n acc = Itoa.digits fuel n [] ++ acc := by
  induction fuel generalizing n acc with
  | zero => simp [Itoa.digits]
  | succ k ih =>
    unfold Itoa.digits
    split
    · simp
    · rw [ih (n / 10) (Char.ofNat (48 + n % 10) :: acc), ih (n / 10) [Char.ofNat (48 + n % 10)]]
      simp

theorem Itoa.digit_value (d : Nat) (h : d < 10) : (Char.ofNat (48 + d)).toNat - 48 = d := by
  interval_cases d <;> rfl

theorem Itoa.value_digits (fuel n : Nat) (h : n < 10 ^ fuel) :
    Itoa.value (Itoa.digits fuel n []) = n := by
  induction fuel generalizing n with
  | zero =>
    have : n = 0 := by simpa using h
    simp [Itoa.digits, Itoa.value, this]
  | succ k ih =>
    unfold Itoa.digits
    split
    · rename_i hlt
      simp [Itoa.value, Itoa.digit_value n hlt]
    · rw [Itoa.digits_append]
      have hdiv : n / 10 < 10 ^ k := by
        apply Nat.div_lt_of_lt_mul
        rw [pow_succ] at h
        omega
      have := ih (n / 10) hdiv
      unfold Itoa.value at this ⊢
      rw [List.foldl_append, this]
      simp only [List.foldl_cons, List.foldl_nil]
      rw [Itoa.digit_value (n % 10) (Nat.mod_lt _ (by norm_num))]
      omega

theorem Itoa_value (n : Nat) : Itoa.value (Itoa n).data = n := by
  have h : n < 10 ^ (n + 1) :=
    lt_trans (Nat.lt_succ_self n) (Nat.lt_pow_self (by norm_num) (n + 1))
  simpa [Itoa] using Itoa.value_digits (n + 1) n h

theorem Itoa_injective (a b : Nat) (h : Itoa a = Itoa b) : a = b := by
  rw [← Itoa_value a, ← Itoa_value b, h]

/-- The path of an index, `"/" + Itoa i + "/"`, determines the index. -/
theorem keyPath_injective (a b : Nat) (h : keyPath a = keyPath b) : a = b := by
  unfold keyPath at h
  apply Itoa_injective
  have h' := congrArg String.data h
  simp only [String.data_append, List.append_assoc] at h'
  have h2 := List.append_cancel_left h'
  have h3 := List.append_cancel_right h2
  exact String.ext h3

/-! ### `AddNodeFromFiles` -/

theorem ipfs.AddDataToDirectory_ok {σ : Type} (env : DagEnv σ) (dag : Dag) (dir : Directory)
    (fname : String) (data : Bytes) (v : String × Directory × Dag)
    (h : ipfs.AddDataToDirectory env dag dir fname data = .ok v) :
    v.2.1 = dir.AddChild fname (env.cid { Data := data, Links := [] }) := by
  unfold ipfs.AddDataToDirectory ipfs.AddData at h
  simp only [bind, Except.bind, pure, Except.pure, Bool.false_eq_true, if_false] at h
  split at h
  · cases h
  · cases h
    rfl

theorem ipfs.AddLinkToDirectory_ok (dag : Dag) (dir d : Directory) (fname pth : String)
    (h : ipfs.AddLinkToDirectory dag dir fname pth = .ok d) : d = dir.AddChild fname pth := by
  unfold ipfs.AddLinkToDirectory at h
  simp only [bind, Except.bind, pure, Except.pure] at h
  split at h
  · cases h
  · cases h
    rfl

theorem ipfs.PinNode_ok {σ : Type} (env : DagEnv σ) (dag : Dag) (nd : Node) (recursive : Bool)
    (v : Node × Dag) (h : ipfs.PinNode env dag nd recursive = .ok v) : v.1 = nd.encoded := by
  unfold ipfs.PinNode at h
  cases h
  rfl

/-- What a successful `fileNode` did to the directory: it linked the pair node
of the file under `link`. -/
theorem fileNode_ok {σ : Type} (env : DagEnv σ) (s : σ) (file : File) (dir dir' : Directory)
    (link : String) (dag dag' : Dag) (h : fileNode env s file dir link dag = .ok (dir', dag')) :
    ∃ reader, fileNode.reader env file = .ok reader ∧
      dir' = dir.AddChild link (env.cid (fileNode.pair env file reader)) := by
  unfold fileNode at h
  simp only [bind, Except.bind, pure, Except.pure] at h
  split at h
  · cases h
  · cases hr : fileNode.reader env file with
    | error err => simp [hr] at h
    | ok reader =>
      simp only [hr] at h
      refine ⟨reader, rfl, ?_⟩
      cases h1 : ipfs.AddDataToDirectory env dag NewDirectory FileLinkName reader with
      | error err => simp [h1] at h
      | ok v1 =>
        simp only [h1] at h
        have e1 := ipfs.AddDataToDirectory_ok _ _ _ _ _ _ h1
        cases h2 : ipfs.AddLinkToDirectory v1.2.2 v1.2.1 DataLinkName file.Hash with
        | error err => simp [h2] at h
        | ok v2 =>
          simp only [h2] at h
          have e2 := ipfs.AddLinkToDirectory_ok _ _ _ _ _ h2
          cases h3 : ipfs.PinNode env v1.2.2 v2.GetNode false with
          | error err => simp [h3] at h
          | ok v3 =>
            simp only [h3] at h
            have e3 := ipfs.PinNode_ok _ _ _ _ _ h3
            cases h4 : ipfs.AddLinkToDirectory v3.2 dir link (env.cid v3.1) with
            | error err => simp [h4] at h
            | ok v4 =>
              simp only [h4] at h
              have e4 := ipfs.AddLinkToDirectory_ok _ _ _ _ _ h4
              injection h with h
              injection h with hd _
              rw [← hd, e4, e3, e2, e1]
              rfl

/-- Setting a path no entry has appends the entry. -/
theorem Keys.set_fresh (keys : Keys) (path key : String) (h : ∀ p ∈ keys, p.1 ≠ path) :
    Keys.set keys path key = keys ++ [(path, key)] := by
  unfold Keys.set
  rw [if_neg]
  simp only [List.any_eq_true, beq_iff_eq, not_exists, not_and]
  intro p hp
  exact h p hp

/-- The entries `AddNodeFromFiles` writes for the files from index `i` on. -/
theorem AddNodeFromFiles.loop_keys {σ : Type} (env : DagEnv σ) (s : σ) (files : List File) :
    ∀ (i : Nat) (outer outer' : Directory) (keys keys' : Keys) (dag dag' : Dag),
      AddNodeFromFiles.loop env s i files outer keys dag = .ok (outer', keys', dag') →
      (∀ p ∈ keys, ∃ j, j < i ∧ p.1 = keyPath j) →
      keys' = keys ++ (files.enumFrom i).map (fun jf => (keyPath jf.1, jf.2.Key)) := by
  induction files with
  | nil =>
    intro i outer outer' keys keys' dag dag' h _
    simp only [AddNodeFromFiles.loop] at h
    injection h with h
    injection h with _ h
    injection h with h _
    simp [h]
  | cons f rest ih =>
    intro i outer outer' keys keys' dag dag' h hk
    simp only [AddNodeFromFiles.loop, bind, Except.bind] at h
    cases hf : fileNode env s f outer (Itoa i) dag with
    | error err => simp [hf] at h
    | ok v =>
      simp only [hf] at h
      have hfresh : ∀ p ∈ keys, p.1 ≠ keyPath i := by
        intro p hp heq
        obtain ⟨j, hj, hpj⟩ := hk p hp
        have := keyPath_injective j i (by rw [← hpj, heq])
        omega
      have hset : Keys.set keys ("/" ++ Itoa i ++ "/") f.Key = keys ++ [(keyPath i, f.Key)] :=
        Keys.set_fresh keys (keyPath i) f.Key hfresh
      rw [hset] at h
      have := ih (i + 1) _ _ _ _ _ _ h (by
        intro p hp
        rcases List.mem_append.1 hp with hp | hp
        · obtain ⟨j, hj, hpj⟩ := hk p hp
          exact ⟨j, by omega, hpj⟩
        · simp only [List.mem_singleton] at hp
          exact ⟨i, by omega, by rw [hp]⟩)
      rw [this]
      simp [List.enumFrom]

/-- Adding a child under a name no link has appends the link. -/
theorem Directory.AddChild_fresh (d : Directory) (name c : String)
    (h : ∀ l ∈ d.node.Links, l.Name ≠ name) :
    (d.AddChild name c).node.Links = d.node.Links ++ [{ Name := name, Cid := c }] := by
  unfold Directory.AddChild
  simp only [List.append_cancel_right_eq]
  rw [List.filter_eq_self]
  intro l hl
  simpa using h l hl

/-- The pair node of a file looks like a file node, and its `d` link is the
hash of the file. -/
theorem fileNode.pair_links {σ : Type} (env : DagEnv σ) (file : File) (reader : Bytes) :
    looksLikeFileNode (fileNode.pair env file reader) = true ∧
    schema.LinkByName (fileNode.pair env file reader).Links DataLinkName
      = some { Name := DataLinkName, Cid := file.Hash } := by
  have hle : ¬ Link.le { Name := "f", Cid := env.cid { Data := reader, Links := [] } }
      { Name := "d", Cid := file.Hash } := by
    unfold Link.le
    simp only [not_not]
    decide
  have hl : (fileNode.pair env file reader).Links =
      [{ Name := "d", Cid := file.Hash },
       { Name := "f", Cid := env.cid { Data := reader, Links := [] } }] := by
    simp [fileNode.pair, Node.encoded, Directory.GetNode, Directory.AddChild, NewDirectory,
      FileLinkName, DataLinkName, List.filter, List.insertionSort, List.orderedInsert, hle]
  constructor
  · simp [looksLikeFileNode, hl, schema.LinkByName, FileLinkName, DataLinkName, List.find?]
  · simp [hl, schema.LinkByName, DataLinkName, List.find?]

/-- The links `AddNodeFromFiles` adds for the files from index `i` on. -/
theorem AddNodeFromFiles.loop_links {σ : Type} (env : DagEnv σ) (s : σ) (files : List File) :
    ∀ (i : Nat) (outer outer' : Directory) (keys keys' : Keys) (dag dag' : Dag),
      AddNodeFromFiles.loop env s i files outer keys dag = .ok (outer', keys', dag') →
      (∀ l ∈ outer.node.Links, ∃ j, j < i ∧ l.Name = Itoa j) →
      ∃ new, outer'.node.Links = outer.node.Links ++ new ∧ new.length = files.length ∧
        ∀ (k : Nat) (hk : k < files.length), ∃ reader,
          fileNode.reader env files[k] = .ok reader ∧
          new[k]? = some { Name := Itoa (i + k),
                           Cid := env.cid (fileNode.pair env files[k] reader) } := by
  induction files with
  | nil =>
    intro i outer outer' keys keys' dag dag' h _
    simp only [AddNodeFromFiles.loop] at h
    injection h with h
    injection h with h _
    subst h
    exact ⟨[], by simp, rfl, fun k hk => absurd hk (by simp)⟩
  | cons f rest ih =>
    intro i outer outer' keys keys' dag dag' h hl
    simp only [AddNodeFromFiles.loop, bind, Except.bind] at h
    cases hf : fileNode env s f outer (Itoa i) dag with
    | error err => simp [hf] at h
    | ok v =>
      simp only [hf] at h
      obtain ⟨d1, dag1⟩ := v
      obtain ⟨reader, hreader, hd1⟩ := fileNode_ok env s f outer d1 (Itoa i) dag dag1 hf
      have hfresh : ∀ l ∈ outer.node.Links, l.Name ≠ Itoa i := by
        intro l hlm heq
        obtain ⟨j, hj, hlj⟩ := hl l hlm
        have := Itoa_injective j i (by rw [← hlj, heq])
        omega
      have hlinks := Directory.AddChild_fresh outer (Itoa i)
        (env.cid (fileNode.pair env f reader)) hfresh
      rw [← hd1] at hlinks
      obtain ⟨new, hnew, hlen, hget⟩ := ih (i + 1) d1 outer' _ keys' dag1 dag' h (by
        intro l hlm
        rw [hlinks] at hlm
        rcases List.mem_append.1 hlm with hlm | hlm
        · obtain ⟨j, hj, hlj⟩ := hl l hlm
          exact ⟨j, by omega, hlj⟩
        · simp only [List.mem_singleton] at hlm
          exact ⟨i, by omega, by rw [hlm]⟩)
      refine ⟨{ Name := Itoa i, Cid := env.cid (fileNode.pair env f reader) } :: new, ?_, ?_, ?_⟩
      · rw [hnew, hlinks]
        simp
      · simp [hlen]
      · intro k hk
        cases k with
        | zero => exact ⟨reader, hreader, by simp⟩
        | succ k =>
          obtain ⟨r, hr, hg⟩ := hget k (by simpa using hk)
          refine ⟨r, by simpa using hr, ?_⟩
          have : i + 1 + k = i + (k + 1) := by omega
          rw [this] at hg
          simpa using hg

/-- Looking up the path of the `k`-th of the listed files. -/
theorem Keys.get_entries (files : List File) :
    ∀ (i k : Nat) (hk : k < files.length),
      Keys.get ((files.enumFrom i).map (fun jf => (keyPath jf.1, jf.2.Key))) (keyPath (i + k))
        = some files[k].Key := by
  induction files with
  | nil => intro i k hk; exact absurd hk (by simp)
  | cons f rest ih =>
    intro i k hk
    cases k with
    | zero => simp [Keys.get, List.enumFrom, List.find?]
    | succ k =>
      have hne : ¬ keyPath i = keyPath (i + (k + 1)) := by
        intro h
        have := keyPath_injective _ _ h
        omega
      have := ih (i + 1) k (by simpa using hk)
      have e : i + 1 + k = i + (k + 1) := by omega
      rw [e] at this
      have hb : (keyPath i == keyPath (i + (k + 1))) = false := by simpa using hne
      unfold Keys.get at this ⊢
      simp only [List.enumFrom, List.map_cons, List.find?_cons, hb]
      simpa using this

/-- C10: when `AddNodeFromFiles` succeeds, the returned `Keys` holds exactly one
entry per file, `"/i/"` mapped to `files[i].Key` for every index `i`, and the
returned node has one link per file, the `i`-th file being linked under the
name `Itoa i`: that link addresses the pair node of the file, whose `d` link is
the hash of the file. -/
theorem AddNodeFromFiles_keys {σ : Type} (env : DagEnv σ) (s : σ) (files : List File)
    (dag dag' : Dag) (node : Node) (keys : Keys)
    (h : AddNodeFromFiles env s files dag = .ok (node, keys, dag')) :
    keys = files.enum.map (fun jf => ("/" ++ Itoa jf.1 ++ "/", jf.2.Key)) ∧
    keys.length = files.length ∧
    (∀ (i : Nat) (hi : i < files.length),
      Keys.get keys ("/" ++ Itoa i ++ "/") = some files[i].Key) ∧
    node.Links.length = files.length ∧
    (∀ (i : Nat) (hi : i < files.length), ∃ reader,
      fileNode.reader env files[i] = .ok reader ∧
      { Name := Itoa i, Cid := env.cid (fileNode.pair env files[i] reader) } ∈ node.Links ∧
      looksLikeFileNode (fileNode.pair env files[i] reader) = true ∧
      schema.LinkByName (fileNode.pair env files[i] reader).Links DataLinkName
        = some { Name := DataLinkName, Cid := files[i].Hash }) := by
  unfold AddNodeFromFiles at h
  simp only [bind, Except.bind, pure, Except.pure] at h
  cases hloop : AddNodeFromFiles.loop env s 0 files NewDirectory [] dag with
  | error err => simp [hloop] at h
  | ok v =>
    obtain ⟨outer, keys1, dag1⟩ := v
    simp only [hloop] at h
    cases hpin : ipfs.PinNode env dag1 outer.GetNode false with
    | error err => simp [hpin] at h
    | ok v =>
      simp only [hpin] at h
      have hnode := ipfs.PinNode_ok _ _ _ _ _ hpin
      injection h with h
      injection h with h1 h2
      injection h2 with h2 _
      subst h2
      rw [← h1, hnode]
      have hkeys := AddNodeFromFiles.loop_keys env s files 0 _ _ _ _ _ _ hloop
        (by intro p hp; cases hp)
      simp only [List.nil_append] at hkeys
      obtain ⟨new, hnew, hlen, hget⟩ := AddNodeFromFiles.loop_links env s files 0 _ _ _ _ _ _ hloop
        (by intro l hl; simp [NewDirectory] at hl)
      have hnew' : outer.node.Links = new := by
        rw [hnew]
        simp [NewDirectory]
      have hkeys' : keys1 = files.enum.map (fun jf => ("/" ++ Itoa jf.1 ++ "/", jf.2.Key)) := by
        rw [hkeys]
        rfl
      refine ⟨hkeys', ?_, ?_, ?_, ?_⟩
      · rw [hkeys']
        simp
      · intro i hi
        have := Keys.get_entries files 0 i hi
        rw [Nat.zero_add] at this
        rw [hkeys]
        exact this
      · simp [Node.encoded, Directory.GetNode, hnew', hlen]
      · intro i hi
        obtain ⟨reader, hr, hg⟩ := hget i hi
        rw [Nat.zero_add] at hg
        refine ⟨reader, hr, ?_, fileNode.pair_links env files[i] reader⟩
        have hmem : { Name := Itoa i, Cid := env.cid (fileNode.pair env files[i] reader) }
            ∈ new := by
          rw [List.getElem?_eq_some] at hg
          obtain ⟨hlt, hg⟩ := hg
          rw [← hg]
          exact List.getElem_mem _
        simp only [Node.encoded, Directory.GetNode, hnew']
        exact (List.perm_insertionSort Link.le new).mem_iff.2 hmem

/-- The witness of C10: the first two test files. -/
theorem AddNodeFromFiles_keys_witness :
    AddNodeFromFiles testDagEnv (testFiles 2) (testFiles 2) (testDag 2) = .ok testResult2 ∧
    testResult2.2.1 = (testFiles 2).enum.map (fun jf => ("/" ++ Itoa jf.1 ++ "/", jf.2.Key)) ∧
    testResult2.2.1.length = (testFiles 2).length ∧
    testResult2.1.Links.length = (testFiles 2).length :=
  have h : AddNodeFromFiles testDagEnv (testFiles 2) (testFiles 2) (testDag 2)
      = .ok (testResult2.1, testResult2.2.1, testResult2.2.2) := by rfl
  have c := AddNodeFromFiles_keys testDagEnv (testFiles 2) (testFiles 2) (testDag 2)
    testResult2.2.2 testResult2.1 testResult2.2.1 h
  ⟨h, c.1, c.2.1, c.2.2.2.1⟩

/-- Ten files make the round trip: `TargetNodeKeys` returns the keys
`AddNodeFromFiles` returned. -/
theorem roundTrip_ten :
    (roundTrip testDagEnv (testFiles 10) (testFiles 10) (testDag 10)).map
      (fun p => decide (p.1 = p.2)) = some true := by
  decide!

/-- C9 fails at eleven files. The encoded outer node lists its links by name,
`"0", "1", "10", "2", ...`, and `TargetNodeKeys` keys each child by its
position in that list: the key of `files[10]` comes back under `"/2/"` and the
key of `files[2]` under `"/3/"`, so the keys returned differ from those
`AddNodeFromFiles` returned, although both calls succeed and every file is in
the file table. -/
theorem roundTrip_eleven :
    ((testFiles 11).all fun f =>
      ((FileDB FileDB.primary).Get (testFiles 11) f.Hash == some f)) = true ∧
    (roundTrip testDagEnv (testFiles 11) (testFiles 11) (testDag 11)).map
      (fun p => (Keys.get p.1 "/2/", Keys.get p.2 "/2/", Keys.get p.1 "/10/",
        Keys.get p.2 "/10/")) = some (some "", some "Ldp", some "Ldp", some "") ∧
    (roundTrip testDagEnv (testFiles 11) (testFiles 11) (testDag 11)).map
      (fun p => decide (p.1 = p.2)) = some false := by
  decide!

/-! ### `looksLikeFileNode`, `fileNode` and block types -/

/-- C11: `looksLikeFileNode node` is true if and only if the node has exactly
two links, one named `f` and the other named `d`; it is false for two links of
the same name and for any node with fewer or more than two links. -/
theorem looksLikeFileNode_iff (node : Node) :
    (looksLikeFileNode node = true ↔
      ∃ a b : Link, node.Links = [a, b] ∧
        ((a.Name = "f" ∧ b.Name = "d") ∨ (a.Name = "d" ∧ b.Name = "f"))) ∧
    (∀ a b : Link, node.Links = [a, b] → a.Name = b.Name → looksLikeFileNode node = false) ∧
    (node.Links.length ≠ 2 → looksLikeFileNode node = false) := by
  have hfd : ("f" : String) ≠ "d" := by decide
  have main : looksLikeFileNode node = true ↔
      ∃ a b : Link, node.Links = [a, b] ∧
        ((a.Name = "f" ∧ b.Name = "d") ∨ (a.Name = "d" ∧ b.Name = "f")) := by
    have h0 : looksLikeFileNode node = true ↔
        node.Links.length = 2 ∧ (∃ x ∈ node.Links, x.Name = "f") ∧
          ∃ x ∈ node.Links, x.Name = "d" := by
      simp [looksLikeFileNode, schema.LinkByName, FileLinkName, DataLinkName]
    rw [h0]
    constructor
    · rintro ⟨hlen, ⟨x, hx, hxf⟩, ⟨y, hy, hyd⟩⟩
      rcases hl : node.Links with _ | ⟨a, _ | ⟨b, _ | ⟨c, rest⟩⟩⟩
      · rw [hl] at hlen; simp at hlen
      · rw [hl] at hlen; simp at hlen
      · refine ⟨a, b, rfl, ?_⟩
        rw [hl] at hx hy
        simp only [List.mem_cons, List.mem_singleton, List.mem_nil_iff, or_false] at hx hy
        rcases hx with rfl | rfl <;> rcases hy with rfl | rfl
        · exact absurd (hxf.symm.trans hyd) hfd
        · exact Or.inl ⟨hxf, hyd⟩
        · exact Or.inr ⟨hyd, hxf⟩
        · exact absurd (hxf.symm.trans hyd) hfd
      · rw [hl] at hlen; simp at hlen
    · rintro ⟨a, b, hl, h⟩
      rw [hl]
      rcases h with ⟨h1, h2⟩ | ⟨h1, h2⟩
      · exact ⟨rfl, ⟨a, by simp, h1⟩, ⟨b, by simp, h2⟩⟩
      · exact ⟨rfl, ⟨b, by simp, h2⟩, ⟨a, by simp, h1⟩⟩
  refine ⟨main, ?_, ?_⟩
  · intro a b hl hab
    cases hlk : looksLikeFileNode node with
    | false => rfl
    | true =>
      obtain ⟨a', b', hl', h⟩ := main.1 hlk
      rw [hl] at hl'
      simp only [List.cons.injEq, and_true] at hl'
      obtain ⟨rfl, rfl⟩ := hl'
      rcases h with ⟨h1, h2⟩ | ⟨h1, h2⟩
      · exact absurd (h1.symm.trans (hab.trans h2)) hfd
      · exact absurd (h2.symm.trans (hab.symm.trans h1)) hfd
  · intro hlen
    cases hlk : looksLikeFileNode node with
    | false => rfl
    | true =>
      obtain ⟨a', b', hl', -⟩ := main.1 hlk
      rw [hl'] at hlen
      simp at hlen

/-- C19 fails at `FlagBlock`: `BlockType.Description` gives `"IGNORE"` for it,
not `"FLAG"`, so the distinct types `FlagBlock` and `IgnoreBlock` share one
description. -/
theorem BlockType.Description_flag :
    BlockType.Description FlagBlock = "IGNORE" ∧
    BlockType.Description FlagBlock ≠ "FLAG" ∧
    FlagBlock ≠ IgnoreBlock ∧
    BlockType.Description FlagBlock = BlockType.Description IgnoreBlock := by
  decide

/-- The bytes `fileNode.reader` yields: the marshalled record without targets,
in plain when the key is empty, encrypted under the decoded key otherwise. -/
theorem fileNode.reader_ok {σ : Type} (env : DagEnv σ) (file : File) (reader : Bytes)
    (h : fileNode.reader env file = .ok reader) :
    ∃ plaintext, env.Marshal { file with Targets := [] } = .ok plaintext ∧
      (file.Key = "" → reader = plaintext) ∧
      (file.Key ≠ "" → ∃ key, Base58.Decode file.Key = .ok key ∧
        env.EncryptAES plaintext key = .ok reader) := by
  unfold fileNode.reader at h
  simp only [bind, Except.bind, pure, Except.pure] at h
  cases hm : env.Marshal { file with Targets := [] } with
  | error err => simp [hm] at h
  | ok plaintext =>
    simp only [hm] at h
    refine ⟨plaintext, rfl, ?_, ?_⟩
    · intro hk
      simp only [hk, ne_eq, not_true_eq_false, if_false] at h
      injection h with h
      exact h.symm
    · intro hk
      simp only [ne_eq, hk, not_false_eq_true, if_true] at h
      cases hd : Base58.Decode file.Key with
      | error err => simp [hd] at h
      | ok key =>
        simp only [hd] at h
        refine ⟨key, rfl, ?_⟩
        cases he : env.EncryptAES plaintext key with
        | error err => simp [he] at h
        | ok ct =>
          simp only [he] at h
          injection h with h
          rw [h]

/-- A node added to the DAG can be fetched under its cid. -/
theorem Dag.Get_Add_self (dag : Dag) (c : String) (n : Node) :
    ∃ m, (dag.Add c n).Get c = .ok m := by
  unfold Dag.Add
  by_cases h : dag.nodes.any (fun p => p.1 == c) = true
  · rw [if_pos h]
    unfold Dag.Get
    cases hf : dag.nodes.find? (fun p => p.1 == c) with
    | some p => exact ⟨p.2, rfl⟩
    | none =>
      rw [List.find?_eq_none] at hf
      rw [List.any_eq_true] at h
      obtain ⟨x, hx, hxc⟩ := h
      exact absurd hxc (hf x hx)
  · rw [if_neg h]
    unfold Dag.Get
    have hnone : dag.nodes.find? (fun p => p.1 == c) = none := by
      rw [List.find?_eq_none]
      intro x hx hxc
      exact h (List.any_eq_true.mpr ⟨x, hx, hxc⟩)
    exact ⟨n, by simp [List.find?_append, hnone]⟩

/-- Adding a node keeps what could be fetched before. -/
theorem Dag.Get_Add_of_ok (dag : Dag) (c : String) (n : Node) (c' : String) (m : Node)
    (h : dag.Get c' = .ok m) : (dag.Add c n).Get c' = .ok m := by
  unfold Dag.Add
  split
  · exact h
  · unfold Dag.Get at h ⊢
    cases hf : dag.nodes.find? (fun p => p.1 == c') with
    | none => simp [hf] at h
    | some p =>
      rw [hf] at h
      have hm : p.2 = m := by simpa using h
      simp [List.find?_append, hf, hm]

/-- Adding a node leaves the pins alone. -/
theorem Dag.Add_pins (dag : Dag) (c : String) (n : Node) : (dag.Add c n).pins = dag.pins := by
  unfold Dag.Add
  split <;> rfl

/-- The links of the pair node: `d` before `f`. -/
theorem fileNode.pair_eq {σ : Type} (env : DagEnv σ) (file : File) (reader : Bytes) :
    fileNode.pair env file reader =
      { Data := NewDirectory.node.Data,
        Links := [{ Name := "d", Cid := file.Hash },
                  { Name := "f", Cid := env.cid { Data := reader, Links := [] } }] } := by
  have hle : ¬ Link.le { Name := "f", Cid := env.cid { Data := reader, Links := [] } }
      { Name := "d", Cid := file.Hash } := by
    unfold Link.le
    simp only [not_not]
    decide
  simp [fileNode.pair, Node.encoded, Directory.GetNode, Directory.AddChild, NewDirectory,
    FileLinkName, DataLinkName, List.filter, List.insertionSort, List.orderedInsert, hle]

/-- The run of `fileNode` once the file is found and its `f` bytes are made:
it fails only when the data node of the file cannot be fetched; otherwise the
payload is stored as a leaf, the pair node is stored and pinned, not
recursively, and linked into the directory. -/
theorem fileNode_run {σ : Type} (env : DagEnv σ) (s : σ) (file g : File) (dir : Directory)
    (link : String) (dag : Dag) (reader : Bytes) (hfile : env.Files.Get s file.Hash = some g)
    (hr : fileNode.reader env file = .ok reader) :
    fileNode env s file dir link dag =
      match (dag.Add (env.cid { Data := reader, Links := [] })
          { Data := reader, Links := [] }).Get file.Hash with
      | .error err => .error err
      | .ok _ =>
        .ok (dir.AddChild link (env.cid (fileNode.pair env file reader)),
          { (dag.Add (env.cid { Data := reader, Links := [] }) { Data := reader, Links := [] }).Add
              (env.cid (fileNode.pair env file reader)) (fileNode.pair env file reader) with
            pins := dag.pins ++ [(env.cid (fileNode.pair env file reader), false)] }) := by
  obtain ⟨m1, h1⟩ := Dag.Get_Add_self dag (env.cid { Data := reader, Links := [] })
    { Data := reader, Links := [] }
  unfold fileNode ipfs.AddDataToDirectory ipfs.AddData ipfs.AddLinkToDirectory ipfs.PinNode
  simp only [bind, Except.bind, pure, Except.pure, hfile, hr, Option.isNone_some,
    Bool.false_eq_true, if_false, h1]
  cases h2 : (dag.Add (env.cid { Data := reader, Links := [] })
      { Data := reader, Links := [] }).Get file.Hash with
  | error err => rfl
  | ok content =>
    simp only []
    obtain ⟨m3, h3⟩ := Dag.Get_Add_self
      (dag.Add (env.cid { Data := reader, Links := [] }) { Data := reader, Links := [] })
      (env.cid (fileNode.pair env file reader)) (fileNode.pair env file reader)
    have h4 : Dag.Get
        { (dag.Add (env.cid { Data := reader, Links := [] }) { Data := reader, Links := [] }).Add
            (env.cid (fileNode.pair env file reader)) (fileNode.pair env file reader) with
          pins := dag.pins ++ [(env.cid (fileNode.pair env file reader), false)] }
        (env.cid (fileNode.pair env file reader)) = .ok m3 := h3
    have h5 := Dag.Add_pins dag (env.cid { Data := reader, Links := [] })
      { Data := reader, Links := [] }
    have h6 := Dag.Add_pins
      (dag.Add (env.cid { Data := reader, Links := [] }) { Data := reader, Links := [] })
      (env.cid (fileNode.pair env file reader)) (fileNode.pair env file reader)
    simp only [fileNode.pair] at h4 h5 h6 ⊢
    simp only [h5, h6, h4]

/-- C12: the pair node built by `fileNode`. Whenever `fileNode` returns, the
bytes of its `f` payload are the marshalled file record with `Targets`
emptied: that plaintext itself when `file.Key` is empty, its AES encryption
under the base58-decoded `file.Key` otherwise. The payload is stored in the
DAG as a leaf; the pair node, with the two links `d`, pointing at `file.Hash`,
and `f`, pointing at that leaf, is stored in the DAG, pinned (not
recursively), and linked into the directory; nothing else of the DAG changes.
And `fileNode` does return for a file of the store whose payload bytes can be
made and whose data node is in the DAG. -/
theorem fileNode_payload {σ : Type} (env : DagEnv σ) (s : σ) (file : File)
    (dir : Directory) (link : String) (dag : Dag) :
    (∀ dir' dag', fileNode env s file dir link dag = .ok (dir', dag') →
      ∃ plaintext reader,
        env.Marshal { file with Targets := [] } = .ok plaintext ∧
        (file.Key = "" → reader = plaintext) ∧
        (file.Key ≠ "" → ∃ key, Base58.Decode file.Key = .ok key ∧
          env.EncryptAES plaintext key = .ok reader) ∧
        fileNode.pair env file reader =
          { Data := NewDirectory.node.Data,
            Links := [{ Name := "d", Cid := file.Hash },
                      { Name := "f", Cid := env.cid { Data := reader, Links := [] } }] } ∧
        dir' = dir.AddChild link (env.cid (fileNode.pair env file reader)) ∧
        dag' =
          { (dag.Add (env.cid { Data := reader, Links := [] })
                { Data := reader, Links := [] }).Add
              (env.cid (fileNode.pair env file reader)) (fileNode.pair env file reader) with
            pins := dag.pins ++ [(env.cid (fileNode.pair env file reader), false)] }) ∧
    (∀ g reader content, env.Files.Get s file.Hash = some g →
      fileNode.reader env file = .ok reader → dag.Get file.Hash = .ok content →
      fileNode env s file dir link dag =
        .ok (dir.AddChild link (env.cid (fileNode.pair env file reader)),
          { (dag.Add (env.cid { Data := reader, Links := [] })
                { Data := reader, Links := [] }).Add
              (env.cid (fileNode.pair env file reader)) (fileNode.pair env file reader) with
            pins := dag.pins ++ [(env.cid (fileNode.pair env file reader), false)] })) := by
  constructor
  · intro dir' dag' h
    obtain ⟨reader, hr, -⟩ := fileNode_ok env s file dir dir' link dag dag' h
    obtain ⟨plaintext, hm, h1, h2⟩ := fileNode.reader_ok env file reader hr
    refine ⟨plaintext, reader, hm, h1, h2, fileNode.pair_eq env file reader, ?_⟩
    cases hfile : env.Files.Get s file.Hash with
    | none =>
      unfold fileNode at h
      simp [hfile, bind, Except.bind, throw, throwThe, MonadExceptOf.throw] at h
    | some g =>
      rw [fileNode_run env s file g dir link dag reader hfile hr] at h
      cases hg : (dag.Add (env.cid { Data := reader, Links := [] })
          { Data := reader, Links := [] }).Get file.Hash with
      | error err =>
        rw [hg] at h
        cases h
      | ok content =>
        rw [hg] at h
        injection h with h
        obtain ⟨hd, hdag⟩ := Prod.mk.inj h
        exact ⟨hd.symm, hdag.symm⟩
  · intro g reader content hfile hr hdata
    rw [fileNode_run env s file g dir link dag reader hfile hr,
      Dag.Get_Add_of_ok dag _ _ file.Hash content hdata]

/-- The witness of C12: the eleventh test file, which carries a key. -/
theorem fileNode_payload_witness :
    fileNode testDagEnv (testFiles 11) (testFile 10) NewDirectory "x" (testDag 11)
      = .ok testPair ∧
    ∃ plaintext reader,
      testDagEnv.Marshal { testFile 10 with Targets := [] } = .ok plaintext ∧
      ((testFile 10).Key = "" → reader = plaintext) ∧
      ((testFile 10).Key ≠ "" → ∃ key, Base58.Decode (testFile 10).Key = .ok key ∧
        testDagEnv.EncryptAES plaintext key = .ok reader) ∧
      fileNode.pair testDagEnv (testFile 10) reader =
        { Data := NewDirectory.node.Data,
          Links := [{ Name := "d", Cid := (testFile 10).Hash },
                    { Name := "f", Cid := testDagEnv.cid { Data := reader, Links := [] } }] } ∧
      testPair.1 = NewDirectory.AddChild "x"
        (testDagEnv.cid (fileNode.pair testDagEnv (testFile 10) reader)) ∧
      testPair.2 =
        { ((testDag 11).Add (testDagEnv.cid { Data := reader, Links := [] })
              { Data := reader, Links := [] }).Add
            (testDagEnv.cid (fileNode.pair testDagEnv (testFile 10) reader))
            (fileNode.pair testDagEnv (testFile 10) reader) with
          pins := (testDag 11).pins ++
            [(testDagEnv.cid (fileNode.pair testDagEnv (testFile 10) reader), false)] } :=
  have h : fileNode testDagEnv (testFiles 11) (testFile 10) NewDirectory "x" (testDag 11)
      = .ok (testPair.1, testPair.2) := by rfl
  ⟨h, (fileNode_payload testDagEnv (testFiles 11) (testFile 10) NewDirectory "x"
    (testDag 11)).1 testPair.1 testPair.2 h⟩

/-- The pair node of the eleventh test file in the DAG `fileNode` leaves: the
leaf of the payload and the pair node can be fetched, and the pair node is the
one pin. -/
theorem fileNode_payload_example :
    (fileNode.reader testDagEnv (testFile 10)).toOption.map (fun reader =>
      ((testPair.2.Get (testDagEnv.cid { Data := reader, Links := [] })).toOption,
        (testPair.2.Get
          (testDagEnv.cid (fileNode.pair testDagEnv (testFile 10) reader))).toOption,
        testPair.2.pins, testPair.2.nodes.length))
      = (fileNode.reader testDagEnv (testFile 10)).toOption.map (fun reader =>
        (some { Data := reader, Links := [] },
          some (fileNode.pair testDagEnv (testFile 10) reader),
          [(testDagEnv.cid (fileNode.pair testDagEnv (testFile 10) reader), false)], 13)) ∧
    (fileNode.reader testDagEnv (testFile 10)).toOption.isSome = true := by
  decide

/-! ### Contacts -/

/-- Splitting never gives the empty list. -/
theorem strings.splitComma_ne_nil (cs : List Char) : strings.splitComma cs ≠ [] := by
  cases cs with
  | nil => simp [strings.splitComma]
  | cons c cs =>
    unfold strings.splitComma
    split
    · simp
    · split <;> simp

/-- A piece without a comma, followed by a comma, is split off whole. -/
theorem strings.splitComma_append (p rest : List Char) (hp : ',' ∉ p) :
    strings.splitComma (p ++ ',' :: rest) = p :: strings.splitComma rest := by
  induction p with
  | nil => simp [strings.splitComma]
  | cons c p ih =>
    have hc : c ≠ ',' := fun h => hp (by simp [h])
    have hp' : ',' ∉ p := fun h => hp (by simp [h])
    have e : strings.splitComma (c :: (p ++ ',' :: rest))
        = (match strings.splitComma (p ++ ',' :: rest) with
           | [] => [[c]]
           | q :: qs => (c :: q) :: qs) := by
      simp only [strings.splitComma, if_neg hc]
    rw [List.cons_append, e, ih hp']

/-- A piece without a comma is its own single piece. -/
theorem strings.splitComma_single (p : List Char) (hp : ',' ∉ p) :
    strings.splitComma p = [p] := by
  induction p with
  | nil => simp [strings.splitComma]
  | cons c p ih =>
    have hc : c ≠ ',' := fun h => hp (by simp [h])
    have hp' : ',' ∉ p := fun h => hp (by simp [h])
    simp only [strings.splitComma, if_neg hc, ih hp']

/-- Joining with commas, splitting at commas and dropping the empty pieces
gives back a list of non-empty, comma-free strings. -/
theorem strings.Split_Join (l : List String) (h : ∀ p ∈ l, p ≠ "" ∧ ',' ∉ p.data) :
    (strings.Split (strings.Join l ",")).filter (fun p => p != "") = l := by
  induction l with
  | nil => simp [strings.Join, strings.Split, strings.splitComma]
  | cons a l ih =>
    have ha := h a (by simp)
    have hne : (a != "") = true := by simpa using ha.1
    cases l with
    | nil =>
      simp only [strings.Join, strings.Split, strings.splitComma_single a.data ha.2,
        List.map_cons, List.map_nil, List.filter_cons, List.filter_nil]
      rw [show String.mk a.data = a from rfl, hne]
      simp
    | cons b rest =>
      have ih' := ih (fun p hp => h p (by simp [hp]))
      have hd : (strings.Join (a :: b :: rest) ",").data
          = a.data ++ ',' :: (strings.Join (b :: rest) ",").data := by
        simp [strings.Join, String.data_append]
      unfold strings.Split at ih' ⊢
      rw [hd, strings.splitComma_append _ _ ha.2]
      simp only [List.map_cons, List.filter_cons]
      rw [show String.mk a.data = a from rfl, hne]
      simp only [if_true]
      rw [ih']

/-- C13, amended: for every contact table and every contact whose inbox ids are
non-empty and hold no comma, after `AddOrUpdate` succeeds the table holds
exactly one contact of that id; its address, username and inboxes are those
given, its added time is the one stored before when a contact of that id
existed, and the given one cut to the second otherwise; the contacts of every
other id are as before. -/
theorem ContactDB.AddOrUpdate_upsert (c c' : ContactDB) (contact : Contact)
    (hwf : contact.wellFormed)
    (h : ContactDB.AddOrUpdate c contact = .ok c') :
    c'.withId contact.Id =
      [{ Id := contact.Id, Address := contact.Address, Username := contact.Username,
         Inboxes := contact.Inboxes,
         Added := time.Unix ((c.addedOf contact.Id).getD contact.Added.Unix) 0 }] ∧
    c'.others contact.Id = c.others contact.Id := by
  unfold ContactDB.AddOrUpdate at h
  split at h
  · cases h
  · injection h with h
    subst h
    constructor
    · have hf : List.filter (fun r => r.id == contact.Id)
          (List.filter (fun r => r.id != contact.Id) c.rows) = [] := by
        rw [List.filter_filter]
        apply List.filter_eq_nil_iff.2
        intro r _
        cases hr : (r.id == contact.Id) with
        | false => simp [hr]
        | true =>
          have : r.id = contact.Id := by simpa using hr
          simp [this]
      simp only [ContactDB.withId, ContactDB.handleQuery, List.filter_append, hf,
        List.nil_append, List.filter_cons, List.filter_nil, beq_self_eq_true, if_true,
        List.map_cons, List.map_nil, ContactDB.scan, ContactDB.addedOf]
      rw [strings.Split_Join contact.Inboxes hwf]
      cases c.rows.find? (fun r => r.id == contact.Id) <;> rfl
    · simp only [ContactDB.others, ContactDB.handleQuery, List.filter_append, List.filter_filter]
      simp

/-- C13, as stated, fails: a contact with the single inbox id `"a,b"` is stored
without error and read back with the two inboxes `"a"` and `"b"`. -/
theorem ContactDB.AddOrUpdate_comma :
    (ContactDB.AddOrUpdate contacts1 carol).toOption.map (fun db => db.withId "Qm3")
      = some [{ carol with Inboxes := ["a", "b"] }] ∧
    carol.Inboxes = ["a,b"] := by
  decide

/-- The witness of C13: a second upsert of the contact `Qm1`, which keeps the
added time 100 of the first. -/
theorem ContactDB.AddOrUpdate_upsert_witness :
    alice2.wellFormed ∧
    ContactDB.AddOrUpdate contacts1 alice2 = .ok contacts2 ∧
    contacts2.withId "Qm1" = [{ alice2 with Added := { sec := 100, nsec := 0 } }] ∧
    contacts2.others "Qm1" = contacts1.others "Qm1" :=
  have hwf : alice2.wellFormed := by
    intro p hp
    simp only [alice2, List.mem_singleton] at hp
    subst hp
    decide
  have h : ContactDB.AddOrUpdate contacts1 alice2 = .ok contacts2 := by rfl
  ⟨hwf, h, ContactDB.AddOrUpdate_upsert contacts1 contacts2 alice2 hwf h⟩

/-! ### The node: lifecycle, offline guard and invites -/

/-- C14: when `Online` is false, `AcceptThreadInvite`, `RemoveThread` and `Ping`
each return `ErrOffline` and leave the node as it was: the same go-ipfs node,
datastore, thread list and channels, and no call recorded. -/
theorem offline_no_effect {ι δ : Type} (sys : Sys ι δ) (t : Textile ι δ)
    (inviteID : String) (key : Bytes) (id pid : String) (h : t.Online sys = false) :
    Textile.AcceptThreadInvite sys t inviteID key = .returns (.error ErrOffline) t ∧
    Textile.RemoveThread sys t id = .returns (.error ErrOffline) t ∧
    Textile.Ping sys t pid = .returns (.error ErrOffline) t := by
  simp [Textile.AcceptThreadInvite, Textile.RemoveThread, Textile.Ping, h]

/-- The witness of C14: the started node, not yet online. -/
theorem offline_no_effect_witness :
    node1.started = true ∧ node1.Online testSys = false ∧
    Textile.AcceptThreadInvite testSys node1 "inv" [] = .returns (.error ErrOffline) node1 ∧
    Textile.RemoveThread testSys node1 "2" = .returns (.error ErrOffline) node1 ∧
    Textile.Ping testSys node1 "peer" = .returns (.error ErrOffline) node1 :=
  ⟨by decide, by decide, offline_no_effect testSys node1 "inv" [] "2" "peer" (by decide)⟩

/-- C15: `Start` on a node whose `started` flag is true returns `ErrStarted`,
`Stop` on a node whose `started` flag is false returns `ErrStopped`, and in
both cases the node is left exactly as it was. -/
theorem lifecycle_guard {ι δ : Type} (sys : Sys ι δ) (t1 t2 : Textile ι δ)
    (h1 : t1.started = true) (h2 : t2.started = false) :
    Textile.Start sys t1 = .returns (some ErrStarted) t1 ∧
    Textile.Stop sys t2 = .returns (some ErrStopped) t2 := by
  simp [Textile.Start, Textile.Stop, h1, h2]

/-- The witness of C15: `Start` on the started node, `Stop` on the fresh one. -/
theorem lifecycle_guard_witness :
    Textile.Start testSys node1 = .returns (some ErrStarted) node1 ∧
    Textile.Stop testSys node0 = .returns (some ErrStopped) node0 :=
  lifecycle_guard testSys node1 node0 (by decide) (by decide)

/-- C16: for every plaintext that decodes to an INVITE block whose thread secret
derives the id of a loaded thread, `handleThreadInvite` returns no error and
no block hash, and the node is left exactly as it was: the thread list and
the datastore are unchanged, and no call (no `ThreadsAdd`, no `join`) is
recorded. -/
theorem handleThreadInvite_loaded {ι δ : Type} (sys : Sys ι δ) (t : Textile ι δ)
    (plaintext : Bytes) (block : ThreadBlock) (msg : ThreadInvite) (sk : Bytes) (id : String)
    (thrd : core.Thread)
    (hblock : sys.Unmarshal plaintext = .ok block) (htype : block.Type_ = .INVITE)
    (hmsg : sys.UnmarshalAny block.Payload = .ok msg)
    (hsk : sys.UnmarshalPrivateKey msg.Sk = .ok sk)
    (hid : sys.IDFromPrivateKey sk = .ok id)
    (hloaded : t.Thread id = some thrd) :
    Textile.handleThreadInvite sys t plaintext = .returns (.ok none) t := by
  simp [Textile.handleThreadInvite, hblock, htype, hmsg, hsk, hid, hloaded]

/-- The witness of C16: an invite to the thread `2`, which the online node has
loaded. -/
theorem handleThreadInvite_loaded_witness :
    Textile.handleThreadInvite testSys node2 [11, 1] = .returns (.ok none) node2 :=
  handleThreadInvite_loaded testSys node2 [11, 1]
    { Type_ := .INVITE, Author := "author", Payload := [1] } { Sk := [1], Name := "alpha" } [1]
    "2" { Id := "2", Name := "alpha" } rfl rfl rfl rfl (by rfl) (by decide)

@[simp] theorem Textile.call_threads {ι δ : Type} (t : Textile ι δ) (c : NodeCall) :
    (t.call c).threads = t.threads := rfl

@[simp] theorem Textile.call_datastore {ι δ : Type} (t : Textile ι δ) (c : NodeCall) :
    (t.call c).datastore = t.datastore := rfl

@[simp] theorem Textile.call_ipfs {ι δ : Type} (t : Textile ι δ) (c : NodeCall) :
    (t.call c).ipfs = t.ipfs := rfl

@[simp] theorem Textile.call_log_eq {ι δ : Type} (t : Textile ι δ) (c : NodeCall) :
    (t.call c).log = t.log ++ [c] := rfl

/-- A block that parses but is not an INVITE is refused, with the node as it
was. -/
theorem Textile.handleThreadInvite_type {ι δ : Type} (sys : Sys ι δ) (t : Textile ι δ)
    (plaintext : Bytes) (block : ThreadBlock) (hblock : sys.Unmarshal plaintext = .ok block)
    (htype : block.Type_ ≠ .INVITE) :
    Textile.handleThreadInvite sys t plaintext = .returns (.error ErrInvalidThreadBlock) t := by
  simp [Textile.handleThreadInvite, hblock, htype]

/-- C17: for an online node that fetches the invite, `AcceptThreadInvite`
returns `ErrInvalidThreadBlock`, with the thread list and the datastore as
before, whenever decryption fails (with the private key of the node when the
key is empty, with the given AES key otherwise) or the decrypted block parses
but its type is not INVITE. -/
theorem AcceptThreadInvite_invalid {ι δ : Type} (sys : Sys ι δ) (t : Textile ι δ)
    (inviteID : String) (key : Bytes) (nd : ι) (ciphertext : Bytes)
    (honline : t.Online sys = true) (hipfs : t.ipfs = some nd)
    (hfetch : sys.DataAtPath nd inviteID = .ok ciphertext)
    (hbad :
      (key.length = 0 ∧
        ((∃ e, sys.Decrypt (sys.PrivateKey (sys.UnpinPath nd inviteID).2) ciphertext
            = .error e) ∨
         (∃ plaintext block,
            sys.Decrypt (sys.PrivateKey (sys.UnpinPath nd inviteID).2) ciphertext
              = .ok plaintext ∧
            sys.Unmarshal plaintext = .ok block ∧ block.Type_ ≠ .INVITE))) ∨
      (key.length ≠ 0 ∧
        ((∃ e, sys.DecryptAES ciphertext key = .error e) ∨
         (∃ plaintext block, sys.DecryptAES ciphertext key = .ok plaintext ∧
            sys.Unmarshal plaintext = .ok block ∧ block.Type_ ≠ .INVITE)))) :
    (Textile.AcceptThreadInvite sys t inviteID key).value
      = some (.error ErrInvalidThreadBlock) ∧
    (Textile.AcceptThreadInvite sys t inviteID key).state.threads = t.threads ∧
    (Textile.AcceptThreadInvite sys t inviteID key).state.datastore = t.datastore := by
  unfold Textile.AcceptThreadInvite
  simp only [honline, Bool.not_true, Bool.false_eq_true, if_false, hipfs, hfetch]
  rcases hbad with ⟨hk, h⟩ | ⟨hk, h⟩
  · simp only [hk, if_true]
    rcases h with ⟨e, he⟩ | ⟨plaintext, block, hp, hb, ht⟩
    · simp [he, Run.value, Run.state]
    · simp only [hp]
      rw [Textile.handleThreadInvite_type sys _ plaintext block hb ht]
      simp [Run.value, Run.state]
  · simp only [hk, if_false]
    rcases h with ⟨e, he⟩ | ⟨plaintext, block, hp, hb, ht⟩
    · simp [he, Run.value, Run.state]
    · simp only [hp]
      rw [Textile.handleThreadInvite_type sys _ plaintext block hb ht]
      simp [Run.value, Run.state]

/-- The witness of C17: the invite `txt` holds a TEXT block sealed for the
node. -/
theorem AcceptThreadInvite_invalid_witness :
    (Textile.AcceptThreadInvite testSys node2 "txt" []).value
      = some (.error ErrInvalidThreadBlock) ∧
    (Textile.AcceptThreadInvite testSys node2 "txt" []).state.threads = node2.threads ∧
    (Textile.AcceptThreadInvite testSys node2 "txt" []).state.datastore = node2.datastore :=
  AcceptThreadInvite_invalid testSys node2 "txt" []
    { online := true, blobs := [("inv", [7, 11, 1]), ("new", [9, 11, 5]), ("txt", [7, 8, 1])],
      pins := ["inv", "new", "txt"] } [7, 8, 1] (by decide) (by rfl) (by rfl)
    (Or.inl ⟨rfl, Or.inr ⟨[8, 1], { Type_ := .TEXT, Author := "author", Payload := [1] },
      by rfl, by rfl, by decide⟩⟩)

@[simp] theorem Textile.put_log {ι δ : Type} (t : Textile ι δ) (w : δ × Option ι) :
    (t.put w).log = t.log := rfl

/-- The relation `noUnpin` is reflexive. -/
theorem Textile.noUnpin_refl {ι δ : Type} (t : Textile ι δ) : t.noUnpin t :=
  ⟨fun _ h => h, fun _ h => h⟩

/-- The relation `noUnpin` is transitive. -/
theorem Textile.noUnpin_trans {ι δ : Type} {a b c : Textile ι δ} (h1 : a.noUnpin b)
    (h2 : b.noUnpin c) : a.noUnpin c :=
  ⟨fun x hx => h2.1 x (h1.1 x hx), fun p hp => h1.2 p (h2.2 p hp)⟩

/-- A state with the same log. -/
theorem Textile.noUnpin_of_log {ι δ : Type} {a b : Textile ι δ} (h : b.log = a.log) :
    a.noUnpin b := by
  unfold Textile.noUnpin
  rw [h]
  exact ⟨fun _ h => h, fun _ h => h⟩

/-- Recording a call that is not an unpin. -/
theorem Textile.noUnpin_call {ι δ : Type} (t : Textile ι δ) (c : NodeCall)
    (hc : c.isUnpin = false) : t.noUnpin (t.call c) := by
  refine ⟨fun x hx => by simp [hx], fun p hp => ?_⟩
  simp only [Textile.call_log_eq, List.mem_append, List.mem_singleton] at hp
  rcases hp with hp | hp
  · exact hp
  · rw [← hp] at hc
    simp [NodeCall.isUnpin] at hc

/-- `sendUpdate` records no call. -/
theorem Textile.sendUpdate_noUnpin {ι δ : Type} (t : Textile ι δ) (u : Update) :
    t.noUnpin (t.sendUpdate u).state := by
  apply Textile.noUnpin_of_log
  unfold Textile.sendUpdate
  split <;> rfl

/-- `loadThread` unpins nothing. -/
theorem Textile.loadThread_noUnpin {ι δ : Type} (sys : Sys ι δ) (t : Textile ι δ)
    (mod : repo.Thread) : t.noUnpin (Textile.loadThread sys t mod).2 := by
  unfold Textile.loadThread
  cases t.Thread mod.Id with
  | some _ => exact Textile.noUnpin_refl t
  | none =>
    cases sys.NewThread mod with
    | error err => exact Textile.noUnpin_call t (.NewThread mod.Id) rfl
    | ok thrd =>
      exact Textile.noUnpin_trans (Textile.noUnpin_call t (.NewThread mod.Id) rfl)
        (Textile.noUnpin_of_log rfl)

/-- `AddThread` unpins nothing. -/
theorem Textile.AddThread_noUnpin {ι δ : Type} (sys : Sys ι δ) (t : Textile ι δ)
    (name : String) (sk : Bytes) (join : Bool) :
    t.noUnpin (Textile.AddThread sys t name sk join).state := by
  unfold Textile.AddThread
  cases sys.IDFromPrivateKey sk with
  | error err => exact Textile.noUnpin_refl t
  | ok id =>
    cases sys.PrivKeyBytes sk with
    | error err => exact Textile.noUnpin_refl t
    | ok skb =>
      have h0 := Textile.noUnpin_call t (.ThreadsAdd id) rfl
      simp only [Textile.call_datastore]
      cases sys.ThreadsAdd t.datastore { Id := id, Name := name, PrivKey := skb } with
      | error err => exact h0
      | ok ds =>
        have h1 : t.noUnpin ({ t.call (.ThreadsAdd id) with datastore := ds }) :=
          Textile.noUnpin_trans h0 (Textile.noUnpin_of_log rfl)
        have h2 := Textile.loadThread_noUnpin sys
          ({ t.call (.ThreadsAdd id) with datastore := ds })
          { Id := id, Name := name, PrivKey := skb }
        simp only []
        rcases hl : Textile.loadThread sys ({ t.call (.ThreadsAdd id) with datastore := ds })
          { Id := id, Name := name, PrivKey := skb } with ⟨r, t2⟩
        rw [hl] at h2
        have h12 := Textile.noUnpin_trans h1 h2
        cases r with
        | error err => exact h12
        | ok thrd =>
          simp only []
          have hsend : ∀ t3 : Textile ι δ, t2.noUnpin t3 → t.noUnpin
              (match t3.sendUpdate { Id := thrd.Id, Name := thrd.Name, Type_ := .ThreadAdded } with
                | .returns _ t => (Run.returns (.ok thrd) t : Run (Except Error core.Thread) _)
                | .blocks t => .blocks t
                | .panics t => .panics t).state := by
            intro t3 h23
            have h3 := Textile.sendUpdate_noUnpin t3
              { Id := thrd.Id, Name := thrd.Name, Type_ := .ThreadAdded }
            cases hs : t3.sendUpdate { Id := thrd.Id, Name := thrd.Name, Type_ := .ThreadAdded }
              <;> rw [hs] at h3 <;> exact Textile.noUnpin_trans h12 (Textile.noUnpin_trans h23 h3)
          cases join with
          | false => exact hsend t2 (Textile.noUnpin_refl t2)
          | true =>
            simp only [if_true, Textile.call_datastore, Textile.call_ipfs]
            have hc := Textile.noUnpin_call t2 (.joinInitial thrd.Id) rfl
            rcases hj : sys.joinInitial thrd (t2.datastore, t2.ipfs) with ⟨r, w⟩
            cases r with
            | error err =>
              exact Textile.noUnpin_trans h12
                (Textile.noUnpin_trans hc (Textile.noUnpin_of_log rfl))
            | ok _ =>
              exact hsend _ (Textile.noUnpin_trans hc (Textile.noUnpin_of_log rfl))

/-- `handleThreadInvite` unpins nothing. -/
theorem Textile.handleThreadInvite_noUnpin {ι δ : Type} (sys : Sys ι δ) (t : Textile ι δ)
    (plaintext : Bytes) : t.noUnpin (Textile.handleThreadInvite sys t plaintext).state := by
  unfold Textile.handleThreadInvite
  cases sys.Unmarshal plaintext with
  | error err => exact Textile.noUnpin_refl t
  | ok block =>
    simp only []
    by_cases hty : block.Type_ ≠ .INVITE
    · rw [if_pos hty]
      exact Textile.noUnpin_refl t
    rw [if_neg hty]
    cases sys.UnmarshalAny block.Payload with
    | error err => exact Textile.noUnpin_refl t
    | ok msg =>
      simp only []
      cases sys.UnmarshalPrivateKey msg.Sk with
      | error err => exact Textile.noUnpin_refl t
      | ok sk =>
        simp only []
        cases sys.IDFromPrivateKey sk with
        | error err => exact Textile.noUnpin_refl t
        | ok id =>
          simp only []
          cases t.Thread id with
          | some _ => exact Textile.noUnpin_refl t
          | none =>
            have ha := Textile.AddThread_noUnpin sys t msg.Name sk false
            simp only []
            cases hadd : Textile.AddThread sys t msg.Name sk false with
            | blocks t1 => rw [hadd] at ha; exact ha
            | panics t1 => rw [hadd] at ha; exact ha
            | returns r t1 =>
              rw [hadd] at ha
              cases r with
              | error err => exact ha
              | ok thrd =>
                simp only [Textile.call_datastore, Textile.call_ipfs]
                have h1 := Textile.noUnpin_trans ha
                  (Textile.noUnpin_call t1 (.handleInviteMessage thrd.Id) rfl)
                rcases sys.handleInviteMessage thrd block (t1.datastore, t1.ipfs) with ⟨e, w⟩
                cases e with
                | some err => exact Textile.noUnpin_trans h1 (Textile.noUnpin_of_log rfl)
                | none =>
                  simp only []
                  have h2 := Textile.noUnpin_trans h1
                    (Textile.noUnpin_trans
                      (Textile.noUnpin_of_log (b := (t1.call (.handleInviteMessage thrd.Id)).put w)
                        rfl)
                      (Textile.noUnpin_call _ (.WelcomeByThread thrd.Id) rfl))
                  cases sys.WelcomeByThread
                    ((t1.call (.handleInviteMessage thrd.Id)).put w).datastore thrd.Id with
                  | error err => exact h2
                  | ok ds =>
                    simp only []
                    cases sys.IDB58Decode block.Author with
                    | error err => exact Textile.noUnpin_trans h2 (Textile.noUnpin_of_log rfl)
                    | ok author =>
                      simp only []
                      have h3 : t.noUnpin
                          (({ ((t1.call (.handleInviteMessage thrd.Id)).put w).call
                              (.WelcomeByThread thrd.Id) with datastore := ds }).call
                            (.join thrd.Id)) :=
                        Textile.noUnpin_trans h2
                          (Textile.noUnpin_trans (Textile.noUnpin_of_log rfl)
                            (Textile.noUnpin_call _ (.join thrd.Id) rfl))
                      rcases sys.join thrd author
                        (ds, ((t1.call (.handleInviteMessage thrd.Id)).put w).ipfs) with ⟨r, w2⟩
                      cases r with
                      | error err => exact Textile.noUnpin_trans h3 (Textile.noUnpin_of_log rfl)
                      | ok hash => exact Textile.noUnpin_trans h3 (Textile.noUnpin_of_log rfl)

/-! ### What an accepted invite leaves alone -/

theorem Textile.sendUpdate_world {ι δ : Type} (t : Textile ι δ) (u : Update) :
    (t.sendUpdate u).state.world = t.world := by
  unfold Textile.sendUpdate
  split <;> rfl

theorem Textile.loadThread_world {ι δ : Type} (sys : Sys ι δ) (t : Textile ι δ)
    (mod : repo.Thread) : (Textile.loadThread sys t mod).2.world = t.world := by
  unfold Textile.loadThread
  cases t.Thread mod.Id with
  | some _ => rfl
  | none =>
    cases sys.NewThread mod with
    | error err => rfl
    | ok thrd => rfl

/-- `AddThread` changes the datastore and the go-ipfs node only through its
collaborators. -/
theorem Textile.AddThread_frame {ι δ : Type} (sys : Sys ι δ)
    (R : δ × Option ι → δ × Option ι → Prop) (hrefl : ∀ w, R w w)
    (htrans : ∀ a b c, R a b → R b c → R a c) (hframe : sys.Frame R) (t : Textile ι δ)
    (name : String) (sk : Bytes) (join : Bool) :
    R t.world (Textile.AddThread sys t name sk join).state.world := by
  unfold Textile.AddThread
  cases sys.IDFromPrivateKey sk with
  | error err => exact hrefl _
  | ok id =>
    cases sys.PrivKeyBytes sk with
    | error err => exact hrefl _
    | ok skb =>
      simp only [Textile.call_datastore]
      cases hadd : sys.ThreadsAdd t.datastore { Id := id, Name := name, PrivKey := skb } with
      | error err => exact hrefl _
      | ok ds =>
        have h1 : R t.world (ds, t.ipfs) := hframe.ThreadsAdd _ _ _ _ hadd
        have h2 := Textile.loadThread_world sys
          ({ t.call (.ThreadsAdd id) with datastore := ds })
          { Id := id, Name := name, PrivKey := skb }
        simp only []
        rcases hl : Textile.loadThread sys ({ t.call (.ThreadsAdd id) with datastore := ds })
          { Id := id, Name := name, PrivKey := skb } with ⟨r, t2⟩
        rw [hl] at h2
        have h12 : R t.world t2.world := by
          have e : t2.world = (ds, t.ipfs) := h2
          rw [e]
          exact h1
        cases r with
        | error err => exact h12
        | ok thrd =>
          simp only []
          have hsend : ∀ t3 : Textile ι δ,
              (match t3.sendUpdate { Id := thrd.Id, Name := thrd.Name, Type_ := .ThreadAdded } with
                | .returns _ t => (Run.returns (.ok thrd) t : Run (Except Error core.Thread) _)
                | .blocks t => .blocks t
                | .panics t => .panics t).state.world = t3.world := by
            intro t3
            have h3 := Textile.sendUpdate_world t3
              { Id := thrd.Id, Name := thrd.Name, Type_ := .ThreadAdded }
            cases hs : t3.sendUpdate { Id := thrd.Id, Name := thrd.Name, Type_ := .ThreadAdded }
              <;> rw [hs] at h3 <;> exact h3
          have hP : ∀ (w : δ × Option ι) (t3 : Textile ι δ), w = t3.world →
              R t2.world t3.world → R t.world w := by
            intro w t3 hw h23
            rw [hw]
            exact htrans _ _ _ h12 h23
          cases join with
          | false => exact hP _ t2 (hsend t2) (hrefl _)
          | true =>
            simp only [if_true, Textile.call_datastore, Textile.call_ipfs]
            have hj := hframe.joinInitial thrd (t2.datastore, t2.ipfs)
            rcases hjr : sys.joinInitial thrd (t2.datastore, t2.ipfs) with ⟨r, w⟩
            rw [hjr] at hj
            cases r with
            | error err => exact htrans _ _ _ h12 hj
            | ok _ =>
              exact hP _ ((t2.call (.joinInitial thrd.Id)).put w) (hsend _) hj

/-- `handleThreadInvite` changes the datastore and the go-ipfs node only
through its collaborators. -/
theorem Textile.handleThreadInvite_frame {ι δ : Type} (sys : Sys ι δ)
    (R : δ × Option ι → δ × Option ι → Prop) (hrefl : ∀ w, R w w)
    (htrans : ∀ a b c, R a b → R b c → R a c) (hframe : sys.Frame R) (t : Textile ι δ)
    (plaintext : Bytes) :
    R t.world (Textile.handleThreadInvite sys t plaintext).state.world := by
  unfold Textile.handleThreadInvite
  cases sys.Unmarshal plaintext with
  | error err => exact hrefl _
  | ok block =>
    simp only []
    by_cases hty : block.Type_ ≠ .INVITE
    · rw [if_pos hty]
      exact hrefl _
    rw [if_neg hty]
    cases sys.UnmarshalAny block.Payload with
    | error err => exact hrefl _
    | ok msg =>
      simp only []
      cases sys.UnmarshalPrivateKey msg.Sk with
      | error err => exact hrefl _
      | ok sk =>
        simp only []
        cases sys.IDFromPrivateKey sk with
        | error err => exact hrefl _
        | ok id =>
          simp only []
          cases t.Thread id with
          | some _ => exact hrefl _
          | none =>
            have ha := Textile.AddThread_frame sys R hrefl htrans hframe t msg.Name sk false
            simp only []
            cases hadd : Textile.AddThread sys t msg.Name sk false with
            | blocks t1 => rw [hadd] at ha; exact ha
            | panics t1 => rw [hadd] at ha; exact ha
            | returns r t1 =>
              rw [hadd] at ha
              cases r with
              | error err => exact ha
              | ok thrd =>
                simp only [Textile.call_datastore, Textile.call_ipfs]
                have hh := hframe.handleInviteMessage thrd block (t1.datastore, t1.ipfs)
                rcases hhr : sys.handleInviteMessage thrd block (t1.datastore, t1.ipfs)
                  with ⟨e, w⟩
                rw [hhr] at hh
                have h1 : R t.world w := htrans _ _ _ ha hh
                cases e with
                | some err => exact h1
                | none =>
                  simp only []
                  cases hw : sys.WelcomeByThread
                    ((t1.call (.handleInviteMessage thrd.Id)).put w).datastore thrd.Id with
                  | error err => exact h1
                  | ok ds =>
                    have h2 : R t.world (ds, w.2) :=
                      htrans _ _ _ h1 (hframe.WelcomeByThread w.1 thrd.Id ds w.2 hw)
                    simp only []
                    cases sys.IDB58Decode block.Author with
                    | error err => exact h2
                    | ok author =>
                      simp only []
                      have hj := hframe.join thrd author (ds, w.2)
                      rcases hjr : sys.join thrd author
                        (ds, ((t1.call (.handleInviteMessage thrd.Id)).put w).ipfs) with ⟨r, w2⟩
                      have hjr2 : sys.join thrd author (ds, w.2) = (r, w2) := hjr
                      rw [hjr2] at hj
                      cases r with
                      | error err => exact htrans _ _ _ h2 hj
                      | ok hash => exact htrans _ _ _ h2 hj

/-- The collaborators of the examples leave the go-ipfs node alone. -/
theorem testSys_sameNode : testSys.Frame Sys.sameNode where
  ThreadsAdd := fun _ _ _ _ _ => rfl
  WelcomeByThread := fun _ _ _ _ _ => rfl
  joinInitial := fun _ _ => rfl
  handleInviteMessage := fun _ _ _ => rfl
  join := fun _ _ _ => rfl

/-- C18, amended: for an online node that fetches the ciphertext at `inviteID`,
`AcceptThreadInvite` unpins that path when the key is empty (external
invite): the call is made, and the go-ipfs node is left as `UnpinPath` returned
it. When a key is given (internal invite) it makes no unpin call at all, and
the go-ipfs node, its pins included, is left as it was. What is said of the
go-ipfs node holds as long as the writes to the datastore and the thread
methods run by the accept leave that node alone. -/
theorem AcceptThreadInvite_unpin {ι δ : Type} (sys : Sys ι δ) (t : Textile ι δ)
    (inviteID : String) (key : Bytes) (nd : ι) (ciphertext : Bytes)
    (honline : t.Online sys = true) (hipfs : t.ipfs = some nd)
    (hfetch : sys.DataAtPath nd inviteID = .ok ciphertext) :
    (key.length = 0 →
      NodeCall.UnpinPath inviteID ∈ (Textile.AcceptThreadInvite sys t inviteID key).state.log ∧
      (sys.Frame Sys.sameNode →
        (Textile.AcceptThreadInvite sys t inviteID key).state.ipfs
          = some (sys.UnpinPath nd inviteID).2)) ∧
    (key.length ≠ 0 →
      (∀ p, NodeCall.UnpinPath p ∈ (Textile.AcceptThreadInvite sys t inviteID key).state.log →
        NodeCall.UnpinPath p ∈ t.log) ∧
      (sys.Frame Sys.sameNode →
        (Textile.AcceptThreadInvite sys t inviteID key).state.ipfs = t.ipfs)) := by
  have hrefl : ∀ w : δ × Option ι, Sys.sameNode w w := fun _ => rfl
  have htrans : ∀ a b c : δ × Option ι, Sys.sameNode a b → Sys.sameNode b c →
      Sys.sameNode a c := fun _ _ _ h1 h2 => h2.trans h1
  unfold Textile.AcceptThreadInvite
  simp only [honline, hipfs, hfetch, Bool.not_true, Bool.false_eq_true, if_false]
  constructor
  · intro hk
    rw [if_pos hk]
    have hmem : NodeCall.UnpinPath inviteID ∈
        ({ (t.call (.DataAtPath inviteID)).call (.UnpinPath inviteID) with
            ipfs := some (sys.UnpinPath nd inviteID).2 }).log := by
      simp [Textile.call]
    have hstep := Textile.noUnpin_call
      ({ (t.call (.DataAtPath inviteID)).call (.UnpinPath inviteID) with
          ipfs := some (sys.UnpinPath nd inviteID).2 }) .Decrypt rfl
    cases sys.Decrypt (sys.PrivateKey (sys.UnpinPath nd inviteID).2) ciphertext with
    | error err => exact ⟨hstep.1 _ hmem, fun _ => rfl⟩
    | ok plaintext =>
      exact ⟨(Textile.handleThreadInvite_noUnpin sys _ plaintext).1 _ (hstep.1 _ hmem),
        fun hframe =>
          Textile.handleThreadInvite_frame sys Sys.sameNode hrefl htrans hframe _ plaintext⟩
  · intro hk
    rw [if_neg hk]
    have hstep : t.noUnpin ((t.call (.DataAtPath inviteID)).call .DecryptAES) :=
      Textile.noUnpin_trans (Textile.noUnpin_call t (.DataAtPath inviteID) rfl)
        (Textile.noUnpin_call _ .DecryptAES rfl)
    cases hd : sys.DecryptAES ciphertext key with
    | error err => exact ⟨fun p hp => hstep.2 p hp, fun _ => hipfs⟩
    | ok plaintext =>
      have hnode : sys.Frame Sys.sameNode →
          (Textile.handleThreadInvite sys ((t.call (.DataAtPath inviteID)).call .DecryptAES)
            plaintext).state.ipfs = t.ipfs := fun hframe =>
        Textile.handleThreadInvite_frame sys Sys.sameNode hrefl htrans hframe _ plaintext
      exact ⟨fun p hp =>
          hstep.2 p ((Textile.handleThreadInvite_noUnpin sys _ plaintext).2 p hp),
        fun hframe => (hnode hframe).trans hipfs⟩

/-- The witness of C18: the external invite `inv`, accepted with the empty
key, is unpinned and `new` and `txt` stay pinned. -/
theorem AcceptThreadInvite_unpin_witness :
    NodeCall.UnpinPath "inv" ∈ (Textile.AcceptThreadInvite testSys node2 "inv" []).state.log ∧
    (Textile.AcceptThreadInvite testSys node2 "inv" []).state.ipfs
      = some { online := true,
               blobs := [("inv", [7, 11, 1]), ("new", [9, 11, 5]), ("txt", [7, 8, 1])],
               pins := ["new", "txt"] } :=
  have h := (AcceptThreadInvite_unpin testSys node2 "inv" []
    { online := true, blobs := [("inv", [7, 11, 1]), ("new", [9, 11, 5]), ("txt", [7, 8, 1])],
      pins := ["inv", "new", "txt"] } [7, 11, 1] (by decide) (by rfl) (by rfl)).1 rfl
  ⟨h.1, h.2 testSys_sameNode⟩

/-- C18, as stated, fails: the online node fetches the internal invite `new`
and accepts it with the key `[9]`; the call returns the hash of the join, no
unpin is among the calls made, and `new` is still pinned. -/
theorem AcceptThreadInvite_keyed_pin :
    node2.Online testSys = true ∧
    (node2.ipfs.map fun nd => (testSys.DataAtPath nd "new").toOption) = some (some [9, 11, 5]) ∧
    ((Textile.AcceptThreadInvite testSys node2 "new" [9]).value.map fun r => r.toOption)
      = some (some (some (ascii "JOIN6"))) ∧
    (Textile.AcceptThreadInvite testSys node2 "new" [9]).state.log
      = [.DataAtPath "new", .DecryptAES, .ThreadsAdd "6", .NewThread "6",
         .handleInviteMessage "6", .WelcomeByThread "6", .join "6"] ∧
    NodeCall.UnpinPath "new" ∉ (Textile.AcceptThreadInvite testSys node2 "new" [9]).state.log ∧
    (Textile.AcceptThreadInvite testSys node2 "new" [9]).state.ipfs = node2.ipfs ∧
    ((Textile.AcceptThreadInvite testSys node2 "new" [9]).state.ipfs.map fun nd => nd.pins)
      = some ["inv", "new", "txt"] := by
  decide

/-! ### Broadcast channels -/

theorem Textile.createIPFS_chans {ι δ : Type} (sys : Sys ι δ) (t : Textile ι δ) (online : Bool) :
    (Textile.createIPFS sys t online).2.updates = t.updates ∧
    (Textile.createIPFS sys t online).2.threadUpdates = t.threadUpdates ∧
    (Textile.createIPFS sys t online).2.notifications = t.notifications := by
  unfold Textile.createIPFS
  cases sys.fsrepoOpen t.repoPath with
  | some err => exact ⟨rfl, rfl, rfl⟩
  | none =>
    simp only []
    cases sys.NewNode (t.call (.NewNode t.repoPath online)).repoPath online
      (t.call (.NewNode t.repoPath online)).isMobile with
    | error err => exact ⟨rfl, rfl, rfl⟩
    | ok nd =>
      simp only []
      cases hc : t.cancel <;> cases hi : t.ipfs <;>
        simp [Textile.call, hc, hi] <;>
        (try (split <;> simp))

/-- `loadThread` leaves the three broadcast channels as they are. -/
theorem Textile.loadThread_chans {ι δ : Type} (sys : Sys ι δ) (t : Textile ι δ)
    (mod : repo.Thread) :
    (Textile.loadThread sys t mod).2.updates = t.updates ∧
    (Textile.loadThread sys t mod).2.threadUpdates = t.threadUpdates ∧
    (Textile.loadThread sys t mod).2.notifications = t.notifications := by
  unfold Textile.loadThread
  cases t.Thread mod.Id with
  | some _ => exact ⟨rfl, rfl, rfl⟩
  | none =>
    cases sys.NewThread mod with
    | error err => exact ⟨rfl, rfl, rfl⟩
    | ok thrd => exact ⟨rfl, rfl, rfl⟩

/-- The loop over the thread rows leaves the three broadcast channels as they are. -/
theorem Textile.Start.loadThreads_chans {ι δ : Type} (sys : Sys ι δ) (mods : List repo.Thread) :
    ∀ t : Textile ι δ,
    (Textile.Start.loadThreads sys mods t).2.updates = t.updates ∧
    (Textile.Start.loadThreads sys mods t).2.threadUpdates = t.threadUpdates ∧
    (Textile.Start.loadThreads sys mods t).2.notifications = t.notifications := by
  induction mods with
  | nil => intro t; exact ⟨rfl, rfl, rfl⟩
  | cons mod mods ih =>
    intro t
    have hl := Textile.loadThread_chans sys t mod
    unfold Textile.Start.loadThreads
    rcases hlt : Textile.loadThread sys t mod with ⟨r, t1⟩
    rw [hlt] at hl
    simp only [] at hl
    obtain ⟨h1, h2, h3⟩ := hl
    have ih1 := ih t1
    rw [h1, h2, h3] at ih1
    cases r with
    | error err =>
      simp only []
      by_cases he : err = ErrThreadLoaded
      · rw [if_pos he]; exact ih1
      · rw [if_neg he]; exact ⟨h1, h2, h3⟩
    | ok thrd => exact ih1

/-- Starting the node and loading the threads keeps the channels made before. -/
theorem Textile.Start.body_tail_chans {ι δ : Type} (sys : Sys ι δ) (tb tc t1 : Textile ι δ)
    (hc : Textile.createIPFS sys tb false = (none, tc))
    (hl : Textile.Start.loadThreads sys (sys.ThreadsList tc.datastore)
      ((tc.call (.go "online")).call .ThreadsList) = (none, t1)) :
    t1.updates = tb.updates ∧ t1.threadUpdates = tb.threadUpdates ∧
    t1.notifications = tb.notifications := by
  have h1 := Textile.createIPFS_chans sys tb false
  have h2 := Textile.Start.loadThreads_chans sys (sys.ThreadsList tc.datastore)
    ((tc.call (.go "online")).call .ThreadsList)
  rw [hc] at h1
  rw [hl] at h2
  exact ⟨h2.1.trans h1.1, h2.2.1.trans h1.2.1, h2.2.2.trans h1.2.2⟩

/-- A body of `Start` that ends without error has made the three broadcast
channels with room for ten items, and nothing is queued. -/
theorem Textile.Start.body_chans {ι δ : Type} (sys : Sys ι δ) (t t1 : Textile ι δ)
    (h : Textile.Start.body sys t = (none, t1)) :
    t1.updates = some (Chan.make Update 10) ∧
    t1.threadUpdates = some (Chan.make ThreadUpdate 10) ∧
    t1.notifications = some (Chan.make Notification 10) := by
  unfold Textile.Start.body at h
  simp only [] at h
  split at h
  · simp at h
  · split at h
    · simp at h
    · split at h
      · simp at h
      · simp at h
      · split at h
        · simp at h
        · exact Textile.Start.body_tail_chans sys _ _ t1 (by assumption) h

/-- A `Start` that returns without error leaves the three broadcast channels
new, with room for ten items each. -/
theorem Textile.Start_chans {ι δ : Type} (sys : Sys ι δ) (t0 t : Textile ι δ)
    (h : Textile.Start sys t0 = .returns none t) :
    t.updates = some (Chan.make Update 10) ∧
    t.threadUpdates = some (Chan.make ThreadUpdate 10) ∧
    t.notifications = some (Chan.make Notification 10) := by
  unfold Textile.Start at h
  by_cases hs : t0.started = true
  · rw [if_pos hs] at h
    simp [ErrStarted] at h
  · rw [if_neg hs] at h
    rcases hb : Textile.Start.body sys t0 with ⟨e, t1⟩
    rw [hb] at h
    simp only [Textile.Start.deferred, Textile.call_datastore, Textile.call_ipfs] at h
    have hch : ∀ r : Run (Option Error) (Textile ι δ),
        r = .returns none t → r.state = t ∧ r.value = some none := by
      intro r hr; rw [hr]; exact ⟨rfl, rfl⟩
    have h2 := hch _ h
    revert h2
    split <;> (try split) <;> intro ⟨hst, hv⟩
    all_goals (simp only [Run.state, Run.value] at hst hv)
    all_goals (try simp at hv)
    all_goals
      subst hv
      have hbody := Textile.Start.body_chans sys t0 t1 hb
      rw [← hst]
      exact hbody

/-- C20, amended: a `Start` that returns without error has made the update,
thread-update and notification channels with capacity 10. On an open channel
of capacity 10, `sendUpdate`, `sendThreadUpdate` and `sendNotification` queue
the item behind the others while fewer than 10 are held; when 10 are held the
send blocks, and every queued item stays (`sendNotification` blocks after it
has written the notification to the datastore). -/
theorem send_full_blocks {ι δ : Type} (sys : Sys ι δ) (t0 t s : Textile ι δ)
    (cu : Chan Update) (ctu : Chan ThreadUpdate) (cn : Chan Notification)
    (u : Update) (tu : ThreadUpdate) (n : Notification) (ds : δ)
    (hstart : Textile.Start sys t0 = .returns none t)
    (hu : s.updates = some cu) (htu : s.threadUpdates = some ctu)
    (hn : s.notifications = some cn)
    (hcap : cu.cap = 10 ∧ ctu.cap = 10 ∧ cn.cap = 10)
    (hopen : cu.closed = false ∧ ctu.closed = false ∧ cn.closed = false)
    (hadd : sys.NotificationsAdd s.datastore n = .ok ds) :
    (t.updates = some (Chan.make Update 10) ∧
      t.threadUpdates = some (Chan.make ThreadUpdate 10) ∧
      t.notifications = some (Chan.make Notification 10)) ∧
    (cu.buf.length = 10 → s.sendUpdate u = .blocks s) ∧
    (cu.buf.length < 10 →
      s.sendUpdate u = .returns () { s with updates := some { cu with buf := cu.buf ++ [u] } }) ∧
    (ctu.buf.length = 10 → s.sendThreadUpdate tu = .blocks s) ∧
    (ctu.buf.length < 10 →
      s.sendThreadUpdate tu
        = .returns () { s with threadUpdates := some { ctu with buf := ctu.buf ++ [tu] } }) ∧
    (cn.buf.length = 10 →
      Textile.sendNotification sys s n
        = .blocks { s.call (.NotificationsAdd n.Id) with datastore := ds }) ∧
    (cn.buf.length < 10 →
      Textile.sendNotification sys s n
        = .returns none { s.call (.NotificationsAdd n.Id) with
            datastore := ds, notifications := some { cn with buf := cn.buf ++ [n] } }) := by
  obtain ⟨hc1, hc2, hc3⟩ := hcap
  obtain ⟨ho1, ho2, ho3⟩ := hopen
  refine ⟨Textile.Start_chans sys t0 t hstart, ?_, ?_, ?_, ?_, ?_, ?_⟩
  · intro hlen
    simp [Textile.sendUpdate, Chan.send, hu, ho1, hc1, hlen]
  · intro hlen
    simp [Textile.sendUpdate, Chan.send, hu, ho1, hc1, hlen]
  · intro hlen
    simp [Textile.sendThreadUpdate, Chan.send, htu, ho2, hc2, hlen]
  · intro hlen
    simp [Textile.sendThreadUpdate, Chan.send, htu, ho2, hc2, hlen]
  · intro hlen
    simp [Textile.sendNotification, Chan.send, hn, ho3, hc3, hlen, hadd, Textile.call]
  · intro hlen
    simp [Textile.sendNotification, Chan.send, hn, ho3, hc3, hlen, hadd, Textile.call]

/-- The witness of C20: `Start` on the fresh node, and the sends on the node
whose update channel holds ten items. -/
theorem send_full_blocks_witness :
    (node1.updates = some (Chan.make Update 10) ∧
      node1.threadUpdates = some (Chan.make ThreadUpdate 10) ∧
      node1.notifications = some (Chan.make Notification 10)) ∧
    (tenUpdates.length = 10 →
      nodeFull.sendUpdate testUpdate = .blocks nodeFull) ∧
    (tenUpdates.length < 10 →
      nodeFull.sendUpdate testUpdate
        = .returns () { nodeFull with
            updates := some { cap := 10, buf := tenUpdates ++ [testUpdate], closed := false } }) ∧
    ((Chan.make ThreadUpdate 10).buf.length = 10 →
      nodeFull.sendThreadUpdate testThreadUpdate = .blocks nodeFull) ∧
    ((Chan.make ThreadUpdate 10).buf.length < 10 →
      nodeFull.sendThreadUpdate testThreadUpdate
        = .returns () { nodeFull with threadUpdates := some { (Chan.make ThreadUpdate 10) with
            buf := (Chan.make ThreadUpdate 10).buf ++ [testThreadUpdate] } }) ∧
    ((Chan.make Notification 10).buf.length = 10 →
      Textile.sendNotification testSys nodeFull testNotification
        = .blocks { nodeFull.call (.NotificationsAdd testNotification.Id) with
            datastore := { nodeFull.datastore with notifications := ["n1"] } }) ∧
    ((Chan.make Notification 10).buf.length < 10 →
      Textile.sendNotification testSys nodeFull testNotification
        = .returns none { nodeFull.call (.NotificationsAdd testNotification.Id) with
            datastore := { nodeFull.datastore with notifications := ["n1"] },
            notifications := some { (Chan.make Notification 10) with
              buf := (Chan.make Notification 10).buf ++ [testNotification] } }) :=
  send_full_blocks testSys node0 node1 nodeFull
    { cap := 10, buf := tenUpdates, closed := false } (Chan.make ThreadUpdate 10)
    (Chan.make Notification 10) testUpdate
    testThreadUpdate testNotification { nodeFull.datastore with notifications := ["n1"] }
    (by rfl) (by rfl) (by rfl) (by rfl) (by decide) (by decide) (by rfl)

/-- C20, as stated, fails: after ten `AddThread` calls on the started node,
with no subscriber receiving, the update channel holds ten items; the
eleventh call does not return, and the channel holds the same ten items.
Likewise `sendUpdate` on a node with ten queued updates does not return and
leaves the ten items queued, the oldest included. -/
theorem AddThread_eleventh_blocks :
    (nodeAfter 10).started = true ∧
    ((nodeAfter 10).updates.map fun c => (c.cap, c.buf.length, c.closed)) = some (10, 10, false) ∧
    (Textile.AddThread testSys (nodeAfter 10) "t" [13] false).value.isNone = true ∧
    (Textile.AddThread testSys (nodeAfter 10) "t" [13] false).state.updates
      = (nodeAfter 10).updates ∧
    (nodeFull.updates.map fun c => (c.cap, c.buf, c.closed)) = some (10, tenUpdates, false) ∧
    (nodeFull.sendUpdate testUpdate).value = none ∧
    ((nodeFull.sendUpdate testUpdate).state.updates.map
      fun c => c.buf) = some tenUpdates ∧
    tenUpdates ≠ tenUpdates.tail ++ [testUpdate] := by
  decide

/-! ### The `sub` command -/

/-- The lines printed by two runs of calls, one after the other. -/
theorem CmdCall.outputs_append (a b : List CmdCall) :
    CmdCall.outputs (a ++ b) = CmdCall.outputs a ++ CmdCall.outputs b := by
  simp [CmdCall.outputs, List.filterMap_append]

/-- Decoding well-formed objects gives them all back. -/
theorem callSub.filterMap_ok (rest : List ThreadUpdate) :
    List.filterMap (fun r : Except Error ThreadUpdate => r.toOption) (rest.map .ok) = rest := by
  induction rest with
  | nil => rfl
  | cons u rest ih =>
    show u :: List.filterMap (fun r : Except Error ThreadUpdate => r.toOption) (rest.map .ok)
      = u :: rest
    rw [ih]

/-- At `Decode`, the updates still to send are those of the rest of the body. -/
theorem callSub.pending_decode (rest : List ThreadUpdate) :
    (callSub.Goroutine.decode (rest.map .ok)).pending = rest :=
  callSub.filterMap_ok rest

/-- At the send, the update in hand comes first. -/
theorem callSub.pending_send (u : ThreadUpdate) (rest : List ThreadUpdate) :
    (callSub.Goroutine.send u (rest.map .ok)).pending = u :: rest :=
  congrArg (fun l => u :: l) (callSub.filterMap_ok rest)

/-- A step of the goroutine keeps `subCmd.Inv`. -/
theorem callSub_step_inv (env : CmdEnv) (threadId : String) (types : List String)
    (req : Response) (body : List ThreadUpdate)
    (hreq : env.request GET ("sub" ++ threadId) { opts := [("type", strings.Join types "|")] }
      = .ok req)
    (hstatus : req.StatusCode < 400) (hbody : req.Body = body.map .ok)
    (a b : subCmd.State) (ha : subCmd.Inv env threadId types body a)
    (hstep : callSub.step env a = some b) : subCmd.Inv env threadId types body b := by
  obtain ⟨hloop, hopen, hg⟩ := ha
  unfold callSub.step at hstep
  rcases hg with ⟨hs, hbuf, hout⟩ | ⟨hs | ⟨rest, hs⟩ | ⟨u, rest, hs⟩, hsum⟩
  · rw [hs] at hstep
    simp only [hreq, ge_iff_le, Nat.not_le.2 hstatus, if_false, Option.some.injEq] at hstep
    subst hstep
    refine ⟨hloop, hopen, Or.inr ⟨Or.inr (Or.inl ⟨body, by simp [hbody]⟩), ?_⟩⟩
    show CmdCall.outputs (a.calls ++ _) ++ (a.updates.buf ++
      (callSub.Goroutine.decode req.Body).pending).map (subCmd.indent env) = _
    rw [hbody, callSub.pending_decode, CmdCall.outputs_append, hout, hbuf]
    rfl
  · rw [hs] at hstep
    simp at hstep
  · rw [hs] at hstep hsum
    rw [callSub.pending_decode] at hsum
    cases rest with
    | nil =>
      simp only [List.map_nil, Option.some.injEq] at hstep
      subst hstep
      refine ⟨hloop, hopen, Or.inr ⟨Or.inl rfl, ?_⟩⟩
      show CmdCall.outputs (a.calls ++ _) ++ (a.updates.buf ++
        callSub.Goroutine.done.pending).map (subCmd.indent env) = _
      rw [CmdCall.outputs_append]
      simpa [CmdCall.outputs, callSub.Goroutine.pending] using hsum
    | cons u rest =>
      simp only [List.map_cons, Option.some.injEq] at hstep
      subst hstep
      refine ⟨hloop, hopen, Or.inr ⟨Or.inr (Or.inr ⟨u, rest, rfl⟩), ?_⟩⟩
      show CmdCall.outputs a.calls ++ (a.updates.buf ++
        (callSub.Goroutine.send u (rest.map .ok)).pending).map (subCmd.indent env) = _
      rw [callSub.pending_send]
      exact hsum
  · rw [hs] at hstep hsum
    rw [callSub.pending_send] at hsum
    simp only [Chan.send, hopen, Bool.false_eq_true, if_false] at hstep
    by_cases hroom : a.updates.buf.length < a.updates.cap
    · simp only [hroom, if_true, Option.some.injEq] at hstep
      subst hstep
      refine ⟨hloop, rfl, Or.inr ⟨Or.inr (Or.inl ⟨rest, rfl⟩), ?_⟩⟩
      show CmdCall.outputs a.calls ++ ((a.updates.buf ++ [u]) ++
        (callSub.Goroutine.decode (rest.map .ok)).pending).map (subCmd.indent env) = _
      rw [callSub.pending_decode]
      simpa using hsum
    · simp [hroom] at hstep

/-- A turn of the loop keeps `subCmd.Inv`, when every update can be printed. -/
theorem subCmd_step_inv (env : CmdEnv) (threadId : String) (types : List String)
    (body : List ThreadUpdate) (hjson : ∀ u, ∃ data, env.MarshalIndent u = .ok data)
    (a b : subCmd.State) (ha : subCmd.Inv env threadId types body a)
    (hstep : subCmd.Execute.step env a = some b) : subCmd.Inv env threadId types body b := by
  obtain ⟨hloop, hopen, hg⟩ := ha
  unfold subCmd.Execute.step at hstep
  rw [hloop] at hstep
  simp only [Chan.recv] at hstep
  cases hb : a.updates.buf with
  | nil => simp [hb, hopen] at hstep
  | cons u rest =>
    obtain ⟨data, hdata⟩ := hjson u
    simp only [hb, hdata, Option.some.injEq] at hstep
    subst hstep
    have hind : subCmd.indent env u = data := by simp [subCmd.indent, hdata]
    refine ⟨rfl, hopen, ?_⟩
    rcases hg with ⟨_, hbuf, _⟩ | ⟨hform, hsum⟩
    · rw [hb] at hbuf
      cases hbuf
    · refine Or.inr ⟨hform, ?_⟩
      rw [hb] at hsum
      show CmdCall.outputs (a.calls ++ [CmdCall.output data]) ++ (rest ++
        a.goroutine.pending).map (subCmd.indent env) = _
      rw [CmdCall.outputs_append]
      simpa [CmdCall.outputs, hind] using hsum

/-- Every state the command reaches satisfies `subCmd.Inv`. -/
theorem subCmd.Reachable_inv (env : CmdEnv) (threadId : String) (types : List String)
    (req : Response) (body : List ThreadUpdate) (s0 : subCmd.State)
    (hreq : env.request GET ("sub" ++ threadId) { opts := [("type", strings.Join types "|")] }
      = .ok req)
    (hstatus : req.StatusCode < 400) (hbody : req.Body = body.map .ok)
    (hjson : ∀ u, ∃ data, env.MarshalIndent u = .ok data)
    (h0 : subCmd.Inv env threadId types body s0) (s : subCmd.State)
    (h : subCmd.Reachable env s0 s) : subCmd.Inv env threadId types body s := by
  induction h with
  | start => exact h0
  | goroutine _ hstep ih =>
    exact callSub_step_inv env threadId types req body hreq hstatus hbody _ _ ih hstep
  | loop _ hstep ih =>
    exact subCmd_step_inv env threadId types body hjson _ _ ih hstep

/-- With the loop taking each update as soon as it is queued, the goroutine
gets through the whole body and returns; the channel is left open and empty. -/
theorem subCmd.Reachable_drain (env : CmdEnv) (s0 : subCmd.State)
    (hjson : ∀ u, ∃ data, env.MarshalIndent u = .ok data) (rest : List ThreadUpdate) :
    ∀ a : subCmd.State, subCmd.Reachable env s0 a → a.goroutine = .decode (rest.map .ok) →
      a.loop = .receive → a.updates = Chan.make ThreadUpdate 10 →
      ∃ b : subCmd.State, subCmd.Reachable env s0 b ∧ b.goroutine = .done ∧
        b.loop = .receive ∧ b.updates = Chan.make ThreadUpdate 10 ∧
        CmdCall.outputs b.calls = CmdCall.outputs a.calls ++ rest.map (subCmd.indent env) := by
  induction rest with
  | nil =>
    intro a ha hg hl hu
    refine ⟨{ a.call .BodyClose with goroutine := .done }, ?_, rfl, hl, hu, ?_⟩
    · refine subCmd.Reachable.goroutine ha ?_
      simp [callSub.step, hg]
    · simp [subCmd.State.call, CmdCall.outputs_append, CmdCall.outputs]
  | cons u rest ih =>
    intro a ha hg hl hu
    obtain ⟨data, hdata⟩ := hjson u
    have hind : subCmd.indent env u = data := by simp [subCmd.indent, hdata]
    have h1 : subCmd.Reachable env s0 { a with goroutine := .send u (rest.map .ok) } := by
      refine subCmd.Reachable.goroutine ha ?_
      simp [callSub.step, hg]
    have h2 : subCmd.Reachable env s0
        { a with goroutine := .decode (rest.map .ok),
                 updates := { cap := 10, buf := [u], closed := false } } := by
      refine subCmd.Reachable.goroutine h1 ?_
      simp [callSub.step, Chan.send, hu, Chan.make]
    have h3 : subCmd.Reachable env s0
        { goroutine := .decode (rest.map .ok), loop := a.loop,
          updates := Chan.make ThreadUpdate 10, calls := a.calls ++ [.output data] } := by
      refine subCmd.Reachable.loop h2 ?_
      simp [subCmd.Execute.step, hl, Chan.recv, hdata, subCmd.State.call, Chan.make]
    obtain ⟨b, hb, hbg, hbl, hbu, hbo⟩ := ih _ h3 rfl hl rfl
    refine ⟨b, hb, hbg, hbl, hbu, ?_⟩
    rw [hbo]
    simp [CmdCall.outputs_append, CmdCall.outputs, hind]

/-- C21 fails at the end of the body: let the server answer the `sub` request
with a status below 400 and a body of well-formed updates, and let every
update be printable. Then in every state the command reaches, by any
interleaving of the goroutine of `callSub` and the loop of `Execute`, the
channel is still open and `Execute` has not returned, while what is printed
is a prefix of the updates in order. One reachable state has all of them
printed, the goroutine returned and the channel open and empty: there
neither side can move, so `Execute` waits for ever instead of returning
`nil`. -/
theorem callSub_never_closes (env : CmdEnv) (threadId : String) (types : List String)
    (req : Response) (body : List ThreadUpdate)
    (hreq : env.request GET ("sub" ++ (if threadId ≠ "" then "/" ++ threadId else threadId))
      { opts := [("type", strings.Join types "|")] } = .ok req)
    (hstatus : req.StatusCode < 400) (hbody : req.Body = body.map .ok)
    (hjson : ∀ u, ∃ data, env.MarshalIndent u = .ok data) :
    (∀ s, subCmd.Reachable env (subCmd.Execute.start threadId types) s →
      s.loop = .receive ∧ s.updates.closed = false ∧
      CmdCall.outputs s.calls <+: body.map (subCmd.indent env)) ∧
    ∃ s, subCmd.Reachable env (subCmd.Execute.start threadId types) s ∧
      s.goroutine = .done ∧
      CmdCall.outputs s.calls = body.map (subCmd.indent env) ∧
      s.updates = Chan.make ThreadUpdate 10 ∧ s.loop = .receive ∧
      callSub.step env s = none ∧ subCmd.Execute.step env s = none := by
  have h0 : subCmd.Inv env (if threadId ≠ "" then "/" ++ threadId else threadId) types body
      (subCmd.Execute.start threadId types) :=
    ⟨rfl, rfl, Or.inl ⟨rfl, rfl, rfl⟩⟩
  constructor
  · intro s hs
    obtain ⟨hl, ho, hg⟩ := subCmd.Reachable_inv env _ types req body _ hreq hstatus hbody
      hjson h0 s hs
    refine ⟨hl, ho, ?_⟩
    rcases hg with ⟨_, _, hout⟩ | ⟨_, hsum⟩
    · rw [hout]
      exact List.nil_prefix
    · exact ⟨_, hsum⟩
  · have h1 : subCmd.Reachable env (subCmd.Execute.start threadId types)
        { (subCmd.Execute.start threadId types).call (.request GET
            ("sub" ++ (if threadId ≠ "" then "/" ++ threadId else threadId))
            { opts := [("type", strings.Join types "|")] }) with
          goroutine := .decode (body.map .ok) } := by
      refine subCmd.Reachable.goroutine subCmd.Reachable.start ?_
      simp only [callSub.step, callSub, subCmd.Execute.start, subCmd.State.call, hreq, ge_iff_le, Nat.not_le.2 hstatus, if_false, hbody]
    obtain ⟨b, hb, hbg, hbl, hbu, hbo⟩ :=
      subCmd.Reachable_drain env _ hjson body _ h1 rfl rfl rfl
    refine ⟨b, hb, hbg, ?_, hbu, hbl, ?_, ?_⟩
    · rw [hbo]
      simp [subCmd.State.call, callSub, subCmd.Execute.start, CmdCall.outputs]
    · simp [callSub.step, hbg]
    · simp [subCmd.Execute.step, hbl, hbu, Chan.recv, Chan.make]

/-- The witness of C21: a server that answers `sub/2` with two updates and
closes the body. -/
theorem callSub_never_closes_witness :
    (∀ s, subCmd.Reachable testCmdEnv (subCmd.Execute.start "2" []) s →
      s.loop = .receive ∧ s.updates.closed = false ∧
      CmdCall.outputs s.calls <+: testBody.map (subCmd.indent testCmdEnv)) ∧
    ∃ s, subCmd.Reachable testCmdEnv (subCmd.Execute.start "2" []) s ∧
      s.goroutine = .done ∧
      CmdCall.outputs s.calls = testBody.map (subCmd.indent testCmdEnv) ∧
      s.updates = Chan.make ThreadUpdate 10 ∧ s.loop = .receive ∧
      callSub.step testCmdEnv s = none ∧ subCmd.Execute.step testCmdEnv s = none :=
  callSub_never_closes testCmdEnv "2" []
    { StatusCode := 200, text := .ok "", Body := testBody.map .ok } testBody rfl (by decide) rfl
    (fun u => ⟨u.ThreadId ++ "/" ++ u.BlockId, rfl⟩)


/-! ### The `contacts` commands -/

/-- C30 fails for `add` without arguments: `addContactsCmd.Execute` tests
`len(args) < 2` first, so with no argument, as with one, it returns
`errMissingPeerAddress`, a different error from `errMissingPeerId`; only
`setApi` is called, no request is made. `getContactsCmd.Execute` without
arguments returns `errMissingPeerId`, again with no request. -/
theorem addContactsCmd.Execute_no_args (env : CmdEnv) (Username arg : String) :
    addContactsCmd.Execute env Username [] = (some errMissingPeerAddress, [.setApi]) ∧
    errMissingPeerAddress ≠ errMissingPeerId ∧
    addContactsCmd.Execute env Username [arg] = (some errMissingPeerAddress, [.setApi]) ∧
    getContactsCmd.Execute env [] = (some errMissingPeerId, [.setApi]) := by
  refine ⟨rfl, by decide, rfl, rfl⟩

/-! ### The cafe request store -/

/-- C22: for every store of `n` requests whose first listed request has a
non-empty id, `List("", -1)` returns all `n` requests, `List("", k)` the first
`min k n` of them, and `List(id, -1)`, with `id` the id of the first listed
request, the remaining `n - 1` requests, the first one left out. -/
theorem CafeRequestDB_List_pages (c : CafeRequestDB) (k : Nat) (first : CafeRequest)
    (rest : List CafeRequest) (hfirst : c.List "" (-1) = first :: rest)
    (hid : first.Id ≠ "") :
    c.List "" (-1) = c.rows ∧
    c.List "" k = c.rows.take k ∧
    (c.List "" k).length = min k c.rows.length ∧
    c.List first.Id (-1) = rest ∧
    (c.List first.Id (-1)).length = c.rows.length - 1 := by
  have hall : c.List "" (-1) = c.rows := by simp [CafeRequestDB.List]
  have hrows : c.rows = first :: rest := by rw [← hall, hfirst]
  have hoff : c.List first.Id (-1) = rest := by
    simp [CafeRequestDB.List, hid, hrows, List.dropWhile]
  have hk : ¬ ((k : Int) < 0) := by omega
  have htake : c.List "" k = c.rows.take k := by simp [CafeRequestDB.List, hk]
  refine ⟨hall, htake, ?_, hoff, ?_⟩
  · rw [htake, List.length_take]
  · rw [hoff, hrows]
    simp

/-- The witness of C22: the store of `TestCafeRequestDB_List`. -/
theorem CafeRequestDB_List_pages_witness :
    cafeRequests2.List "" (-1) = cafeRequests2.rows ∧
    cafeRequests2.List "" 1 = cafeRequests2.rows.take 1 ∧
    (cafeRequests2.List "" 1).length = min 1 cafeRequests2.rows.length ∧
    cafeRequests2.List "abcde" (-1)
      = [{ Id := "abcdef", TargetId := "zxy", CafeId := "boom", Type_ := CafeStoreRequest,
           Date := time.Unix 1060 0 }] ∧
    (cafeRequests2.List "abcde" (-1)).length = cafeRequests2.rows.length - 1 :=
  CafeRequestDB_List_pages cafeRequests2 1
    { Id := "abcde", TargetId := "zxy", CafeId := "boom", Type_ := CafeStoreThreadRequest,
      Date := time.Unix 1000 0 }
    [{ Id := "abcdef", TargetId := "zxy", CafeId := "boom", Type_ := CafeStoreRequest,
       Date := time.Unix 1060 0 }] (by decide) (by decide)

/-! ### Announce blocks -/

/-- What `buildAnnounce` leaves when it succeeds: the thread as it was, with the
two lookups recorded. -/
theorem Thread.buildAnnounce_ok {δ : Type} (sys : ThreadSys δ) (t : ThreadState δ)
    (msg : ThreadAnnounce) (t1 : ThreadState δ)
    (h : Thread.buildAnnounce sys t = (.ok msg, t1)) :
    t1.world = t.world ∧ t1.head = t.head ∧ t1.Id = t.Id ∧
    t1.log = t.log ++ Thread.buildAnnounce.calls := by
  unfold Thread.buildAnnounce at h
  cases hg : sys.GetUsername t.world with
  | error err =>
    rw [hg] at h
    cases h
  | ok username =>
    rw [hg] at h
    cases h
    exact ⟨rfl, rfl, rfl, by simp [ThreadState.call, Thread.buildAnnounce.calls]⟩

/-- What `buildAnnounce` leaves when it fails: the thread as it was, with the
failed lookup recorded. -/
theorem Thread.buildAnnounce_error {δ : Type} (sys : ThreadSys δ) (t : ThreadState δ)
    (err : Error) (t1 : ThreadState δ)
    (h : Thread.buildAnnounce sys t = (.error err, t1)) :
    t1.world = t.world ∧ t1.head = t.head ∧ t1.log = t.log ++ [.GetUsername false] := by
  unfold Thread.buildAnnounce at h
  cases hg : sys.GetUsername t.world with
  | error e =>
    rw [hg] at h
    cases h
    exact ⟨rfl, rfl, rfl⟩
  | ok username =>
    rw [hg] at h
    cases h

/-- C23: what `annouce` returns, where it leaves the head and which calls it
has made, by what its collaborators return. When `buildAnnounce` fails, or
`commitBlock`, or `indexBlock` of the committed block, or the head update to
the committed hash, the error is returned with the head as it was, and no
later call is made: `updateHead` is called only once `commitBlock` gave the
hash and `indexBlock` succeeded for it, `post` only once the head update
succeeded. When `post` fails its error is returned, the head being the
committed hash; when all succeed the committed hash is returned and is the
head. -/
theorem Thread.annouce_head {δ : Type} (sys : ThreadSys δ) (t : ThreadState δ) :
    (∀ err t1, Thread.buildAnnounce sys t = (.error err, t1) →
      (Thread.annouce sys t).1 = .error err ∧ (Thread.annouce sys t).2.head = t.head ∧
      (Thread.annouce sys t).2.world = t.world ∧
      (Thread.annouce sys t).2.log = t.log ++ [.GetUsername false]) ∧
    (∀ msg t1, Thread.buildAnnounce sys t = (.ok msg, t1) →
      (∀ err w1, sys.commitBlock t.world msg = (.error err, w1) →
        (Thread.annouce sys t).1 = .error err ∧ (Thread.annouce sys t).2.head = t.head ∧
        (Thread.annouce sys t).2.world = w1 ∧
        (Thread.annouce sys t).2.log
          = t.log ++ Thread.buildAnnounce.calls ++ [.commitBlock none]) ∧
      (∀ res w1, sys.commitBlock t.world msg = (.ok res, w1) →
        (∀ err w2, sys.indexBlock w1 res AnnounceBlock "" "" = (some err, w2) →
          (Thread.annouce sys t).1 = .error err ∧ (Thread.annouce sys t).2.head = t.head ∧
          (Thread.annouce sys t).2.world = w2 ∧
          (Thread.annouce sys t).2.log = t.log ++ Thread.buildAnnounce.calls ++
            [.commitBlock (some res.hash), .indexBlock res.hash false]) ∧
        (∀ w2, sys.indexBlock w1 res AnnounceBlock "" "" = (none, w2) →
          (∀ err w3, sys.UpdateHead w2 t.Id res.hash = (some err, w3) →
            (Thread.annouce sys t).1 = .error err ∧ (Thread.annouce sys t).2.head = t.head ∧
            (Thread.annouce sys t).2.world = w3 ∧
            (Thread.annouce sys t).2.log = t.log ++ Thread.buildAnnounce.calls ++
              [.commitBlock (some res.hash), .indexBlock res.hash true,
               .updateHead res.hash false]) ∧
          (∀ w3, sys.UpdateHead w2 t.Id res.hash = (none, w3) →
            (∀ err w4, sys.post w3 res (sys.Peers w3) = (some err, w4) →
              (Thread.annouce sys t).1 = .error err ∧
              (Thread.annouce sys t).2.head = res.hash ∧
              (Thread.annouce sys t).2.world = w4 ∧
              (Thread.annouce sys t).2.log = t.log ++ Thread.buildAnnounce.calls ++
                [.commitBlock (some res.hash), .indexBlock res.hash true,
                 .updateHead res.hash true, .post res.hash false]) ∧
            (∀ w4, sys.post w3 res (sys.Peers w3) = (none, w4) →
              (Thread.annouce sys t).1 = .ok res.hash ∧
              (Thread.annouce sys t).2.head = res.hash ∧
              (Thread.annouce sys t).2.world = w4 ∧
              (Thread.annouce sys t).2.log = t.log ++ Thread.buildAnnounce.calls ++
                [.commitBlock (some res.hash), .indexBlock res.hash true,
                 .updateHead res.hash true, .post res.hash true]))))) := by
  refine ⟨?_, ?_⟩
  · intro err t1 hb
    obtain ⟨hw, hh, hl⟩ := Thread.buildAnnounce_error sys t err t1 hb
    simp [Thread.annouce, hb, hh, hw, hl]
  · intro msg t1 hb
    obtain ⟨hw, hh, hid, hl⟩ := Thread.buildAnnounce_ok sys t msg t1 hb
    rw [← hw, ← hid]
    refine ⟨?_, ?_⟩
    · intro err w1 hc
      simp [Thread.annouce, hb, hc, ThreadState.call, hh, hl]
    · intro res w1 hc
      refine ⟨?_, ?_⟩
      · intro err w2 hi
        simp [Thread.annouce, hb, hc, hi, ThreadState.call, hh, hl]
      · intro w2 hi
        refine ⟨?_, ?_⟩
        · intro err w3 hu
          simp [Thread.annouce, Thread.updateHead, hb, hc, hi, hu, ThreadState.call, hh, hl]
        · intro w3 hu
          refine ⟨?_, ?_⟩
          · intro err w4 hp
            simp [Thread.annouce, Thread.updateHead, hb, hc, hi, hu, hp, ThreadState.call, hl]
          · intro w4 hp
            simp [Thread.annouce, Thread.updateHead, hb, hc, hi, hu, hp, ThreadState.call, hl]

/-- The witness of C23: on the test thread every collaborator succeeds, the
second block is committed, and its hash is returned and is the head. -/
theorem Thread.annouce_head_witness :
    (Thread.annouce testThreadSys testThread).1 = .ok [1] ∧
    (Thread.annouce testThreadSys testThread).2.head = [1] ∧
    (Thread.annouce testThreadSys testThread).2.world
      = { committed := [[0], [1]], indexed := [[0], [1]], posted := [[0], [1]] } ∧
    (Thread.annouce testThreadSys testThread).2.log = testThread.log ++
      Thread.buildAnnounce.calls ++
        [.commitBlock (some [1]), .indexBlock [1] true, .updateHead [1] true, .post [1] true] :=
  (((((Thread.annouce_head testThreadSys testThread).2
    { Username := "alice", Inboxes := ["cafe1"] }
    ((testThread.call (.GetUsername true)).call .CafeSessionsList) rfl).2
    { hash := [1] } { committed := [[0], [1]], indexed := [[0]], posted := [[0]] } rfl).2
    { committed := [[0], [1]], indexed := [[0], [1]], posted := [[0]] } rfl).2
    { committed := [[0], [1]], indexed := [[0], [1]], posted := [[0]] } rfl).2
    { committed := [[0], [1]], indexed := [[0], [1]], posted := [[0], [1]] } rfl

/-- A run of `annouce` on the test thread: the second block becomes the head. -/
theorem Thread.annouce_example :
    (Thread.annouce testThreadSys testThread).1.toOption = some [1] ∧
    (Thread.annouce testThreadSys testThread).2.head = [1] ∧
    (Thread.annouce testThreadSys testThread).2.log
      = [.GetUsername true, .CafeSessionsList, .commitBlock (some [1]), .indexBlock [1] true,
         .updateHead [1] true, .post [1] true] := by
  decide

/-! ### `Start` and the `started` flag -/

/-- Past the check of `started`, `Start` ends with the flag set, however it
ends. -/
theorem Textile.Start_started {ι δ : Type} (sys : Sys ι δ) (t : Textile ι δ)
    (h : t.started = false) : (Textile.Start sys t).state.started = true := by
  unfold Textile.Start Textile.Start.deferred
  simp only [h, Bool.false_eq_true, if_false]
  split <;> (try split) <;> rfl

/-- C24 fails: on a stopped node whose database cannot be reached, `Start`
returns the error of the reopen, and yet the deferred function has set
`started`: `Started()` is true afterwards, although no channel was made, and
a second `Start` is refused with `ErrStarted`. -/
theorem Start_failed_started :
    node0.started = false ∧
    (Textile.Start failSys node0).value = some (some "unable to open database file") ∧
    (Textile.Start failSys node0).state.started = true ∧
    (Textile.Start failSys node0).state.Started = true ∧
    (Textile.Start failSys node0).state.updates = none ∧
    (Textile.Start failSys (Textile.Start failSys node0).state).value
      = some (some ErrStarted) := by
  decide


/-! ### Contact inboxes -/

/-- A text without a single quote, closed by a quote that no quote follows, is
read as itself. -/
theorem sql.literal_plain (l : List Char) (d : Char) (rest : List Char)
    (hl : sql.quote ∉ l) (hd : d ≠ sql.quote) :
    sql.literal (l ++ sql.quote :: d :: rest) = some (l, d :: rest) := by
  induction l with
  | nil => simp [sql.literal, hd]
  | cons c l ih =>
    have hc : c ≠ sql.quote := fun h => hl (by simp [h])
    have hl' : sql.quote ∉ l := fun h => hl (by simp [h])
    have e : ∃ x xs, l ++ sql.quote :: d :: rest = x :: xs := by
      cases l with
      | nil => exact ⟨_, _, rfl⟩
      | cons x xs => exact ⟨_, _, rfl⟩
    obtain ⟨x, xs, hx⟩ := e
    have ih' := ih hl'
    rw [List.cons_append, hx]
    rw [hx] at ih'
    simp only [sql.literal, if_neg hc, ih', Option.map_some']

/-- The statement of `Get` for an id without a single quote and without a NUL
selects by that id. -/
theorem sql.selectById_plain (id : String) (hq : sql.quote ∉ id.data) (hn : sql.nul ∉ id.data) :
    sql.selectById
      (sql.selectContact ++ String.mk [sql.quote] ++ id ++ String.mk [sql.quote] ++ ";").data
      = some id := by
  have hdata : (sql.selectContact ++ String.mk [sql.quote] ++ id ++ String.mk [sql.quote]
      ++ ";").data = (sql.selectContact.data ++ [sql.quote]) ++ (id.data ++ sql.quote :: [';']) := by
    simp [String.data_append]
  have hnul : sql.nul ∉ (sql.selectContact.data ++ [sql.quote]) ++
      (id.data ++ sql.quote :: [';']) := by
    intro h
    rcases List.mem_append.1 h with h | h
    · revert h
      decide
    · rcases List.mem_append.1 h with h | h
      · exact hn h
      · revert h
        decide
  have hpre : (sql.selectContact.data ++ [sql.quote]).isPrefixOf
      ((sql.selectContact.data ++ [sql.quote]) ++ (id.data ++ sql.quote :: [';'])) = true := by
    rw [List.isPrefixOf_iff_prefix]
    exact List.prefix_append _ _
  have hdrop : ((sql.selectContact.data ++ [sql.quote]) ++ (id.data ++ sql.quote :: [';'])).drop
      (sql.selectContact.data.length + 1) = id.data ++ sql.quote :: [';'] := by
    have hlen : (sql.selectContact.data ++ [sql.quote]).length
        = sql.selectContact.data.length + 1 := by simp
    rw [← hlen, List.drop_left]
  rw [hdata]
  unfold sql.selectById
  rw [if_neg hnul, if_pos hpre, hdrop, sql.literal_plain id.data ';' [] hq (by decide)]
  rfl

/-- On an open table `Get` of an id without a single quote and without a NUL
returns the first contact of that id. -/
theorem ContactDB.Get_plain (other : List ContactRow → String → Except Error (List ContactRow))
    (c : ContactDB) (id : String) (hopen : c.closed = false) (hq : sql.quote ∉ id.data)
    (hn : sql.nul ∉ id.data) :
    c.Get other id = (ContactDB.handleQuery (c.rows.filter (fun r => r.id == id))).head? := by
  unfold ContactDB.Get ContactDB.db.Query
  simp only [hopen, Bool.false_eq_true, if_false, sql.selectById_plain id hq hn]

/-- For every contact whose id has no single quote and no NUL and whose inbox
ids are non-empty and hold no comma, after `Add` succeeds `Get` reads back the
inboxes given, in the same order; a contact without inboxes is stored as the
empty text, which splits into one empty piece, and reads back with no
inbox. -/
theorem ContactDB.Add_Get_plain
    (other : List ContactRow → String → Except Error (List ContactRow)) (c c' : ContactDB)
    (contact : Contact) (hq : sql.quote ∉ contact.Id.data) (hn : sql.nul ∉ contact.Id.data)
    (hwf : contact.wellFormed) (h : ContactDB.Add c contact = .ok c') :
    (c'.Get other contact.Id).map (fun r => r.Inboxes) = some contact.Inboxes ∧
    (contact.Inboxes = [] →
      (c'.Get other contact.Id).map (fun r => r.Inboxes) = some [] ∧
      strings.Split (strings.Join contact.Inboxes ",") = [""]) := by
  have hget : (c'.Get other contact.Id).map (fun r => r.Inboxes) = some contact.Inboxes := by
    unfold ContactDB.Add at h
    split at h
    · cases h
    · split at h
      · cases h
      · rename_i hclosed hany
        injection h with h
        subst h
        have hf : List.filter (fun r => r.id == contact.Id) c.rows = [] := by
          apply List.filter_eq_nil_iff.2
          intro r hr hid
          exact hany (List.any_eq_true.2 ⟨r, hr, hid⟩)
        rw [ContactDB.Get_plain other _ contact.Id (by simpa using hclosed) hq hn]
        simp only [ContactDB.handleQuery, List.filter_append, hf,
          List.nil_append, List.filter_cons, List.filter_nil, beq_self_eq_true, if_true,
          List.map_cons, List.map_nil, List.head?_cons, Option.map_some', ContactDB.scan]
        rw [strings.Split_Join contact.Inboxes hwf]
  refine ⟨hget, fun hnil => ⟨by rw [hget, hnil], ?_⟩⟩
  rw [hnil]
  rfl

/-- The contact `alice`, with two inboxes, added under a new id, reads back
with both. -/
theorem ContactDB.Add_Get_plain_example
    (other : List ContactRow → String → Except Error (List ContactRow)) :
    (contacts2.Get other "Qm3").map (fun r => r.Inboxes) = none ∧
    ((ContactDB.Add contacts2 { alice with Id := "Qm3" }).toOption.bind
      (fun db => db.Get other "Qm3")).map (fun r => r.Inboxes) = some ["cafe1", "cafe2"] := by
  constructor
  · rw [ContactDB.Get_plain other contacts2 "Qm3" rfl (by decide) (by decide)]
    decide
  · have h : (ContactDB.Add contacts2 { alice with Id := "Qm3" }).toOption
        = some { contacts2 with rows := contacts2.rows ++
            [{ id := "Qm3", address := "P1", username := "alice", inboxes := "cafe1,cafe2",
               added := 100 }] } := by decide
    rw [h]
    simp only [Option.some_bind]
    rw [ContactDB.Get_plain other _ "Qm3" rfl (by decide) (by decide)]
    decide

/-- C28 fails for a contact whose id holds a single quote. The contact `dave`,
with the id `a` quote quote `b` and the one inbox `cafe1`, is well formed and
`Add` stores it, by a bound parameter, under that id. `Get` of the same id
puts it between quotes into the statement, where the two quotes read as one:
the statement selects the id `a` quote `b`, and `Get` returns nil. When the
table holds `erin` under that other id, `Get` of the id of `dave` returns her
and her inboxes. And `Get` of the id of `erin`, whose one quote closes the
literal early, returns what the engine makes of a statement that is no select
by one id: nil when it answers with an error. -/
theorem ContactDB.Get_quoted
    (other : List ContactRow → String → Except Error (List ContactRow)) :
    dave.wellFormed ∧
    (ContactDB.Add contacts2 dave).toOption.map (fun db => db.rows.map (fun r => (r.id, r.inboxes)))
      = some [("Qm2", ""), ("Qm1", "cafe3"), (dave.Id, "cafe1")] ∧
    (ContactDB.Add contacts2 dave).toOption.map (fun db => db.Get other dave.Id) = some none ∧
    ((ContactDB.Add contacts2 erin).toOption.bind (fun db => (ContactDB.Add db dave).toOption)).map
      (fun db => (db.Get other dave.Id).map (fun r => (r.Username, r.Inboxes)))
      = some (some ("erin", ["cafe9"])) ∧
    (ContactDB.Add contacts2 erin).toOption.map (fun db => db.Get other erin.Id)
      = (ContactDB.Add contacts2 erin).toOption.map (fun db =>
          match other db.rows
            (sql.selectContact ++ String.mk [sql.quote] ++ erin.Id ++ String.mk [sql.quote]
              ++ ";") with
          | .error _ => none
          | .ok rows => (ContactDB.handleQuery rows).head?) := by
  refine ⟨?_, by decide, by rfl, by rfl, by rfl⟩
  intro p hp
  simp only [dave, List.mem_singleton] at hp
  subst hp
  decide

/-- The collaborators of the examples leave the notifications alone. -/
theorem testSys_sameNotifications : testSys.Frame testSys.sameNotifications where
  ThreadsAdd := by
    intro ds mod ds' nd h id
    simp only [testSys] at h
    split at h
    · cases h
    · cases h
      rfl
  WelcomeByThread := by
    intro ds i ds' nd h id
    cases h
    rfl
  joinInitial := fun _ _ _ => rfl
  handleInviteMessage := fun _ _ _ _ => rfl
  join := fun _ _ _ _ => rfl

/-- `AcceptThreadInvite` has no call on the notification store of its own: when
its collaborators leave the notifications alone, every notification reads
after the call as it did before, whatever the call returns. -/
theorem Textile.AcceptThreadInvite_notifications {ι δ : Type} (sys : Sys ι δ)
    (hframe : sys.Frame sys.sameNotifications) (t : Textile ι δ) (inviteID : String)
    (key : Bytes) (id : String) :
    sys.NotificationsGet (Textile.AcceptThreadInvite sys t inviteID key).state.datastore id
      = sys.NotificationsGet t.datastore id := by
  have hrefl : ∀ w : δ × Option ι, sys.sameNotifications w w := fun _ _ => rfl
  have htrans : ∀ a b c : δ × Option ι, sys.sameNotifications a b → sys.sameNotifications b c →
      sys.sameNotifications a c := fun _ _ _ h1 h2 i => (h2 i).trans (h1 i)
  unfold Textile.AcceptThreadInvite
  cases t.Online sys with
  | false => rfl
  | true =>
    simp only [Bool.not_true, Bool.false_eq_true, if_false]
    cases t.ipfs with
    | none => rfl
    | some nd =>
      simp only []
      cases sys.DataAtPath nd inviteID with
      | error err => rfl
      | ok ciphertext =>
        simp only []
        by_cases hk : key.length = 0
        · rw [if_pos hk]
          cases sys.Decrypt (sys.PrivateKey (sys.UnpinPath nd inviteID).2) ciphertext with
          | error err => rfl
          | ok plaintext =>
            exact Textile.handleThreadInvite_frame sys sys.sameNotifications hrefl htrans hframe
              _ plaintext id
        · rw [if_neg hk]
          cases sys.DecryptAES ciphertext key with
          | error err => rfl
          | ok plaintext =>
            exact Textile.handleThreadInvite_frame sys sys.sameNotifications hrefl htrans hframe
              _ plaintext id

/-- C29: when no notification has the id, or the notification is not of type
`ReceivedInviteNotification`, the call returns an error and the node is as it
was. Otherwise the invite at `notification.BlockId` is accepted with the empty
key. When the accept returns an error, that error is returned and no delete is
made: the node is the one the accept left, in which every notification reads
as before the call (the thread methods and datastore writes that the accept
runs being taken to leave the notifications alone). When the accept returns a
hash, the notification of that id is deleted from the datastore the accept
left, and the hash is returned together with the error of the delete. -/
theorem AcceptThreadInviteViaNotification_delete {ι δ : Type} (sys : Sys ι δ)
    (t : Textile ι δ) (id : String) :
    (sys.NotificationsGet t.datastore id = none →
      Textile.AcceptThreadInviteViaNotification sys t id
        = .returns (none, some ("could not find notification: " ++ id)) t) ∧
    (∀ n, sys.NotificationsGet t.datastore id = some n →
      n.Type_ ≠ ReceivedInviteNotification →
      Textile.AcceptThreadInviteViaNotification sys t id
        = .returns (none, some "notification not invite type") t) ∧
    (∀ n, sys.NotificationsGet t.datastore id = some n →
      n.Type_ = ReceivedInviteNotification →
      (∀ err t', Textile.AcceptThreadInvite sys t n.BlockId [] = .returns (.error err) t' →
        Textile.AcceptThreadInviteViaNotification sys t id = .returns (none, some err) t' ∧
        (sys.Frame sys.sameNotifications →
          ∀ i, sys.NotificationsGet t'.datastore i = sys.NotificationsGet t.datastore i)) ∧
      (∀ hash t', Textile.AcceptThreadInvite sys t n.BlockId [] = .returns (.ok hash) t' →
        Textile.AcceptThreadInviteViaNotification sys t id
          = .returns (hash, (sys.NotificationsDelete t'.datastore id).1)
              { t'.call (.NotificationsDelete id) with
                datastore := (sys.NotificationsDelete t'.datastore id).2 })) := by
  refine ⟨?_, ?_, ?_⟩
  · intro h
    simp [Textile.AcceptThreadInviteViaNotification, h]
  · intro n h hty
    simp [Textile.AcceptThreadInviteViaNotification, h, hty]
  · intro n h hty
    constructor
    · intro err t' ha
      refine ⟨?_, ?_⟩
      · simp [Textile.AcceptThreadInviteViaNotification, h, hty, ha]
      · intro hframe i
        have hn := Textile.AcceptThreadInvite_notifications sys hframe t n.BlockId [] i
        rw [ha] at hn
        exact hn
    · intro hash t' ha
      simp [Textile.AcceptThreadInviteViaNotification, h, hty, ha]

/-- The witness of C29: the four notification ids `nope`, `msg`, `txt` and
`ext` on the online node; only `ext` is deleted, and after the failed accept
of `txt` the three notifications read as before. -/
theorem AcceptThreadInviteViaNotification_delete_witness :
    ((Textile.AcceptThreadInviteViaNotification testSys node3 "nope").value,
      (Textile.AcceptThreadInviteViaNotification testSys node3 "nope").state.datastore)
      = (some (none, some "could not find notification: nope"), node3.datastore) ∧
    ((Textile.AcceptThreadInviteViaNotification testSys node3 "msg").value,
      (Textile.AcceptThreadInviteViaNotification testSys node3 "msg").state.datastore)
      = (some (none, some "notification not invite type"), node3.datastore) ∧
    ((Textile.AcceptThreadInviteViaNotification testSys node3 "txt").value,
      (Textile.AcceptThreadInviteViaNotification testSys node3 "txt").state.datastore)
      = (some (none, some ErrInvalidThreadBlock), node3.datastore) ∧
    ((Textile.AcceptThreadInviteViaNotification testSys node3 "ext").value,
      (Textile.AcceptThreadInviteViaNotification testSys node3 "ext").state.datastore.notifications)
      = (some (some (ascii "JOIN6"), none), ["msg", "txt"]) ∧
    (testSys.NotificationsGet node3.datastore "nope" = none →
      Textile.AcceptThreadInviteViaNotification testSys node3 "nope"
        = .returns (none, some ("could not find notification: " ++ "nope")) node3) ∧
    (∀ i, testSys.NotificationsGet
        (Textile.AcceptThreadInviteViaNotification testSys node3 "txt").state.datastore i
      = testSys.NotificationsGet node3.datastore i) :=
  have h := AcceptThreadInviteViaNotification_delete testSys node3 "txt"
  ⟨by decide, by decide, by decide, by decide,
    (AcceptThreadInviteViaNotification_delete testSys node3 "nope").1,
    fun i => by
      have h3 := (h.2.2 _ (by rfl) (by decide)).1 ErrInvalidThreadBlock _ (by rfl)
      rw [h3.1]
      exact h3.2 testSys_sameNotifications i⟩


/-! ### The loaded thread list -/

/-- `sendUpdate` leaves the thread list as it is. -/
theorem Textile.sendUpdate_threads {ι δ : Type} (t : Textile ι δ) (u : Update) :
    (t.sendUpdate u).state.threads = t.threads := by
  unfold Textile.sendUpdate
  split <;> rfl

/-- `loadThread` leaves the list as it is or appends the thread it made, and
appends only when no thread of that id is loaded. -/
theorem Textile.loadThread_threads {ι δ : Type} (sys : Sys ι δ) (t : Textile ι δ)
    (mod : repo.Thread) :
    (Textile.loadThread sys t mod).2.threads = t.threads ∨
    ∃ thrd, sys.NewThread mod = .ok thrd ∧ t.Thread mod.Id = none ∧
      (Textile.loadThread sys t mod).2.threads = t.threads ++ [thrd] := by
  unfold Textile.loadThread
  cases hth : t.Thread mod.Id with
  | some _ => exact Or.inl rfl
  | none =>
    cases hn : sys.NewThread mod with
    | error err => exact Or.inl rfl
    | ok thrd => exact Or.inr ⟨thrd, rfl, rfl, rfl⟩

/-- `AddThread` leaves the list as it is or appends one thread, made by
`NewThread` from a row whose id is not loaded. -/
theorem Textile.AddThread_threads {ι δ : Type} (sys : Sys ι δ) (t : Textile ι δ)
    (name : String) (sk : Bytes) (join : Bool) :
    (Textile.AddThread sys t name sk join).state.threads = t.threads ∨
    ∃ mod thrd, sys.NewThread mod = .ok thrd ∧ t.Thread mod.Id = none ∧
      (Textile.AddThread sys t name sk join).state.threads = t.threads ++ [thrd] := by
  unfold Textile.AddThread
  cases sys.IDFromPrivateKey sk with
  | error err => exact Or.inl rfl
  | ok id =>
    cases sys.PrivKeyBytes sk with
    | error err => exact Or.inl rfl
    | ok skb =>
      simp only [Textile.call_datastore]
      cases sys.ThreadsAdd t.datastore { Id := id, Name := name, PrivKey := skb } with
      | error err => exact Or.inl rfl
      | ok ds =>
        have h2 := Textile.loadThread_threads sys
          ({ t.call (.ThreadsAdd id) with datastore := ds })
          { Id := id, Name := name, PrivKey := skb }
        simp only []
        rcases hl : Textile.loadThread sys ({ t.call (.ThreadsAdd id) with datastore := ds })
          { Id := id, Name := name, PrivKey := skb } with ⟨r, t2⟩
        rw [hl] at h2
        have h12 : t2.threads = t.threads ∨
            ∃ mod thrd, sys.NewThread mod = .ok thrd ∧ t.Thread mod.Id = none ∧
              t2.threads = t.threads ++ [thrd] := by
          rcases h2 with h | ⟨thrd, hn, hth, h⟩
          · exact Or.inl h
          · exact Or.inr ⟨_, thrd, hn, hth, h⟩
        cases r with
        | error err => exact h12
        | ok thrd =>
          simp only []
          have hsend : ∀ t3 : Textile ι δ, t3.threads = t2.threads →
              ((match t3.sendUpdate { Id := thrd.Id, Name := thrd.Name, Type_ := .ThreadAdded } with
                | .returns _ t => (Run.returns (.ok thrd) t : Run (Except Error core.Thread) _)
                | .blocks t => .blocks t
                | .panics t => .panics t).state.threads = t2.threads) := by
            intro t3 h23
            have h3 := Textile.sendUpdate_threads t3
              { Id := thrd.Id, Name := thrd.Name, Type_ := .ThreadAdded }
            cases hs : t3.sendUpdate { Id := thrd.Id, Name := thrd.Name, Type_ := .ThreadAdded }
              <;> rw [hs] at h3 <;> exact h3.trans h23
          have hP : ∀ l : List core.Thread, l = t2.threads → (l = t.threads ∨
              ∃ mod thrd, sys.NewThread mod = .ok thrd ∧ t.Thread mod.Id = none ∧
                l = t.threads ++ [thrd]) := by
            intro l hl2
            rw [hl2]
            exact h12
          cases join with
          | false => exact hP _ (hsend t2 rfl)
          | true =>
            simp only [if_true, Textile.call_datastore, Textile.call_ipfs]
            rcases hj : sys.joinInitial thrd (t2.datastore, t2.ipfs) with ⟨r, w⟩
            cases r with
            | error err => exact h12
            | ok _ => exact hP _ (hsend ((t2.call (.joinInitial thrd.Id)).put w) rfl)

/-- Appending a thread whose id is not loaded keeps the ids distinct. -/
theorem Textile.nodup_append {ι δ : Type} (t : Textile ι δ) (thrd : core.Thread) (id : String)
    (hinv : (t.threads.map fun th => th.Id).Nodup) (hth : t.Thread id = none)
    (hid : thrd.Id = id) : ((t.threads ++ [thrd]).map fun th => th.Id).Nodup := by
  rw [List.map_append, List.nodup_append]
  refine ⟨hinv, by simp, ?_⟩
  unfold Textile.Thread at hth
  rw [List.find?_eq_none] at hth
  intro a ha hb
  simp only [List.map_cons, List.map_nil, List.mem_singleton] at hb
  simp only [List.mem_map] at ha
  obtain ⟨x, hx, hxa⟩ := ha
  apply hth x hx
  simp [hxa, hb, hid]

/-- `RemoveThread` leaves the list as it is or takes out one position. -/
theorem Textile.RemoveThread_threads {ι δ : Type} (sys : Sys ι δ) (t : Textile ι δ)
    (id : String) :
    ∃ i, (Textile.RemoveThread sys t id).state.threads = t.threads ∨
      (Textile.RemoveThread sys t id).state.threads = t.threads.eraseIdx i := by
  refine ⟨t.threads.findIdx (fun th => th.Id == id), ?_⟩
  unfold Textile.RemoveThread
  by_cases hon : t.Online sys = true
  · simp only [hon, Bool.not_true, Bool.false_eq_true, if_false]
    cases t.threads.find? (fun th => th.Id == id) with
    | none => exact Or.inl rfl
    | some thrd =>
      simp only [Textile.call_datastore, Textile.call_ipfs]
      rcases sys.leave thrd (t.datastore, t.ipfs) with ⟨r, w⟩
      cases r with
      | error err => exact Or.inl rfl
      | ok addr =>
        simp only []
        cases sys.ThreadsDelete ((t.call (.leave thrd.Id)).put w).datastore thrd.Id with
        | error err => exact Or.inl rfl
        | ok ds =>
          simp only []
          have hsend : ∀ (t3 : Textile ι δ) (u : Update),
              ((match t3.sendUpdate u with
                | .returns _ t => (Run.returns (.ok addr) t : Run (Except Error Multihash) _)
                | .blocks t => .blocks t
                | .panics t => .panics t).state.threads = t3.threads) := by
            intro t3 u
            have h3 := Textile.sendUpdate_threads t3 u
            cases hs : t3.sendUpdate u <;> rw [hs] at h3 <;> exact h3
          exact Or.inr (hsend _ _)
  · simp only [hon, Bool.not_false, if_true]
    simp at hon
    simp [hon, Run.state]


/-- C25: the empty list has no two threads of one id, and from a list without
two threads of one id, `loadThread` (which returns `ErrThreadLoaded` and
leaves the node as it is when a thread of that id is loaded), `AddThread` and
`RemoveThread` all end with such a list, however they end; `NewThread` is
taken to give the thread the id of its row. Then `Thread(id)` returns a
thread exactly when it is a loaded thread of that id, and `nil` exactly when
there is none. -/
theorem threads_nodup {ι δ : Type} (sys : Sys ι δ)
    (hnew : ∀ mod thrd, sys.NewThread mod = .ok thrd → thrd.Id = mod.Id)
    (t : Textile ι δ) (hinv : (t.threads.map fun th => th.Id).Nodup) :
    (([] : List core.Thread).map fun th => th.Id).Nodup ∧
    (∀ mod, ((Textile.loadThread sys t mod).2.threads.map fun th => th.Id).Nodup ∧
      (∀ thrd, t.Thread mod.Id = some thrd →
        Textile.loadThread sys t mod = (.error ErrThreadLoaded, t))) ∧
    (∀ name sk join,
      ((Textile.AddThread sys t name sk join).state.threads.map fun th => th.Id).Nodup) ∧
    (∀ id, ((Textile.RemoveThread sys t id).state.threads.map fun th => th.Id).Nodup) ∧
    (∀ id thrd, t.Thread id = some thrd ↔ thrd ∈ t.threads ∧ thrd.Id = id) ∧
    (∀ id, t.Thread id = none ↔ ∀ thrd ∈ t.threads, thrd.Id ≠ id) := by
  refine ⟨List.nodup_nil, ?_, ?_, ?_, ?_, ?_⟩
  · intro mod
    constructor
    · rcases Textile.loadThread_threads sys t mod with h | ⟨thrd, hn, hth, h⟩
      · rw [h]
        exact hinv
      · rw [h]
        exact Textile.nodup_append t thrd mod.Id hinv hth (hnew mod thrd hn)
    · intro thrd hth
      simp [Textile.loadThread, hth]
  · intro name sk join
    rcases Textile.AddThread_threads sys t name sk join with h | ⟨mod, thrd, hn, hth, h⟩
    · rw [h]
      exact hinv
    · rw [h]
      exact Textile.nodup_append t thrd mod.Id hinv hth (hnew mod thrd hn)
  · intro id
    obtain ⟨i, h | h⟩ := Textile.RemoveThread_threads sys t id
    · rw [h]
      exact hinv
    · rw [h]
      exact hinv.sublist ((List.eraseIdx_sublist t.threads i).map _)
  · intro id thrd
    unfold Textile.Thread
    constructor
    · intro h
      exact ⟨List.mem_of_find?_eq_some h, by simpa using List.find?_some h⟩
    · intro ⟨hmem, hid⟩
      cases hf : t.threads.find? (fun thrd => thrd.Id == id) with
      | none =>
        rw [List.find?_eq_none] at hf
        exact absurd (by simp [hid]) (hf thrd hmem)
      | some x =>
        have hx : x.Id = id := by simpa using List.find?_some hf
        have := List.inj_on_of_nodup_map hinv (List.mem_of_find?_eq_some hf) hmem
          (hx.trans hid.symm)
        rw [this]
  · intro id
    unfold Textile.Thread
    rw [List.find?_eq_none]
    simp

/-- The witness of C25: the online test node, with one thread loaded. -/
theorem threads_nodup_witness :
    (([] : List core.Thread).map fun th => th.Id).Nodup ∧
    (∀ mod, ((Textile.loadThread testSys node2 mod).2.threads.map fun th => th.Id).Nodup ∧
      (∀ thrd, node2.Thread mod.Id = some thrd →
        Textile.loadThread testSys node2 mod = (.error ErrThreadLoaded, node2))) ∧
    (∀ name sk join,
      ((Textile.AddThread testSys node2 name sk join).state.threads.map fun th => th.Id).Nodup) ∧
    (∀ id, ((Textile.RemoveThread testSys node2 id).state.threads.map fun th => th.Id).Nodup) ∧
    (∀ id thrd, node2.Thread id = some thrd ↔ thrd ∈ node2.threads ∧ thrd.Id = id) ∧
    (∀ id, node2.Thread id = none ↔ ∀ thrd ∈ node2.threads, thrd.Id ≠ id) :=
  threads_nodup testSys
    (fun mod thrd h => by
      have h2 : (Except.ok { Id := mod.Id, Name := mod.Name } : Except Error core.Thread)
          = .ok thrd := h
      injection h2 with h2
      rw [← h2])
    node2 (by decide)

/-! ### `RemoveThread` -/

/-- The first match of a list split around it is at the length of the part
before. -/
theorem findIdx_split {α : Type} (p : α → Bool) (as : List α) (b : α) (bs : List α)
    (has : ∀ a ∈ as, p a = false) (hb : p b = true) :
    (as ++ b :: bs).findIdx p = as.length := by
  induction as with
  | nil => simp [List.findIdx_cons, hb]
  | cons a as ih =>
    have ha : p a = false := has a (by simp)
    simp only [List.cons_append, List.findIdx_cons, ha, cond_false, List.length_cons]
    rw [ih (fun x hx => has x (by simp [hx]))]

/-- Taking out the position after a prefix leaves the prefix and the rest. -/
theorem eraseIdx_split {α : Type} (as : List α) (b : α) (bs : List α) :
    (as ++ b :: bs).eraseIdx as.length = as ++ bs := by
  induction as with
  | nil => rfl
  | cons a as ih => simp only [List.cons_append, List.length_cons, List.eraseIdx_cons_succ, ih]

/-- `RemoveThread` once the thread is found, has left and its row is deleted:
the list loses the first position of that id, then the update is sent. -/
theorem Textile.RemoveThread_found {ι δ : Type} (sys : Sys ι δ) (t : Textile ι δ) (id : String)
    (thrd : core.Thread) (addr : Multihash) (w : δ × Option ι) (ds : δ)
    (honline : t.Online sys = true)
    (h : t.threads.find? (fun th => th.Id == id) = some thrd)
    (hl : sys.leave thrd (t.datastore, t.ipfs) = (.ok addr, w))
    (hd : sys.ThreadsDelete w.1 thrd.Id = .ok ds) :
    Textile.RemoveThread sys t id =
      match Textile.sendUpdate
          { ((t.call (.leave thrd.Id)).put w).call (.ThreadsDelete thrd.Id) with
            datastore := ds,
            threads := t.threads.eraseIdx (t.threads.findIdx (fun th => th.Id == id)) }
          { Id := thrd.Id, Name := thrd.Name, Type_ := .ThreadRemoved } with
      | .returns _ t => .returns (.ok addr) t
      | .blocks t => .blocks t
      | .panics t => .panics t := by
  have hd2 : sys.ThreadsDelete
      (((t.call (.leave thrd.Id)).put w).call (.ThreadsDelete thrd.Id)).datastore thrd.Id
        = .ok ds := hd
  have hl2 : sys.leave thrd ((t.call (.leave thrd.Id)).datastore, (t.call (.leave thrd.Id)).ipfs)
      = (.ok addr, w) := hl
  unfold Textile.RemoveThread
  simp only [honline, Bool.not_true, Bool.false_eq_true, if_false, h, hl2, hd2]
  rfl

/-- C26: for an online node with thread list `L`. When no thread of `L` has the
id, `RemoveThread` returns an error and the node is as it was. When the
first thread of that id is `thrd`, at index `i` (`L = as ++ thrd :: bs` with
`i = as.length` and no thread of that id in `as`): if `leave` fails the error
is returned and `L` is unchanged; if `leave` and the delete succeed, the list
becomes `as ++ bs`, one shorter, and with room in the update channel the call
returns the address of the leave after queueing exactly one update, of type
`ThreadRemoved` with the id and name of `thrd`. -/
theorem RemoveThread_spec {ι δ : Type} (sys : Sys ι δ) (t : Textile ι δ) (id : String)
    (honline : t.Online sys = true) :
    (t.Thread id = none →
      Textile.RemoveThread sys t id = .returns (.error "thread not found") t) ∧
    (∀ thrd, t.Thread id = some thrd →
      ∃ as bs, t.threads = as ++ thrd :: bs ∧ (∀ a ∈ as, a.Id ≠ id) ∧ thrd.Id = id ∧
        t.threads.findIdx (fun th => th.Id == id) = as.length ∧
        (∀ err w, sys.leave thrd (t.datastore, t.ipfs) = (.error err, w) →
          Textile.RemoveThread sys t id
            = .returns (.error err) ((t.call (.leave thrd.Id)).put w) ∧
          (Textile.RemoveThread sys t id).state.threads = t.threads) ∧
        (∀ addr w ds, sys.leave thrd (t.datastore, t.ipfs) = (.ok addr, w) →
          sys.ThreadsDelete w.1 thrd.Id = .ok ds →
          (Textile.RemoveThread sys t id).state.threads = as ++ bs ∧
          (Textile.RemoveThread sys t id).state.threads = t.threads.eraseIdx as.length ∧
          (Textile.RemoveThread sys t id).state.threads.length + 1 = t.threads.length ∧
          (∀ c, t.updates = some c → c.closed = false → c.buf.length < c.cap →
            Textile.RemoveThread sys t id = .returns (.ok addr)
              { ((t.call (.leave thrd.Id)).put w).call (.ThreadsDelete thrd.Id) with
                datastore := ds, threads := as ++ bs,
                updates := some { c with buf := c.buf ++
                  [{ Id := thrd.Id, Name := thrd.Name, Type_ := .ThreadRemoved }] } }))) := by
  constructor
  · intro h
    unfold Textile.Thread at h
    simp [Textile.RemoveThread, honline, h]
  · intro thrd h
    unfold Textile.Thread at h
    obtain ⟨hp, as, bs, hsplit, has⟩ := List.find?_eq_some.1 h
    have hid : thrd.Id = id := by simpa using hp
    have has2 : ∀ a ∈ as, (a.Id == id) = false := by
      intro a ha
      simpa using has a ha
    have hidx : t.threads.findIdx (fun th => th.Id == id) = as.length := by
      rw [hsplit]
      exact findIdx_split _ as thrd bs has2 hp
    have herase : t.threads.eraseIdx as.length = as ++ bs := by
      rw [hsplit]
      exact eraseIdx_split as thrd bs
    refine ⟨as, bs, hsplit, fun a ha => by simpa using has2 a ha, hid, hidx, ?_, ?_⟩
    · intro err w hl
      have he : Textile.RemoveThread sys t id
          = .returns (.error err) ((t.call (.leave thrd.Id)).put w) := by
        simp [Textile.RemoveThread, honline, h, hl]
      exact ⟨he, by rw [he]; rfl⟩
    · intro addr w ds hl hd
      have heq := Textile.RemoveThread_found sys t id thrd addr w ds honline h hl hd
      have hthreads : (Textile.RemoveThread sys t id).state.threads = as ++ bs := by
        rw [heq]
        have hsend : ∀ (t3 : Textile ι δ) (u : Update),
            ((match t3.sendUpdate u with
              | .returns _ t => (Run.returns (.ok addr) t : Run (Except Error Multihash) _)
              | .blocks t => .blocks t
              | .panics t => .panics t).state.threads = t3.threads) := by
          intro t3 u
          have h3 := Textile.sendUpdate_threads t3 u
          cases hs : t3.sendUpdate u <;> rw [hs] at h3 <;> exact h3
        refine (hsend _ _).trans ?_
        show t.threads.eraseIdx (t.threads.findIdx (fun th => th.Id == id)) = as ++ bs
        rw [hidx, herase]
      refine ⟨hthreads, by rw [hthreads, herase], ?_, ?_⟩
      · rw [hthreads, hsplit]
        simp
        omega
      · intro c hc hopen hroom
        rw [heq]
        simp [Textile.put, hidx, herase, Textile.sendUpdate, Chan.send, hc, hopen, hroom,
          Textile.call]

/-- The witness of C26: removing the thread `2` of the online test node. -/
theorem RemoveThread_spec_witness :
    (node2.Thread "2" = none →
      Textile.RemoveThread testSys node2 "2" = .returns (.error "thread not found") node2) ∧
    (∀ thrd, node2.Thread "2" = some thrd →
      ∃ as bs, node2.threads = as ++ thrd :: bs ∧ (∀ a ∈ as, a.Id ≠ "2") ∧ thrd.Id = "2" ∧
        node2.threads.findIdx (fun th => th.Id == "2") = as.length ∧
        (∀ err w, testSys.leave thrd (node2.datastore, node2.ipfs) = (.error err, w) →
          Textile.RemoveThread testSys node2 "2"
            = .returns (.error err) ((node2.call (.leave thrd.Id)).put w) ∧
          (Textile.RemoveThread testSys node2 "2").state.threads = node2.threads) ∧
        (∀ addr w ds, testSys.leave thrd (node2.datastore, node2.ipfs) = (.ok addr, w) →
          testSys.ThreadsDelete w.1 thrd.Id = .ok ds →
          (Textile.RemoveThread testSys node2 "2").state.threads = as ++ bs ∧
          (Textile.RemoveThread testSys node2 "2").state.threads
            = node2.threads.eraseIdx as.length ∧
          (Textile.RemoveThread testSys node2 "2").state.threads.length + 1
            = node2.threads.length ∧
          (∀ c, node2.updates = some c → c.closed = false → c.buf.length < c.cap →
            Textile.RemoveThread testSys node2 "2" = .returns (.ok addr)
              { ((node2.call (.leave thrd.Id)).put w).call (.ThreadsDelete thrd.Id) with
                datastore := ds, threads := as ++ bs,
                updates := some { c with buf := c.buf ++
                  [{ Id := thrd.Id, Name := thrd.Name, Type_ := .ThreadRemoved }] } }))) :=
  RemoveThread_spec testSys node2 "2" (by decide)

/-- `RemoveThread` on the online test node: the only thread is taken out and
one update is queued. -/
theorem RemoveThread_example :
    node2.threads = [{ Id := "2", Name := "alpha" }] ∧
    (Textile.RemoveThread testSys node2 "2").value.map (fun r => r.toOption)
      = some (some (ascii "LEAVE2")) ∧
    (Textile.RemoveThread testSys node2 "2").state.threads = [] ∧
    (Textile.RemoveThread testSys node2 "2").state.updates
      = some { cap := 10, buf := [{ Id := "2", Name := "alpha", Type_ := .ThreadRemoved }],
               closed := false } ∧
    (Textile.RemoveThread testSys node2 "9").value.map (fun r => r.toOption) = some none ∧
    (Textile.RemoveThread testSys node2 "9").state.threads = node2.threads := by
  decide


/-! ### Reading stored content back -/

/-- The round trip on the test environment: the bytes read back are `"hello"`. -/
theorem FileData_example :
    (FileData sealEnv sealReadEnv worldS sealedRow.Hash).toOption = some (hello, sealedRow) ∧
    (FileData sealEnv sealReadEnv worldS "none").toOption = none := by
  decide

end Textile
